import Mathlib

/-!
GameAPI (api.js): frame update, entity physics, bounce, tween and cookies.

A shallow embedding of `src/api.js`.  Every JavaScript number is a rational
(`ℚ`).  The methods are embedded twice where rounding decides a property:
with exact operations (`Shape.update`, `Shape.run`), and with every operation
rounded to the nearest double (`Shape.updateD`, `Shape.runD`, over
`toDouble`); statements over the former are statements of exact arithmetic.
Infinities, NaN and subnormal numbers are not modelled.  Each constructor
function becomes a structure holding its `this` fields, each method a pure
function from the old object (and its arguments) to the new object together
with the calls it issues on the 2D drawing context, in order.  JavaScript
strings are lists of characters; the browser built-ins the cookie helpers
call are either written out (`split`, `indexOf`, `substring`) or taken as
parameters (`decodeURIComponent`, the date formatting).
-/

namespace GameAPI

/-- One call (or property assignment) on the canvas 2D context. -/
inductive DrawCall where
  /-- Call `context.clearRect(x, y, w, h)`. -/
  | clearRect (x y w h : ℚ)
  /-- Assignment `context.fillStyle = c`. -/
  | setFillStyle (c : String)
  /-- Assignment `context.font = f`. -/
  | setFont (f : String)
  /-- Call `context.fillRect(x, y, w, h)`. -/
  | fillRect (x y w h : ℚ)
  /-- Call `context.drawImage(img, x, y)`, the image named by its source. -/
  | drawImage (src : String) (x y : ℚ)
  /-- Call `context.beginPath()`. -/
  | beginPath
  /-- Call `context.arc(x, y, r, 0, Math.PI * 2)`: the angles are fixed. -/
  | arc (x y r : ℚ)
  /-- Call `context.fill()`. -/
  | fill
  /-- Call `context.fillText(txt, x, y)`. -/
  | fillText (txt : String) (x y : ℚ)
  deriving DecidableEq, Repr

/-- The `Game` object (api.js lines 13-51): the fields `update` reads or
writes.  `lastUpdate` is the timestamp stored by `start` / `update`. -/
structure Game where
  width : ℚ
  height : ℚ
  bgColor : String
  camX : ℚ
  camY : ℚ
  camVX : ℚ
  camVY : ℚ
  lastUpdate : ℚ
  deriving DecidableEq, Repr

/-- The method `Game.clear` (lines 31-35). -/
def Game.clear (this : Game) : List DrawCall :=
  [DrawCall.clearRect 0 0 this.width this.height,
   DrawCall.setFillStyle this.bgColor,
   DrawCall.fillRect 0 0 this.width this.height]

/-- The method `Game.update` (lines 40-49).  `time` is the value returned by
`getSystemTime()` in line 42.  The result is the new object, the returned
`cumTime`, and the drawing calls of `clear`. -/
def Game.update (this : Game) (time : ℚ) : Game × ℚ × List DrawCall :=
  let calls := this.clear
  let cumTime := time - this.lastUpdate
  let this := { this with lastUpdate := time }
  let this := { this with camX := this.camX + this.camVX * (cumTime / 1000) }
  let this := { this with camY := this.camY + this.camVY * (cumTime / 1000) }
  (this, cumTime, calls)

/-- The `Sprite` object (lines 60-97).  `src` and `imgHeight` stand for the
image element: its source and its `height` property (a pixel count). -/
structure Sprite where
  x : ℚ
  y : ℚ
  vx : ℚ
  vy : ℚ
  g : ℚ
  tv : ℚ
  visible : Bool
  floor : ℚ
  cor : ℚ
  src : String
  imgHeight : ℕ
  deriving DecidableEq, Repr

/-- The constructor `Sprite(src, x, y)` (lines 60-71); the image height is
supplied by the browser. -/
def Sprite.new (src : String) (x y : ℚ) (imgHeight : ℕ) : Sprite :=
  { x := x, y := y, vx := 0, vy := 0, g := 0, tv := -1, visible := true,
    floor := 0, cor := -1, src := src, imgHeight := imgHeight }

/-- Lines 74-77 of `Sprite.update`: gravity, then position. -/
def Sprite.integrate (this : Sprite) (cumTime : ℚ) : Sprite :=
  let time := cumTime / 1000
  let this := { this with vy := this.vy + this.g * time }
  let this := { this with x := this.x + this.vx * time }
  { this with y := this.y + this.vy * time }

/-- Lines 78-83 of `Sprite.update`: the floor test and the bounce. -/
def Sprite.bounce (this : Sprite) : Sprite :=
  if this.cor ≠ -1 then
    if this.y + (this.imgHeight : ℚ) ≥ this.floor then
      let this := { this with y := this.floor }
      { this with vy := this.vy * -this.cor }
    else this
  else this

/-- Lines 84-86 of `Sprite.update`: the draw call. -/
def Sprite.render (this : Sprite) (game : Game) : List DrawCall :=
  if this.visible then
    [DrawCall.drawImage this.src (this.x - game.camX) (this.y - game.camY)]
  else []

/-- The method `Sprite.update` (lines 73-87); `game` is the global session
whose camera the draw call reads. -/
def Sprite.update (this : Sprite) (game : Game) (cumTime : ℚ) :
    Sprite × List DrawCall :=
  let this := (this.integrate cumTime).bounce
  (this, this.render game)

/-- The method `Sprite.setCoefficientOfRestitution` (lines 93-96). -/
def Sprite.setCoefficientOfRestitution (this : Sprite) (floor cor : ℚ) : Sprite :=
  let this := { this with floor := floor }
  { this with cor := cor }

/-- The `Shape` object (lines 109-181).  `toX`, `toY` and `dur` are not set
by the constructor: they are `none` (JavaScript `undefined`) until `tween`
stores them. -/
structure Shape where
  x : ℚ
  y : ℚ
  vx : ℚ
  vy : ℚ
  g : ℚ
  tv : ℚ
  visible : Bool
  floor : ℚ
  cor : ℚ
  shape : String
  width : ℚ
  height : ℚ
  color : String
  inTween : Bool
  tweenTime : ℚ
  toX : Option ℚ
  toY : Option ℚ
  dur : Option ℚ
  deriving DecidableEq, Repr

/-- The constructor `Shape(shape, x, y, width, height, color)` (lines 109-124). -/
def Shape.new (shape : String) (x y width height : ℚ) (color : String) : Shape :=
  { x := x, y := y, vx := 0, vy := 0, g := 0, tv := -1, visible := true,
    floor := 0, cor := -1, shape := shape, width := width, height := height,
    color := color, inTween := false, tweenTime := 0,
    toX := none, toY := none, dur := none }

/-- Lines 127-130 of `Shape.update`: gravity, then position. -/
def Shape.integrate (this : Shape) (cumTime : ℚ) : Shape :=
  let time := cumTime / 1000
  let this := { this with vy := this.vy + this.g * time }
  let this := { this with x := this.x + this.vx * time }
  { this with y := this.y + this.vy * time }

/-- Lines 131-136 of `Shape.update`: the floor test and the bounce. -/
def Shape.bounce (this : Shape) : Shape :=
  if this.cor ≠ -1 then
    if this.y + this.height ≥ this.floor then
      let this := { this with y := this.floor - this.height }
      { this with vy := this.vy * -this.cor }
    else this
  else this

/-- The comparison `tweenTime >= dur` of line 140; it is false while `dur`
is still undefined. -/
def reachedDur (tweenTime : ℚ) : Option ℚ → Bool
  | some d => decide (tweenTime ≥ d)
  | none => false

/-- Lines 138-145 of `Shape.update`: tween bookkeeping. -/
def Shape.tweenStep (this : Shape) (cumTime : ℚ) : Shape :=
  if this.inTween then
    let this := { this with tweenTime := this.tweenTime + cumTime }
    if reachedDur this.tweenTime this.dur then
      let this := { this with inTween := false }
      let this := { this with vx := 0 }
      { this with vy := 0 }
    else this
  else this

/-- Lines 147-160 of `Shape.update`: the draw calls. -/
def Shape.render (this : Shape) (game : Game) : List DrawCall :=
  if this.visible then
    DrawCall.setFillStyle this.color ::
      (if this.shape = "square" then
        [DrawCall.fillRect (this.x - game.camX) (this.y - game.camY) this.width this.height]
      else if this.shape = "circle" then
        [DrawCall.beginPath,
         DrawCall.arc (this.x - game.camX) (this.y - game.camY) this.width,
         DrawCall.fill]
      else [])
  else []

/-- The method `Shape.update` (lines 126-161). -/
def Shape.update (this : Shape) (game : Game) (cumTime : ℚ) :
    Shape × List DrawCall :=
  let this := ((this.integrate cumTime).bounce).tweenStep cumTime
  (this, this.render game)

/-- The method `Shape.setCoefficientOfRestitution` (lines 167-170). -/
def Shape.setCoefficientOfRestitution (this : Shape) (floor cor : ℚ) : Shape :=
  let this := { this with floor := floor }
  { this with cor := cor }

/-- The method `Shape.tween` (lines 172-180). -/
def Shape.tween (this : Shape) (toX toY dur : ℚ) : Shape :=
  let this := { this with inTween := true }
  let this := { this with toX := some toX }
  let this := { this with toY := some toY }
  let this := { this with vx := (toX - this.x) / (dur / 1000) }
  let this := { this with vy := (toY - this.y) / (dur / 1000) }
  let this := { this with dur := some dur }
  { this with tweenTime := 0 }

/-- The `Text` object (lines 209-233).  `font`, `argColor` and `argFixed` are
the constructor arguments captured by the closure of `update`; `color` and
`fixed` are the fields initialised from them.  `visible` is a property the
constructor does not set and `update` does not read: it is `none`
(JavaScript `undefined`) unless the caller assigns it. -/
structure Text where
  txt : String
  x : ℚ
  y : ℚ
  vx : ℚ
  vy : ℚ
  g : ℚ
  tv : ℚ
  fixed : Bool
  color : String
  maxWidth : ℚ
  font : String
  argColor : String
  argFixed : Bool
  visible : Option Bool
  deriving DecidableEq, Repr

/-- The constructor `Text(txt, font, color, x, y, fixed)` (lines 209-219). -/
def Text.new (txt font color : String) (x y : ℚ) (fixed : Bool) : Text :=
  { txt := txt, x := x, y := y, vx := 0, vy := 0, g := 0, tv := -1,
    fixed := fixed, color := color, maxWidth := -1,
    font := font, argColor := color, argFixed := fixed, visible := none }

/-- Lines 221-224 of `Text.update`: gravity in seconds, position in raw
milliseconds. -/
def Text.integrate (this : Text) (cumTime : ℚ) : Text :=
  let sec := cumTime / 1000
  let this := { this with vy := this.vy + this.g * sec }
  let this := { this with x := this.x + this.vx * cumTime }
  { this with y := this.y + this.vy * cumTime }

/-- Lines 225-231 of `Text.update`: the draw calls. -/
def Text.render (this : Text) (game : Game) : List DrawCall :=
  [DrawCall.setFillStyle this.argColor,
   DrawCall.setFont this.font,
   if this.argFixed then DrawCall.fillText this.txt this.x this.y
   else DrawCall.fillText this.txt (this.x - game.camX) (this.y - game.camY)]

/-- The method `Text.update` (lines 220-232). -/
def Text.update (this : Text) (game : Game) (cumTime : ℚ) :
    Text × List DrawCall :=
  let this := this.integrate cumTime
  (this, this.render game)

/-- Successive `update` calls on a Sprite with the elapsed times of the list,
in order; the camera does not enter the physics. -/
def Sprite.run (game : Game) (this : Sprite) (es : List ℚ) : Sprite :=
  es.foldl (fun s e => (s.update game e).1) this

/-- Successive `update` calls on a Shape with the elapsed times of the list. -/
def Shape.run (game : Game) (this : Shape) (es : List ℚ) : Shape :=
  es.foldl (fun s e => (s.update game e).1) this

/-- Successive `update` calls on a Text with the elapsed times of the list. -/
def Text.run (game : Game) (this : Text) (es : List ℚ) : Text :=
  es.foldl (fun s e => (s.update game e).1) this

/-- A session with the camera at the origin, used by the worked examples. -/
def exGame : Game :=
  { width := 640, height := 480, bgColor := "white",
    camX := 0, camY := 0, camVX := 0, camVY := 0, lastUpdate := 0 }

/-- A falling Sprite of image height 10 with bounce enabled: floor 100,
cor 1/2, at y = 0 moving down at 1000 per second. -/
def exSprite : Sprite :=
  { (Sprite.new "ball.png" 0 0 10).setCoefficientOfRestitution 100 (1 / 2) with
    vy := 1000 }

/-- A falling square of height 10 with bounce enabled: floor 100, cor 1/2,
at y = 0 moving down at 1000 per second. -/
def exShape : Shape :=
  { (Shape.new "square" 0 0 10 10 "red").setCoefficientOfRestitution 100 (1 / 2) with
    vy := 1000 }

/-- The square of the bounce scenario: at (0,0), 10 by 10, g = 9.8,
floor 100, cor 1/2. -/
def scenarioShape : Shape :=
  { (Shape.new "square" 0 0 10 10 "red").setCoefficientOfRestitution 100 (1 / 2) with
    g := 98 / 10 }

/-- A Sprite with bounce disabled far below its floor (floor 0, y = 500,
image height 10), falling. -/
def sunkSprite : Sprite :=
  { Sprite.new "ball.png" 3 500 10 with vx := 20, vy := 40, g := 10 }

/-- A Shape with bounce disabled far below its floor (floor 0, y = 500,
height 10), falling. -/
def sunkShape : Shape :=
  { Shape.new "square" 3 500 10 10 "red" with vx := 20, vy := 40, g := 10 }

/-- A Text under gravity. -/
def exText : Text :=
  { Text.new "score" "12px serif" "black" 0 0 false with vy := 40, g := 10 }

/-- A session whose camera moves right at 10 per second, last updated at
timestamp 1000, with the camera at (7, 3). -/
def panGame : Game :=
  { width := 640, height := 480, bgColor := "white",
    camX := 7, camY := 3, camVX := 10, camVY := 0, lastUpdate := 1000 }

/-- A square under gravity (g = 10) with bounce disabled. -/
def heavyShape : Shape :=
  { Shape.new "square" 0 0 10 10 "red" with g := 10 }

/-- A square that is half way through `tween(100, 0, 1000)`, at x = 50. -/
def midTweenShape : Shape :=
  Shape.run exGame ((Shape.new "square" 0 0 10 10 "red").tween 100 0 1000) [500]

/-- A square with bounce enabled (floor 100, cor 1/2, height 10) whose lower
edge, at 105, is below the floor, still moving down at 4 per second. -/
def lowShape : Shape :=
  { (Shape.new "square" 0 95 10 10 "red").setCoefficientOfRestitution 100 (1 / 2) with
    vy := 4 }

/-- A square in the air (y = 20, floor 100) with bounce enabled, moving. -/
def airShape : Shape :=
  { (Shape.new "square" 5 20 10 10 "red").setCoefficientOfRestitution 100 (1 / 2) with
    vx := 3, vy := 4, g := 10 }

/-- A Sprite in the air (y = 20, floor 100) with bounce enabled, moving. -/
def airSprite : Sprite :=
  { (Sprite.new "ball.png" 5 20 10).setCoefficientOfRestitution 100 (1 / 2) with
    vx := 3, vy := 4, g := 10 }

/-- A draw call moved by `(dx, dy)`: the position arguments of the calls
that take a position are translated, everything else is kept. -/
def DrawCall.shift (dx dy : ℚ) : DrawCall → DrawCall
  | DrawCall.clearRect x y w h => DrawCall.clearRect (x + dx) (y + dy) w h
  | DrawCall.fillRect x y w h => DrawCall.fillRect (x + dx) (y + dy) w h
  | DrawCall.drawImage src x y => DrawCall.drawImage src (x + dx) (y + dy)
  | DrawCall.arc x y r => DrawCall.arc (x + dx) (y + dy) r
  | DrawCall.fillText txt x y => DrawCall.fillText txt (x + dx) (y + dy)
  | c => c

/-- Whether a call puts pixels on the surface; setting `fillStyle` or `font`,
`beginPath` and `arc` (which only extends the current path) do not. -/
def DrawCall.paints : DrawCall → Bool
  | DrawCall.clearRect _ _ _ _ => true
  | DrawCall.fillRect _ _ _ _ => true
  | DrawCall.drawImage _ _ _ => true
  | DrawCall.fill => true
  | DrawCall.fillText _ _ _ => true
  | _ => false

/-- A Text fixed to the screen at (10, 20). -/
def hudText : Text :=
  Text.new "lives" "12px serif" "black" 10 20 true

/-- A Text whose `visible` property the caller has set to false. -/
def hiddenText : Text :=
  { Text.new "score" "12px serif" "black" 10 20 false with visible := some false }

/-- A visible circle of width 10 and height 10 at (40, 80), bounce enabled
with floor 100 and cor 1/2. -/
def exCircle : Shape :=
  (Shape.new "circle" 40 80 10 10 "blue").setCoefficientOfRestitution 100 (1 / 2)

/-- The same circle with height 30 in place of 10. -/
def tallCircle : Shape :=
  (Shape.new "circle" 40 80 10 30 "blue").setCoefficientOfRestitution 100 (1 / 2)

/-- A visible Shape whose kind is neither "square" nor "circle". -/
def oddShape : Shape :=
  Shape.new "triangle" 0 0 10 10 "red"

/-- A square with cor = 0 resting on its floor: floor 100, height 10,
y = 90, vy = 0, under gravity 9.8. -/
def restingShape : Shape :=
  { (Shape.new "square" 0 90 10 10 "red").setCoefficientOfRestitution 100 0 with
    g := 98 / 10 }

/-- A square that is not in a tween, with cor = 0, floor 100 and height 10,
at y = 85 moving down at 50 per second. -/
def absorbShape : Shape :=
  { (Shape.new "square" 0 85 10 10 "red").setCoefficientOfRestitution 100 0 with
    vy := 50 }

/-! ## Double arithmetic -/

/-- The search behind `natLog2`: halves `n` until it is below 2, at most
`fuel` times. -/
def log2Aux : ℕ → ℕ → ℕ
  | 0, _ => 0
  | fuel + 1, n => if 2 ≤ n then log2Aux fuel (n / 2) + 1 else 0

/-- The position of the leading binary digit of a positive natural number. -/
def natLog2 (n : ℕ) : ℕ :=
  log2Aux n n

/-- The integer nearest to a rational, a tie going to the even one. -/
def roundHalfEven (m : ℚ) : ℤ :=
  if m - ⌊m⌋ < 1 / 2 then ⌊m⌋
  else if 1 / 2 < m - ⌊m⌋ then ⌊m⌋ + 1
  else if ⌊m⌋ % 2 = 0 then ⌊m⌋ else ⌊m⌋ + 1

/-- The binary exponent of a rational other than 0: the `e` with
`2^e <= |x| < 2^(e+1)`. -/
def binExp (x : ℚ) : ℤ :=
  if (2 : ℚ) ^ ((natLog2 x.num.natAbs : ℤ) - (natLog2 x.den : ℤ)) ≤ |x| then
    (natLog2 x.num.natAbs : ℤ) - (natLog2 x.den : ℤ)
  else (natLog2 x.num.natAbs : ℤ) - (natLog2 x.den : ℤ) - 1

/-- The value a JavaScript number takes for the exact result `x` of an
operation: the nearest IEEE 754 double (53 significant bits, ties to even).
The exponent range is not bounded: overflow, subnormal numbers, NaN and the
sign of zero are outside this model. -/
def toDouble (x : ℚ) : ℚ :=
  if x = 0 then 0
  else (roundHalfEven (x / 2 ^ (binExp x - 52)) : ℚ) * 2 ^ (binExp x - 52)

/-- The unit roundoff of doubles, `2^-53`: the largest relative error of one
rounding. -/
def unitRoundoff : ℚ :=
  1 / 2 ^ 53

/-- The JavaScript `a + b` on doubles. -/
def dadd (a b : ℚ) : ℚ :=
  toDouble (a + b)

/-- The JavaScript `a - b` on doubles. -/
def dsub (a b : ℚ) : ℚ :=
  toDouble (a - b)

/-- The JavaScript `a * b` on doubles. -/
def dmul (a b : ℚ) : ℚ :=
  toDouble (a * b)

/-- The JavaScript `a / b` on doubles, for `b` other than 0. -/
def ddiv (a b : ℚ) : ℚ :=
  toDouble (a / b)

/-- Lines 127-130 of `Shape.update` in double arithmetic. -/
def Shape.integrateD (this : Shape) (cumTime : ℚ) : Shape :=
  let time := ddiv cumTime 1000
  let this := { this with vy := dadd this.vy (dmul this.g time) }
  let this := { this with x := dadd this.x (dmul this.vx time) }
  { this with y := dadd this.y (dmul this.vy time) }

/-- Lines 131-136 of `Shape.update` in double arithmetic. -/
def Shape.bounceD (this : Shape) : Shape :=
  if this.cor ≠ -1 then
    if dadd this.y this.height ≥ this.floor then
      let this := { this with y := dsub this.floor this.height }
      { this with vy := dmul this.vy (-this.cor) }
    else this
  else this

/-- Lines 138-145 of `Shape.update` in double arithmetic. -/
def Shape.tweenStepD (this : Shape) (cumTime : ℚ) : Shape :=
  if this.inTween then
    let this := { this with tweenTime := dadd this.tweenTime cumTime }
    if reachedDur this.tweenTime this.dur then
      let this := { this with inTween := false }
      let this := { this with vx := 0 }
      { this with vy := 0 }
    else this
  else this

/-- Lines 147-160 of `Shape.update` in double arithmetic. -/
def Shape.renderD (this : Shape) (game : Game) : List DrawCall :=
  if this.visible then
    DrawCall.setFillStyle this.color ::
      (if this.shape = "square" then
        [DrawCall.fillRect (dsub this.x game.camX) (dsub this.y game.camY)
          this.width this.height]
      else if this.shape = "circle" then
        [DrawCall.beginPath,
         DrawCall.arc (dsub this.x game.camX) (dsub this.y game.camY) this.width,
         DrawCall.fill]
      else [])
  else []

/-- The method `Shape.update` (lines 126-161) as the code computes it, every
arithmetic operation rounded to a double. -/
def Shape.updateD (this : Shape) (game : Game) (cumTime : ℚ) :
    Shape × List DrawCall :=
  let this := ((this.integrateD cumTime).bounceD).tweenStepD cumTime
  (this, this.renderD game)

/-- The method `Shape.tween` (lines 172-180) as the code computes it, every
arithmetic operation rounded to a double. -/
def Shape.tweenD (this : Shape) (toX toY dur : ℚ) : Shape :=
  let this := { this with inTween := true }
  let this := { this with toX := some toX }
  let this := { this with toY := some toY }
  let this := { this with vx := ddiv (dsub toX this.x) (ddiv dur 1000) }
  let this := { this with vy := ddiv (dsub toY this.y) (ddiv dur 1000) }
  let this := { this with dur := some dur }
  { this with tweenTime := 0 }

/-- Successive `update` calls on a Shape in double arithmetic. -/
def Shape.runD (game : Game) (this : Shape) (es : List ℚ) : Shape :=
  es.foldl (fun s e => (s.updateD game e).1) this

/-- Elapsed times that are whole numbers of milliseconds, as `Game.update`
returns them. -/
def wholeMs (ns : List ℕ) : List ℚ :=
  ns.map (fun n => (n : ℚ))

/-- The accumulated time `tweenTime` as `update` computes it during a tween
that starts at 0 (line 139): the elapsed times added one after the other in
double arithmetic. -/
def accTime (es : List ℚ) : ℚ :=
  es.foldl dadd 0

/-! ## Cookie helpers (api.js lines 240-273) -/

/-- JavaScript strings, as lists of characters. -/
abbrev Str := List Char

/-- The built-in `s.split(sep)` for a one-character separator: the pieces
between the separators, in order; the empty string gives one empty piece. -/
def jsSplit (sep : Char) : Str → List Str
  | [] => [[]]
  | c :: cs =>
    if c = sep then [] :: jsSplit sep cs
    else
      match jsSplit sep cs with
      | [] => [[c]]
      | seg :: segs => (c :: seg) :: segs

/-- The search behind the built-in `indexOf`: the position of the first
occurrence of `name`, counted from `pos`, or -1. -/
def indexOfFrom (name : Str) (pos : ℕ) : Str → ℤ
  | [] => if name.isPrefixOf [] then (pos : ℤ) else -1
  | c :: cs =>
    if name.isPrefixOf (c :: cs) then (pos : ℤ) else indexOfFrom name (pos + 1) cs

/-- The built-in `c.indexOf(name)`. -/
def jsIndexOf (c name : Str) : ℤ :=
  indexOfFrom name 0 c

/-- The built-in `c.substring(a, b)` for non-negative integers: the
characters from the smaller to the larger index, both cut at the length. -/
def jsSubstring (c : Str) (a b : ℕ) : Str :=
  (c.take (max a b)).drop (min a b)

/-- Lines 265-267 of `getCookie`: the loop
`while (c.charAt(0) === ' ') c = c.substring(1)`. -/
def stripLeadingSpaces : Str → Str
  | [] => []
  | c :: cs => if c = ' ' then stripLeadingSpaces cs else c :: cs

/-- Lines 262-272 of `getCookie`: the `for` loop over the pieces `ca`, with
the final `return ""`.  The call `c.trim()` of line 264 discards its result
and has no effect. -/
def getCookieLoop (name : Str) : List Str → Str
  | [] => []
  | c :: ca =>
    if jsIndexOf (stripLeadingSpaces c) name = 0 then
      jsSubstring (stripLeadingSpaces c) name.length (stripLeadingSpaces c).length
    else getCookieLoop name ca

/-- The function `getCookie` (lines 258-273).  `documentCookie` is the value
read from `document.cookie`; `decodeURIComponent` is the built-in, which
throws on a malformed escape (`none`), and then so does `getCookie`. -/
def getCookie (decodeURIComponent : Str → Option Str) (documentCookie cname : Str) :
    Option Str :=
  let name := cname ++ ['=']
  match decodeURIComponent documentCookie with
  | none => none
  | some decodedCookie => some (getCookieLoop name (jsSplit ';' decodedCookie))

/-- The function `setCookie` (lines 246-251): the string it assigns to
`document.cookie`.  `now` is the `d.getTime()` of line 248 and `toUTCString`
the built-in formatting of the date with that timestamp. -/
def setCookie (now : ℚ) (toUTCString : ℚ → Str) (cname cvalue : Str) (exdays : ℚ) : Str :=
  let d := now + exdays * 24 * 60 * 60 * 1000
  let expires := "expires=".toList ++ toUTCString d
  cname ++ ['='] ++ cvalue ++ [';'] ++ expires ++ ";path=/".toList

/-- The lookup as the specification words it: split the decoded cookie
string on ';', strip the leading spaces of each piece, take the first piece
that starts with "n=" and return the text after "n="; the empty string if
there is no such piece. -/
def cookieLookupSpec (s n : Str) : Str :=
  match ((jsSplit ';' s).map (List.dropWhile (fun ch => ch == ' '))).find?
      (fun seg => (n ++ ['=']).isPrefixOf seg) with
  | some seg => seg.drop (n.length + 1)
  | none => []

/-- Modelled from the spec: one cookie of the store behind `document.cookie`,
which is browser state and not part of the repository: its name, its value
and the instant (in milliseconds) at which it expires. -/
structure Cookie where
  name : Str
  value : Str
  expiry : ℚ
  deriving DecidableEq, Repr

/-- Modelled from the spec: the cookie store, as the cookies in the order in
which their names were first written. -/
abbrev Jar := List Cookie

/-- White space that the store strips from the ends of a name and of a value:
space and tab. -/
def isWsp (c : Char) : Bool :=
  c == ' ' || c == Char.ofNat 9

/-- A string without the white space at its two ends. -/
def trimWsp (s : Str) : Str :=
  ((s.dropWhile isWsp).reverse.dropWhile isWsp).reverse

/-- Control characters, which make the store refuse a cookie: codes below 32
other than tab, and 127. -/
def isCtl (c : Char) : Bool :=
  (decide (c.toNat < 32) && c != Char.ofNat 9) || c.toNat == 127

/-- Names reserved for cookies with the `Secure` or `HttpOnly` attribute,
which `setCookie` does not write: those starting with "__Secure-", "__Host-"
or "__Http-" in any letter case. -/
def hasSecurePrefix (name : Str) : Bool :=
  "__secure-".toList.isPrefixOf (name.map Char.toLower) ||
    "__host-".toList.isPrefixOf (name.map Char.toLower) ||
    "__http-".toList.isPrefixOf (name.map Char.toLower)

/-- Modelled from the spec: storing a cookie: it takes the place of the
cookie of the same name, or is added at the end. -/
def jarPut (c : Cookie) : Jar → Jar
  | [] => [c]
  | p :: rest => if p.name = c.name then c :: rest else p :: jarPut c rest

/-- Modelled from the spec: the assignment `document.cookie = a` at the time
`now`, for an `a` of the form "k=v;expires=...;path=/" whose `expires`
attribute denotes the instant `expiry`.  The text before the first ';' is the
pair; it is split at its first '=' into name and value (without '=' it is a
value without a name), both stripped of white space at their ends.  The
assignment is ignored if the pair has a control character, if name and value
are both empty, if they have more than 4096 characters together or if the
name is reserved; with an expiry that is not in the future it removes the
cookie of that name; otherwise it stores the cookie, which lives for 400 days
at most. -/
def jarAssign (jar : Jar) (now : ℚ) (a : Str) (expiry : ℚ) : Jar :=
  let expiry := min expiry (now + 400 * 24 * 60 * 60 * 1000)
  let pair := a.takeWhile (fun ch => ch != ';')
  let name := if '=' ∈ pair then trimWsp (pair.takeWhile (fun ch => ch != '=')) else []
  let value :=
    if '=' ∈ pair then trimWsp ((pair.dropWhile (fun ch => ch != '=')).drop 1)
    else trimWsp pair
  if pair.any isCtl || (name.isEmpty && value.isEmpty)
      || decide (4096 < name.length + value.length) || hasSecurePrefix name then jar
  else if expiry ≤ now then jar.filter (fun c => c.name != name)
  else jarPut { name := name, value := value, expiry := expiry } jar

/-- The text "name=value" of a pair. -/
def pairText (p : Str × Str) : Str :=
  p.1 ++ ['='] ++ p.2

/-- Modelled from the spec: the text of one cookie in `document.cookie`:
"name=value", or the value alone when the name is empty. -/
def cookieText (p : Str × Str) : Str :=
  if p.1 = [] then p.2 else pairText p

/-- Texts joined by "; ". -/
def joinCookies : List Str → Str
  | [] => []
  | [a] => a
  | a :: b :: rest => a ++ [';', ' '] ++ joinCookies (b :: rest)

/-- Modelled from the spec: the name/value pairs of the cookies that have not
expired at the time `t`. -/
def visiblePairs (jar : Jar) (t : ℚ) : List (Str × Str) :=
  (jar.filter (fun c => decide (t < c.expiry))).map (fun c => (c.name, c.value))

/-- Modelled from the spec: reading `document.cookie` at the time `t`: the
texts of the cookies that have not expired, joined by "; ". -/
def jarRead (jar : Jar) (t : ℚ) : Str :=
  joinCookies ((visiblePairs jar t).map cookieText)

/-- The instant denoted by the `expires` attribute that `setCookie` writes at
the time `now`: the built-in `toUTCString` prints the date
`now + exdays*24*60*60*1000` to the second. -/
def setCookieExpiry (now exdays : ℚ) : ℚ :=
  1000 * ((⌊(now + exdays * 24 * 60 * 60 * 1000) / 1000⌋ : ℤ) : ℚ)

/-- The value of the first pair with the given name, or the empty string. -/
def jarLookup (name : Str) (ps : List (Str × Str)) : Str :=
  match ps.find? (fun p => p.1 = name) with
  | some p => p.2
  | none => []

/-- A character the round trip can carry: printable ASCII (codes 32 to 126)
other than ';' and '%'. -/
def okChar (c : Char) : Prop :=
  32 ≤ c.toNat ∧ c.toNat ≤ 126 ∧ c ≠ ';' ∧ c ≠ '%'

/-- A cookie value the round trip can carry: made of such characters, with
no space at either end. -/
def okValue (v : Str) : Prop :=
  (∀ c ∈ v, okChar c) ∧ v.head? ≠ some ' ' ∧ v.getLast? ≠ some ' '

/-- A cookie name the round trip can carry: not empty, made of such
characters other than '=', with no space at either end, and not reserved. -/
def okName (n : Str) : Prop :=
  n ≠ [] ∧ (∀ c ∈ n, okChar c ∧ c ≠ '=') ∧ n.head? ≠ some ' ' ∧ n.getLast? ≠ some ' ' ∧
    hasSecurePrefix n = false

/-- Name/value pairs all of which can be carried. -/
def okPairs (ps : List (Str × Str)) : Prop :=
  ∀ p ∈ ps, okName p.1 ∧ okValue p.2

/-- A cookie store all of whose names and values can be carried. -/
def okJar (jar : Jar) : Prop :=
  ∀ c ∈ jar, okName c.name ∧ okValue c.value

instance (c : Char) : Decidable (okChar c) := by
  unfold okChar
  infer_instance

instance (v : Str) : Decidable (okValue v) := by
  unfold okValue
  infer_instance

instance (n : Str) : Decidable (okName n) := by
  unfold okName
  infer_instance

instance (jar : Jar) : Decidable (okJar jar) := by
  unfold okJar
  infer_instance

/-- A fixed expiry text for the worked examples, in place of the built-in
date formatting. -/
def exUTC (_d : ℚ) : Str :=
  "Fri, 06 Nov 2026 00:00:00 GMT".toList

/-- A cookie store holding two unrelated cookies that expire at 90000000. -/
def exJar : Jar :=
  [{ name := "a".toList, value := "1".toList, expiry := 90000000 },
   { name := "kk".toList, value := "x=y".toList, expiry := 90000000 }]

/-- A decoder for the worked examples: `decodeURIComponent` returns a string
without '%' unchanged; this stand-in is defined on those strings only. -/
def plainDecode (s : Str) : Option Str :=
  if '%' ∈ s then none else some s

/-! ## Projections of the update steps -/

section Sprite
variable (s : Sprite) (game : Game) (e : ℚ)

theorem sprite_update_fst : (s.update game e).1 = (s.integrate e).bounce := rfl

theorem sprite_integrate_vy : (s.integrate e).vy = s.vy + s.g * (e / 1000) := rfl

theorem sprite_integrate_x : (s.integrate e).x = s.x + s.vx * (e / 1000) := rfl

theorem sprite_integrate_y :
    (s.integrate e).y = s.y + (s.vy + s.g * (e / 1000)) * (e / 1000) := rfl

theorem sprite_bounce_off (h : s.cor = -1) : s.bounce = s := by
  simp [Sprite.bounce, h]

theorem sprite_bounce_above (h : s.y + (s.imgHeight : ℚ) < s.floor) : s.bounce = s := by
  simp [Sprite.bounce, not_le.mpr h]

theorem sprite_bounce_hit (h : s.cor ≠ -1) (hf : s.y + (s.imgHeight : ℚ) ≥ s.floor) :
    s.bounce = { s with y := s.floor, vy := s.vy * -s.cor } := by
  simp [Sprite.bounce, h, ge_iff_le.mp hf]

end Sprite

section Shape
variable (s : Shape) (game : Game) (e : ℚ)

theorem shape_update_fst :
    (s.update game e).1 = ((s.integrate e).bounce).tweenStep e := rfl

theorem shape_integrate_vy : (s.integrate e).vy = s.vy + s.g * (e / 1000) := rfl

theorem shape_integrate_x : (s.integrate e).x = s.x + s.vx * (e / 1000) := rfl

theorem shape_integrate_y :
    (s.integrate e).y = s.y + (s.vy + s.g * (e / 1000)) * (e / 1000) := rfl

theorem shape_bounce_off (h : s.cor = -1) : s.bounce = s := by
  simp [Shape.bounce, h]

theorem shape_bounce_above (h : s.y + s.height < s.floor) : s.bounce = s := by
  simp [Shape.bounce, not_le.mpr h]

theorem shape_bounce_hit (h : s.cor ≠ -1) (hf : s.y + s.height ≥ s.floor) :
    s.bounce = { s with y := s.floor - s.height, vy := s.vy * -s.cor } := by
  simp [Shape.bounce, h, ge_iff_le.mp hf]

theorem shape_tweenStep_idle (h : s.inTween = false) : s.tweenStep e = s := by
  simp [Shape.tweenStep, h]

theorem shape_tweenStep_y : (s.tweenStep e).y = s.y := by
  unfold Shape.tweenStep
  dsimp only
  split_ifs <;> rfl

theorem shape_tweenStep_x : (s.tweenStep e).x = s.x := by
  unfold Shape.tweenStep
  dsimp only
  split_ifs <;> rfl

theorem shape_tweenStep_height : (s.tweenStep e).height = s.height := by
  unfold Shape.tweenStep
  dsimp only
  split_ifs <;> rfl

theorem shape_tweenStep_floor : (s.tweenStep e).floor = s.floor := by
  unfold Shape.tweenStep
  dsimp only
  split_ifs <;> rfl

theorem shape_bounce_height : s.bounce.height = s.height := by
  unfold Shape.bounce
  split_ifs <;> rfl

theorem shape_bounce_floor : s.bounce.floor = s.floor := by
  unfold Shape.bounce
  split_ifs <;> rfl

theorem shape_bounce_inTween : s.bounce.inTween = s.inTween := by
  unfold Shape.bounce
  split_ifs <;> rfl

theorem shape_update_idle (h : s.inTween = false) :
    (s.update game e).1 = (s.integrate e).bounce := by
  rw [shape_update_fst]
  apply shape_tweenStep_idle
  rw [shape_bounce_inTween]
  exact h

end Shape

/-! ## Bounce -/

/-- C1 (bounce velocity).  For a Sprite and for a Shape that is not in a
tween, with cor = c in [0,1]: when the integrated lower edge is at or past
the floor, the velocity after `update` is exactly `-c * (vy + g*e/1000)`;
its sign is flipped, its magnitude is scaled by `c`, so `c = 1` keeps the
speed and `c = 0` gives zero. -/
theorem bounce_velocity (game : Game) (sp : Sprite) (sh : Shape) (c e : ℚ)
    (hc : 0 ≤ c ∧ c ≤ 1) :
    (sp.cor = c → (sp.integrate e).y + (sp.imgHeight : ℚ) ≥ sp.floor →
      (sp.update game e).1.vy = -c * (sp.vy + sp.g * e / 1000) ∧
      (sp.update game e).1.vy * (sp.vy + sp.g * e / 1000) ≤ 0 ∧
      |(sp.update game e).1.vy| = c * |sp.vy + sp.g * e / 1000| ∧
      (c = 1 → |(sp.update game e).1.vy| = |sp.vy + sp.g * e / 1000|) ∧
      (c = 0 → (sp.update game e).1.vy = 0)) ∧
    (sh.inTween = false → sh.cor = c →
      (sh.integrate e).y + sh.height ≥ sh.floor →
      (sh.update game e).1.vy = -c * (sh.vy + sh.g * e / 1000) ∧
      (sh.update game e).1.vy * (sh.vy + sh.g * e / 1000) ≤ 0 ∧
      |(sh.update game e).1.vy| = c * |sh.vy + sh.g * e / 1000| ∧
      (c = 1 → |(sh.update game e).1.vy| = |sh.vy + sh.g * e / 1000|) ∧
      (c = 0 → (sh.update game e).1.vy = 0)) := by
  obtain ⟨h0, _⟩ := hc
  have hne : c ≠ -1 := by
    intro h
    rw [h] at h0
    norm_num at h0
  have key : ∀ v w : ℚ, w = v * -c →
      w = -c * v ∧ w * v ≤ 0 ∧ |w| = c * |v| ∧ (c = 1 → |w| = |v|) ∧ (c = 0 → w = 0) := by
    intro v w hw
    have habs : |w| = c * |v| := by
      rw [hw, abs_mul, abs_neg, abs_of_nonneg h0, mul_comm]
    refine ⟨by rw [hw]; ring, ?_, habs, ?_, ?_⟩
    · rw [hw]
      nlinarith [mul_nonneg h0 (mul_self_nonneg v)]
    · intro h1
      rw [habs, h1, one_mul]
    · intro hz
      rw [hw, hz]
      ring
  constructor
  · intro hcor hf
    apply key
    have hb := sprite_bounce_hit (sp.integrate e) (by rw [← hcor] at hne; exact hne) hf
    rw [sprite_update_fst, hb]
    show (sp.vy + sp.g * (e / 1000)) * -sp.cor = (sp.vy + sp.g * e / 1000) * -c
    rw [hcor]
    ring
  · intro ht hcor hf
    apply key
    have hb := shape_bounce_hit (sh.integrate e) (by rw [← hcor] at hne; exact hne) hf
    rw [shape_update_idle _ _ _ ht, hb]
    show (sh.vy + sh.g * (e / 1000)) * -sh.cor = (sh.vy + sh.g * e / 1000) * -c
    rw [hcor]
    ring


/-- Witness of C1: the example Sprite and Shape (vy = 1000, cor = 1/2) reach
the floor in 100 ms and leave with vy = -500. -/
theorem bounce_velocity_witness :
    ((0 : ℚ) ≤ 1 / 2 ∧ (1 / 2 : ℚ) ≤ 1) ∧
    (exSprite.update exGame 100).1.vy = -(1 / 2) * (exSprite.vy + exSprite.g * 100 / 1000) ∧
    (exShape.update exGame 100).1.vy = -(1 / 2) * (exShape.vy + exShape.g * 100 / 1000) :=
  ⟨by norm_num,
   ((bounce_velocity exGame exSprite exShape (1 / 2) 100 (by norm_num)).1
      (by norm_num [exSprite, Sprite.new, Sprite.setCoefficientOfRestitution])
      (by norm_num [exSprite, Sprite.new, Sprite.setCoefficientOfRestitution,
        Sprite.integrate])).1,
   ((bounce_velocity exGame exSprite exShape (1 / 2) 100 (by norm_num)).2
      (by simp [exShape, Shape.new, Shape.setCoefficientOfRestitution])
      (by norm_num [exShape, Shape.new, Shape.setCoefficientOfRestitution])
      (by norm_num [exShape, Shape.new, Shape.setCoefficientOfRestitution,
        Shape.integrate])).1⟩

/-- On a hit the Sprite is put at `y = floor`, so its lower edge ends at
`floor + img.height`. -/
theorem sprite_update_hit_lower_edge (s : Sprite) (game : Game) (e : ℚ)
    (h : s.cor ≠ -1) (hf : (s.integrate e).y + (s.imgHeight : ℚ) ≥ s.floor) :
    (s.update game e).1.y + (s.imgHeight : ℚ) = s.floor + (s.imgHeight : ℚ) := by
  rw [sprite_update_fst, sprite_bounce_hit (s.integrate e) h hf]
  rfl

/-- C2 (Sprite floor clamp), evaluated at the example Sprite (image height
10, floor 100, cor 1/2, y = 0, vy = 1000) and 100 ms: the integrated lower
edge is 110, the update sets y = 100, and the lower edge 110 is past the
floor 100. -/
theorem sprite_clamp_past_floor :
    exSprite.cor ≠ -1 ∧
    (exSprite.integrate 100).y + (exSprite.imgHeight : ℚ) ≥ exSprite.floor ∧
    (exSprite.update exGame 100).1.y = 100 ∧
    (exSprite.update exGame 100).1.floor = 100 ∧
    ((exSprite.update exGame 100).1.imgHeight : ℚ) = 10 ∧
    ¬ ((exSprite.update exGame 100).1.y + ((exSprite.update exGame 100).1.imgHeight : ℚ)
        ≤ (exSprite.update exGame 100).1.floor) := by
  norm_num [exSprite, Sprite.new, Sprite.setCoefficientOfRestitution, Sprite.update,
    Sprite.integrate, Sprite.bounce]

/-- C3 (Shape floor clamp).  With bounce enabled, after every `update` the
lower edge `y + height` is at most `floor` (height and floor are those of
the Shape, which `update` does not change), and when the integrated lower
edge reached or passed the floor the new `y` is exactly `floor - height`. -/
theorem shape_floor_clamp (s : Shape) (game : Game) (e : ℚ) (h : s.cor ≠ -1) :
    (s.update game e).1.height = s.height ∧
    (s.update game e).1.floor = s.floor ∧
    (s.update game e).1.y + (s.update game e).1.height ≤ (s.update game e).1.floor ∧
    ((s.integrate e).y + s.height ≥ s.floor →
      (s.update game e).1.y = s.floor - s.height) := by
  have hh : (s.update game e).1.height = s.height := by
    rw [shape_update_fst, shape_tweenStep_height, shape_bounce_height]
    rfl
  have hfl : (s.update game e).1.floor = s.floor := by
    rw [shape_update_fst, shape_tweenStep_floor, shape_bounce_floor]
    rfl
  have hy : (s.update game e).1.y = (s.integrate e).bounce.y := by
    rw [shape_update_fst, shape_tweenStep_y]
  refine ⟨hh, hfl, ?_, ?_⟩
  · rw [hh, hfl, hy]
    rcases le_or_lt s.floor ((s.integrate e).y + s.height) with hge | hlt
    · rw [shape_bounce_hit (s.integrate e) h hge]
      show s.floor - s.height + s.height ≤ s.floor
      linarith
    · rw [shape_bounce_above (s.integrate e) hlt]
      exact le_of_lt hlt
  · intro hge
    rw [hy, shape_bounce_hit (s.integrate e) h hge]
    rfl

/-- Witness of C3, the bounce scenario: the square at (0,0) of height 10
with g = 9.8, floor 100 and cor 1/2, stepped by 100 ms.  After 42 steps the
lower edge is still above 100; the 43rd step reaches it, and that update
leaves y = 90 with the velocity negated and halved. -/
theorem shape_floor_clamp_witness :
    scenarioShape.cor ≠ -1 ∧
    (Shape.run exGame scenarioShape (List.replicate 42 100)).y + 10 < 100 ∧
    (Shape.run exGame scenarioShape (List.replicate 43 100)).y = 90 ∧
    (Shape.run exGame scenarioShape (List.replicate 43 100)).vy =
      -(1 / 2) * ((Shape.run exGame scenarioShape (List.replicate 42 100)).vy
        + 98 / 10 * (100 / 1000)) ∧
    (Shape.run exGame scenarioShape (List.replicate 43 100)).y
      + (Shape.run exGame scenarioShape (List.replicate 43 100)).height
      ≤ (Shape.run exGame scenarioShape (List.replicate 43 100)).floor := by
  have h42 : Shape.run exGame scenarioShape (List.replicate 42 100) =
      { scenarioShape with y := 88494 / 1000, vy := 4116 / 100 } := by
    norm_num [Shape.run, scenarioShape, Shape.new, Shape.setCoefficientOfRestitution,
      Shape.update, Shape.integrate, Shape.bounce, Shape.tweenStep, List.replicate]
  have h43 : Shape.run exGame scenarioShape (List.replicate 43 100) =
      ((Shape.run exGame scenarioShape (List.replicate 42 100)).update exGame 100).1 := by
    rw [show (43 : ℕ) = 42 + 1 from rfl, List.replicate_succ', Shape.run, List.foldl_append]
    rfl
  have hcor : (Shape.run exGame scenarioShape (List.replicate 42 100)).cor ≠ -1 := by
    rw [h42]
    norm_num [scenarioShape, Shape.new, Shape.setCoefficientOfRestitution]
  have hc := shape_floor_clamp (Shape.run exGame scenarioShape (List.replicate 42 100))
    exGame 100 hcor
  rw [← h43] at hc
  refine ⟨?_, ?_, ?_, ?_, hc.2.2.1⟩
  · norm_num [scenarioShape, Shape.new, Shape.setCoefficientOfRestitution]
  · rw [h42]
    norm_num
  · rw [hc.2.2.2 (by
      rw [h42]
      norm_num [scenarioShape, Shape.new, Shape.setCoefficientOfRestitution,
        Shape.integrate]), h42]
    norm_num [scenarioShape, Shape.new, Shape.setCoefficientOfRestitution]
  · rw [h43, h42]
    norm_num [scenarioShape, Shape.new, Shape.setCoefficientOfRestitution,
      Shape.update, Shape.integrate, Shape.bounce, Shape.tweenStep]

/-! ## Bounce disabled -/

theorem sprite_update_off (s : Sprite) (game : Game) (e : ℚ) (h : s.cor = -1) :
    (s.update game e).1 = s.integrate e := by
  rw [sprite_update_fst]
  exact sprite_bounce_off _ h

theorem shape_update_off (s : Shape) (game : Game) (e : ℚ)
    (ht : s.inTween = false) (h : s.cor = -1) :
    (s.update game e).1 = s.integrate e := by
  rw [shape_update_idle s game e ht]
  exact shape_bounce_off _ h

/-- C4 (bounce sentinel).  With cor = -1 a Sprite, and a Shape that is not
in a tween, is never clamped or flipped by `update`, whatever the floor and
the position: vy' = vy + g*e/1000, x' = x + vx*e/1000, y' = y + vy'*e/1000. -/
theorem bounce_sentinel (game : Game) (sp : Sprite) (sh : Shape) (e : ℚ) :
    (sp.cor = -1 →
      (sp.update game e).1.vy = sp.vy + sp.g * e / 1000 ∧
      (sp.update game e).1.x = sp.x + sp.vx * e / 1000 ∧
      (sp.update game e).1.y = sp.y + (sp.update game e).1.vy * e / 1000) ∧
    (sh.inTween = false → sh.cor = -1 →
      (sh.update game e).1.vy = sh.vy + sh.g * e / 1000 ∧
      (sh.update game e).1.x = sh.x + sh.vx * e / 1000 ∧
      (sh.update game e).1.y = sh.y + (sh.update game e).1.vy * e / 1000) := by
  constructor
  · intro h
    rw [sprite_update_off sp game e h, sprite_integrate_vy, sprite_integrate_x,
      sprite_integrate_y]
    refine ⟨by ring, by ring, by ring⟩
  · intro ht h
    rw [shape_update_off sh game e ht h, shape_integrate_vy, shape_integrate_x,
      shape_integrate_y]
    refine ⟨by ring, by ring, by ring⟩

/-- Witness of C4: both sunk entities, 500 below their floor, move freely
for 100 ms: vy = 41, x = 5, y = 504.1. -/
theorem bounce_sentinel_witness :
    (sunkSprite.cor = -1 ∧ sunkShape.inTween = false ∧ sunkShape.cor = -1) ∧
    ((sunkSprite.update exGame 100).1.vy = 41 ∧ (sunkSprite.update exGame 100).1.x = 5 ∧
      (sunkSprite.update exGame 100).1.y = 5041 / 10) ∧
    ((sunkShape.update exGame 100).1.vy = 41 ∧ (sunkShape.update exGame 100).1.x = 5 ∧
      (sunkShape.update exGame 100).1.y = 5041 / 10) := by
  have hs : sunkSprite.cor = -1 := rfl
  have ht : sunkShape.inTween = false := rfl
  have hc : sunkShape.cor = -1 := rfl
  obtain ⟨h1, h2, h3⟩ := (bounce_sentinel exGame sunkSprite sunkShape 100).1 hs
  obtain ⟨k1, k2, k3⟩ := (bounce_sentinel exGame sunkSprite sunkShape 100).2 ht hc
  refine ⟨⟨hs, ht, hc⟩, ⟨?_, ?_, ?_⟩, ⟨?_, ?_, ?_⟩⟩
  · rw [h1]; norm_num [sunkSprite, Sprite.new]
  · rw [h2]; norm_num [sunkSprite, Sprite.new]
  · rw [h3, h1]; norm_num [sunkSprite, Sprite.new]
  · rw [k1]; norm_num [sunkShape, Shape.new]
  · rw [k2]; norm_num [sunkShape, Shape.new]
  · rw [k3, k1]; norm_num [sunkShape, Shape.new]

/-! ## Gravity accumulation -/

theorem sprite_run_cons (game : Game) (s : Sprite) (e : ℚ) (es : List ℚ) :
    Sprite.run game s (e :: es) = Sprite.run game (s.update game e).1 es := rfl

theorem shape_run_cons (game : Game) (s : Shape) (e : ℚ) (es : List ℚ) :
    Shape.run game s (e :: es) = Shape.run game (s.update game e).1 es := rfl

theorem text_run_cons (game : Game) (s : Text) (e : ℚ) (es : List ℚ) :
    Text.run game s (e :: es) = Text.run game (s.update game e).1 es := rfl

theorem sprite_run_vy_off (game : Game) (es : List ℚ) :
    ∀ s : Sprite, s.cor = -1 →
      (Sprite.run game s es).vy = s.vy + s.g * es.sum / 1000 := by
  induction es with
  | nil =>
    intro s _
    simp [Sprite.run]
  | cons e es ih =>
    intro s h
    rw [sprite_run_cons, sprite_update_off s game e h, ih (s.integrate e) h,
      sprite_integrate_vy, List.sum_cons]
    show s.vy + s.g * (e / 1000) + s.g * es.sum / 1000 = _
    ring

theorem shape_run_vy_off (game : Game) (es : List ℚ) :
    ∀ s : Shape, s.inTween = false → s.cor = -1 →
      (Shape.run game s es).vy = s.vy + s.g * es.sum / 1000 := by
  induction es with
  | nil =>
    intro s _ _
    simp [Shape.run]
  | cons e es ih =>
    intro s ht h
    rw [shape_run_cons, shape_update_off s game e ht h, ih (s.integrate e) ht h,
      shape_integrate_vy, List.sum_cons]
    show s.vy + s.g * (e / 1000) + s.g * es.sum / 1000 = _
    ring

theorem text_run_vy (game : Game) (es : List ℚ) :
    ∀ s : Text, (Text.run game s es).vy = s.vy + s.g * es.sum / 1000 := by
  induction es with
  | nil =>
    intro s
    simp [Text.run]
  | cons e es ih =>
    intro s
    rw [text_run_cons, ih, List.sum_cons]
    show s.vy + s.g * (e / 1000) + s.g * es.sum / 1000 = _
    ring

/-- C5 (gravity accumulation).  With bounce disabled, after successive
updates with elapsed times `es` the vertical velocity of a Sprite, of a
Shape not in a tween, and of a Text is `vy0 + g * (sum of es) / 1000`; two
step sequences `es`, `fs` of equal total time give the same velocity. -/
theorem gravity_accumulation (game : Game) (sp : Sprite) (sh : Shape) (tx : Text)
    (es fs : List ℚ) :
    (sp.cor = -1 →
      (Sprite.run game sp es).vy = sp.vy + sp.g * es.sum / 1000 ∧
      (fs.sum = es.sum → (Sprite.run game sp fs).vy = (Sprite.run game sp es).vy)) ∧
    (sh.inTween = false → sh.cor = -1 →
      (Shape.run game sh es).vy = sh.vy + sh.g * es.sum / 1000 ∧
      (fs.sum = es.sum → (Shape.run game sh fs).vy = (Shape.run game sh es).vy)) ∧
    ((Text.run game tx es).vy = tx.vy + tx.g * es.sum / 1000 ∧
      (fs.sum = es.sum → (Text.run game tx fs).vy = (Text.run game tx es).vy)) := by
  refine ⟨?_, ?_, ?_, ?_⟩
  · intro h
    refine ⟨sprite_run_vy_off game es sp h, ?_⟩
    intro hs
    rw [sprite_run_vy_off game es sp h, sprite_run_vy_off game fs sp h, hs]
  · intro ht h
    refine ⟨shape_run_vy_off game es sh ht h, ?_⟩
    intro hs
    rw [shape_run_vy_off game es sh ht h, shape_run_vy_off game fs sh ht h, hs]
  · exact text_run_vy game es tx
  · intro hs
    rw [text_run_vy game es tx, text_run_vy game fs tx, hs]

/-- Witness of C5: 100 + 200 + 300 ms, or one step of 600 ms, take the sunk
Sprite, the sunk Shape and the example Text (g = 10, vy = 40) to vy = 46. -/
theorem gravity_accumulation_witness :
    (sunkSprite.cor = -1 ∧ sunkShape.inTween = false ∧ sunkShape.cor = -1 ∧
      ([600] : List ℚ).sum = ([100, 200, 300] : List ℚ).sum) ∧
    ((Sprite.run exGame sunkSprite [100, 200, 300]).vy = 46 ∧
      (Sprite.run exGame sunkSprite [600]).vy = 46) ∧
    ((Shape.run exGame sunkShape [100, 200, 300]).vy = 46 ∧
      (Shape.run exGame sunkShape [600]).vy = 46) ∧
    ((Text.run exGame exText [100, 200, 300]).vy = 46 ∧
      (Text.run exGame exText [600]).vy = 46) := by
  have hs : sunkSprite.cor = -1 := rfl
  have ht : sunkShape.inTween = false := rfl
  have hc : sunkShape.cor = -1 := rfl
  have hsum : ([600] : List ℚ).sum = ([100, 200, 300] : List ℚ).sum := by norm_num
  obtain ⟨h1, h2, h3⟩ :=
    gravity_accumulation exGame sunkSprite sunkShape exText [100, 200, 300] [600]
  have a := h1 hs
  have b := h2 ht hc
  have a1 : (Sprite.run exGame sunkSprite [100, 200, 300]).vy = 46 := by
    rw [a.1]; norm_num [sunkSprite, Sprite.new]
  have b1 : (Shape.run exGame sunkShape [100, 200, 300]).vy = 46 := by
    rw [b.1]; norm_num [sunkShape, Shape.new]
  have c1 : (Text.run exGame exText [100, 200, 300]).vy = 46 := by
    rw [h3.1]; norm_num [exText, Text.new]
  exact ⟨⟨hs, ht, hc, hsum⟩, ⟨a1, by rw [a.2 hsum, a1]⟩, ⟨b1, by rw [b.2 hsum, b1]⟩,
    ⟨c1, by rw [h3.2 hsum, c1]⟩⟩

/-! ## Session update -/

/-- C6 (session update).  With stored timestamp `t0 = lastUpdate` and clock
reading `t`, `update` returns `t - t0`, stores `t`, advances the camera by
its velocity times `(t - t0)/1000`, and leaves camVX, camVY, width and
height unchanged; with camVX = 10, camVY = 0 and 500 ms elapsed, camX grows
by exactly 5 and camY is unchanged. -/
theorem session_update (g : Game) (t : ℚ) :
    (g.update t).2.1 = t - g.lastUpdate ∧
    (g.update t).1.lastUpdate = t ∧
    (g.update t).1.camX = g.camX + g.camVX * (t - g.lastUpdate) / 1000 ∧
    (g.update t).1.camY = g.camY + g.camVY * (t - g.lastUpdate) / 1000 ∧
    (g.update t).1.camVX = g.camVX ∧
    (g.update t).1.camVY = g.camVY ∧
    (g.update t).1.width = g.width ∧
    (g.update t).1.height = g.height ∧
    (g.camVX = 10 → g.camVY = 0 → t - g.lastUpdate = 500 →
      (g.update t).1.camX = g.camX + 5 ∧ (g.update t).1.camY = g.camY) := by
  refine ⟨rfl, rfl, ?_, ?_, rfl, rfl, rfl, rfl, ?_⟩
  · show g.camX + g.camVX * ((t - g.lastUpdate) / 1000) = _
    ring
  · show g.camY + g.camVY * ((t - g.lastUpdate) / 1000) = _
    ring
  · intro hx hy ht
    constructor
    · show g.camX + g.camVX * ((t - g.lastUpdate) / 1000) = _
      rw [hx, ht]
      norm_num
    · show g.camY + g.camVY * ((t - g.lastUpdate) / 1000) = _
      rw [hy]
      ring

/-- Witness of C6: updating `panGame` at clock reading 1500 returns 500 and
moves the camera from (7, 3) to (12, 3). -/
theorem session_update_witness :
    (panGame.camVX = 10 ∧ panGame.camVY = 0 ∧ (1500 : ℚ) - panGame.lastUpdate = 500) ∧
    (panGame.update 1500).2.1 = 500 ∧
    (panGame.update 1500).1.camX = 12 ∧ (panGame.update 1500).1.camY = 3 := by
  have h1 : panGame.camVX = 10 := rfl
  have h2 : panGame.camVY = 0 := rfl
  have h3 : (1500 : ℚ) - panGame.lastUpdate = 500 := by norm_num [panGame]
  obtain ⟨r, _, _, _, _, _, _, _, k⟩ := session_update panGame 1500
  obtain ⟨kx, ky⟩ := k h1 h2 h3
  refine ⟨⟨h1, h2, h3⟩, ?_, ?_, ?_⟩
  · rw [r, h3]
  · rw [kx]; norm_num [panGame]
  · rw [ky]; rfl

/-! ## Tween -/

section TweenSteps
variable (s : Shape) (game : Game) (e : ℚ)

theorem shape_bounce_dur : s.bounce.dur = s.dur := by
  unfold Shape.bounce
  split_ifs <;> rfl

theorem shape_bounce_tweenTime : s.bounce.tweenTime = s.tweenTime := by
  unfold Shape.bounce
  split_ifs <;> rfl

theorem shape_bounce_vx : s.bounce.vx = s.vx := by
  unfold Shape.bounce
  split_ifs <;> rfl

theorem shape_bounce_x : s.bounce.x = s.x := by
  unfold Shape.bounce
  split_ifs <;> rfl

theorem shape_bounce_g : s.bounce.g = s.g := by
  unfold Shape.bounce
  split_ifs <;> rfl

theorem shape_bounce_cor : s.bounce.cor = s.cor := by
  unfold Shape.bounce
  split_ifs <;> rfl

/-- An update during a tween whose accumulated time stays below the
duration only adds the elapsed time to `tweenTime`. -/
theorem shape_update_tween_cont (d : ℚ) (hin : s.inTween = true) (hd : s.dur = some d)
    (hlt : s.tweenTime + e < d) :
    (s.update game e).1 = { (s.integrate e).bounce with tweenTime := s.tweenTime + e } := by
  have h1 : (s.integrate e).bounce.inTween = true := by
    rw [shape_bounce_inTween]
    exact hin
  have h2 : (s.integrate e).bounce.dur = some d := by
    rw [shape_bounce_dur]
    exact hd
  have h3 : (s.integrate e).bounce.tweenTime = s.tweenTime := by
    rw [shape_bounce_tweenTime]
    rfl
  rw [shape_update_fst]
  unfold Shape.tweenStep
  simp [h1, h2, h3, reachedDur, hlt]

/-- An update during a tween whose accumulated time reaches the duration
clears `inTween` and zeroes both velocities. -/
theorem shape_update_tween_done (d : ℚ) (hin : s.inTween = true) (hd : s.dur = some d)
    (hge : d ≤ s.tweenTime + e) :
    (s.update game e).1 =
      { (s.integrate e).bounce with
        tweenTime := s.tweenTime + e, inTween := false, vx := 0, vy := 0 } := by
  have h1 : (s.integrate e).bounce.inTween = true := by
    rw [shape_bounce_inTween]
    exact hin
  have h2 : (s.integrate e).bounce.dur = some d := by
    rw [shape_bounce_dur]
    exact hd
  have h3 : (s.integrate e).bounce.tweenTime = s.tweenTime := by
    rw [shape_bounce_tweenTime]
    rfl
  rw [shape_update_fst]
  unfold Shape.tweenStep
  simp [h1, h2, h3, reachedDur, hge]

end TweenSteps

section RestSteps
variable (s : Shape) (game : Game) (e : ℚ)

theorem shape_bounce_vy_zero (h : s.vy = 0) : s.bounce.vy = 0 := by
  unfold Shape.bounce
  split_ifs
  · show s.vy * -s.cor = 0
    rw [h, zero_mul]
  · exact h
  · exact h

/-- One update of a Shape that is not in a tween: the flag stays clear and
gravity is kept. -/
theorem shape_update_idle_flags (ht : s.inTween = false) :
    (s.update game e).1.inTween = false ∧ (s.update game e).1.g = s.g ∧
    (s.update game e).1.vx = s.vx ∧
    (s.update game e).1.x = s.x + s.vx * (e / 1000) := by
  rw [shape_update_idle s game e ht, shape_bounce_inTween, shape_bounce_g, shape_bounce_vx,
    shape_bounce_x]
  exact ⟨ht, rfl, rfl, rfl⟩

/-- One update of an idle Shape without gravity and at vertical rest keeps
`vy = 0`. -/
theorem shape_update_idle_vy (ht : s.inTween = false) (hg : s.g = 0) (hv : s.vy = 0) :
    (s.update game e).1.vy = 0 := by
  rw [shape_update_idle s game e ht]
  apply shape_bounce_vy_zero
  rw [shape_integrate_vy, hg, hv]
  ring

end RestSteps

theorem shape_run_idle_flags (game : Game) (es : List ℚ) :
    ∀ s : Shape, s.inTween = false → s.vx = 0 →
      (Shape.run game s es).inTween = false ∧ (Shape.run game s es).vx = 0 ∧
      (Shape.run game s es).x = s.x ∧ (Shape.run game s es).g = s.g := by
  induction es with
  | nil =>
    intro s ht hv
    exact ⟨ht, hv, rfl, rfl⟩
  | cons e es ih =>
    intro s ht hv
    obtain ⟨h1, h2, h3, h4⟩ := shape_update_idle_flags s game e ht
    rw [hv] at h3 h4
    obtain ⟨k1, k2, k3, k4⟩ := ih (s.update game e).1 h1 h3
    rw [shape_run_cons]
    refine ⟨k1, k2, ?_, ?_⟩
    · rw [k3, h4]
      ring
    · rw [k4, h2]

theorem shape_run_idle_vy (game : Game) (es : List ℚ) :
    ∀ s : Shape, s.inTween = false → s.g = 0 → s.vy = 0 →
      (Shape.run game s es).vy = 0 := by
  induction es with
  | nil =>
    intro s _ _ hv
    exact hv
  | cons e es ih =>
    intro s ht hg hv
    obtain ⟨h1, h2, _, _⟩ := shape_update_idle_flags s game e ht
    rw [shape_run_cons]
    exact ih (s.update game e).1 h1 (by rw [h2, hg]) (shape_update_idle_vy s game e ht hg hv)

/-- A Shape at rest (no tween, no gravity, zero velocity) with bounce
disabled does not move, whatever the elapsed times. -/
theorem shape_run_rest_pos (game : Game) (es : List ℚ) :
    ∀ s : Shape, s.inTween = false → s.cor = -1 → s.g = 0 → s.vx = 0 → s.vy = 0 →
      (Shape.run game s es).x = s.x ∧ (Shape.run game s es).y = s.y := by
  induction es with
  | nil =>
    intro s _ _ _ _ _
    exact ⟨rfl, rfl⟩
  | cons e es ih =>
    intro s ht hc hg hvx hvy
    have hu := shape_update_off s game e ht hc
    have hx : (s.integrate e).x = s.x := by
      rw [shape_integrate_x, hvx]
      ring
    have hy : (s.integrate e).y = s.y := by
      rw [shape_integrate_y, hvy, hg]
      ring
    have hv : (s.integrate e).vy = 0 := by
      rw [shape_integrate_vy, hvy, hg]
      ring
    obtain ⟨k1, k2⟩ := ih (s.integrate e) ht hc hg hvx hv
    rw [shape_run_cons, hu, k1, k2, hx, hy]
    exact ⟨rfl, rfl⟩

/-- While the accumulated time stays below the duration the Shape remains in
its tween, keeps its horizontal velocity and advances `x` linearly; without
gravity and bounce the same holds vertically. -/
theorem shape_run_tween_cont (game : Game) (d : ℚ) (es : List ℚ) :
    ∀ s : Shape, s.inTween = true → s.dur = some d → (∀ e ∈ es, 0 ≤ e) →
      s.tweenTime + es.sum < d →
      (Shape.run game s es).inTween = true ∧ (Shape.run game s es).dur = some d ∧
      (Shape.run game s es).tweenTime = s.tweenTime + es.sum ∧
      (Shape.run game s es).vx = s.vx ∧ (Shape.run game s es).g = s.g ∧
      (Shape.run game s es).cor = s.cor ∧
      (Shape.run game s es).x = s.x + s.vx * es.sum / 1000 ∧
      (s.g = 0 → s.cor = -1 →
        (Shape.run game s es).vy = s.vy ∧
        (Shape.run game s es).y = s.y + s.vy * es.sum / 1000) := by
  induction es with
  | nil =>
    intro s hin hd _ _
    simp [Shape.run, hin, hd]
  | cons e es ih =>
    intro s hin hd hnn hlt
    have he : 0 ≤ e := hnn e (List.mem_cons_self e es)
    have hes : ∀ x ∈ es, 0 ≤ x := fun x hx => hnn x (List.mem_cons_of_mem e hx)
    have hsum : 0 ≤ es.sum := List.sum_nonneg hes
    rw [List.sum_cons] at hlt
    have hstep : s.tweenTime + e < d := by linarith
    have hu := shape_update_tween_cont s game e d hin hd hstep
    have u1 : (s.update game e).1.inTween = true := by
      rw [hu]
      show (s.integrate e).bounce.inTween = true
      rw [shape_bounce_inTween]
      exact hin
    have u2 : (s.update game e).1.dur = some d := by
      rw [hu]
      show (s.integrate e).bounce.dur = some d
      rw [shape_bounce_dur]
      exact hd
    have u3 : (s.update game e).1.tweenTime = s.tweenTime + e := by
      rw [hu]
    have u4 : (s.update game e).1.vx = s.vx := by
      rw [hu]
      show (s.integrate e).bounce.vx = s.vx
      rw [shape_bounce_vx]
      rfl
    have u5 : (s.update game e).1.g = s.g := by
      rw [hu]
      show (s.integrate e).bounce.g = s.g
      rw [shape_bounce_g]
      rfl
    have u6 : (s.update game e).1.cor = s.cor := by
      rw [hu]
      show (s.integrate e).bounce.cor = s.cor
      rw [shape_bounce_cor]
      rfl
    have u7 : (s.update game e).1.x = s.x + s.vx * (e / 1000) := by
      rw [hu]
      show (s.integrate e).bounce.x = _
      rw [shape_bounce_x]
      rfl
    obtain ⟨k1, k2, k3, k4, k5, k6, k7, k8⟩ :=
      ih (s.update game e).1 u1 u2 hes (by rw [u3]; linarith)
    rw [shape_run_cons, List.sum_cons]
    refine ⟨k1, k2, ?_, ?_, ?_, ?_, ?_, ?_⟩
    · rw [k3, u3]
      ring
    · rw [k4, u4]
    · rw [k5, u5]
    · rw [k6, u6]
    · rw [k7, u4, u7]
      ring
    · intro hg hc
      have v1 : (s.update game e).1.vy = s.vy := by
        rw [hu]
        show (s.integrate e).bounce.vy = s.vy
        rw [shape_bounce_off _ (show (s.integrate e).cor = -1 from hc), shape_integrate_vy, hg]
        ring
      have v2 : (s.update game e).1.y = s.y + s.vy * (e / 1000) := by
        rw [hu]
        show (s.integrate e).bounce.y = _
        rw [shape_bounce_off _ (show (s.integrate e).cor = -1 from hc), shape_integrate_y, hg]
        ring
      obtain ⟨w1, w2⟩ := k8 (by rw [u5, hg]) (by rw [u6, hc])
      refine ⟨by rw [w1, v1], ?_⟩
      rw [w2, v1, v2]
      ring

/-- Once the accumulated time of a running tween reaches the duration, the
tween is over: the flag is clear, `vx = 0`, and without gravity `vy = 0`. -/
theorem shape_run_tween_done (game : Game) (d : ℚ) (es : List ℚ) :
    ∀ s : Shape, s.inTween = true → s.dur = some d → s.tweenTime < d →
      d ≤ s.tweenTime + es.sum →
      (Shape.run game s es).inTween = false ∧ (Shape.run game s es).vx = 0 ∧
      (s.g = 0 → (Shape.run game s es).vy = 0) := by
  induction es with
  | nil =>
    intro s _ _ hlt hge
    rw [List.sum_nil, add_zero] at hge
    exact absurd hlt (not_lt.mpr hge)
  | cons e es ih =>
    intro s hin hd hlt hge
    rw [List.sum_cons] at hge
    rw [shape_run_cons]
    rcases le_or_lt d (s.tweenTime + e) with hdone | hcont
    · have hu := shape_update_tween_done s game e d hin hd hdone
      have u1 : (s.update game e).1.inTween = false := by rw [hu]
      have u2 : (s.update game e).1.vx = 0 := by rw [hu]
      have u3 : (s.update game e).1.vy = 0 := by rw [hu]
      have u4 : (s.update game e).1.g = s.g := by
        rw [hu]
        show (s.integrate e).bounce.g = s.g
        rw [shape_bounce_g]
        rfl
      obtain ⟨k1, k2, _, _⟩ := shape_run_idle_flags game es (s.update game e).1 u1 u2
      refine ⟨k1, k2, ?_⟩
      intro hg
      exact shape_run_idle_vy game es (s.update game e).1 u1 (by rw [u4, hg]) u3
    · have hu := shape_update_tween_cont s game e d hin hd hcont
      have u1 : (s.update game e).1.inTween = true := by
        rw [hu]
        show (s.integrate e).bounce.inTween = true
        rw [shape_bounce_inTween]
        exact hin
      have u2 : (s.update game e).1.dur = some d := by
        rw [hu]
        show (s.integrate e).bounce.dur = some d
        rw [shape_bounce_dur]
        exact hd
      have u3 : (s.update game e).1.tweenTime = s.tweenTime + e := by
        rw [hu]
      have u5 : (s.update game e).1.g = s.g := by
        rw [hu]
        show (s.integrate e).bounce.g = s.g
        rw [shape_bounce_g]
        rfl
      obtain ⟨k1, k2, k3⟩ := ih (s.update game e).1 u1 u2 (by rw [u3]; exact hcont)
        (by rw [u3]; linarith)
      exact ⟨k1, k2, fun hg => k3 (by rw [u5, hg])⟩

theorem shape_run_snoc (game : Game) (s : Shape) (es : List ℚ) (e : ℚ) :
    Shape.run game s (es ++ [e]) = ((Shape.run game s es).update game e).1 := by
  simp [Shape.run, List.foldl_append]

/-- Tween arrival in exact arithmetic.  A Shape without gravity and with
bounce disabled starts at `(x0, y0)` and tweens to `(toX, toY)` in `dur > 0`.
Let the updates `init ++ [ek]` have non-negative elapsed times, with the sum
of `init` below `dur` and `S = sum init + ek` at least `dur`.  Then, every
operation taken exactly, the tween is over, the position is
`x0 + (toX - x0)*S/dur`, `y0 + (toY - y0)*S/dur`; it is the target when
`S = dur`; the overshoot is at most the last step's travel
`|toX - x0| * ek / dur` (same for y); and later updates do not move it. -/
theorem shape_tween_arrival_exact (game : Game) (s : Shape) (toX toY dur : ℚ)
    (init : List ℚ) (ek : ℚ) (later : List ℚ)
    (hg : s.g = 0) (hcor : s.cor = -1) (hdur : 0 < dur)
    (hinit : ∀ e ∈ init, 0 ≤ e)
    (hlt : init.sum < dur) (hge : dur ≤ init.sum + ek) :
    (Shape.run game (s.tween toX toY dur) (init ++ [ek])).inTween = false ∧
    (Shape.run game (s.tween toX toY dur) (init ++ [ek])).x
      = s.x + (toX - s.x) * (init.sum + ek) / dur ∧
    (Shape.run game (s.tween toX toY dur) (init ++ [ek])).y
      = s.y + (toY - s.y) * (init.sum + ek) / dur ∧
    (init.sum + ek = dur →
      (Shape.run game (s.tween toX toY dur) (init ++ [ek])).x = toX ∧
      (Shape.run game (s.tween toX toY dur) (init ++ [ek])).y = toY) ∧
    |(Shape.run game (s.tween toX toY dur) (init ++ [ek])).x - toX|
      ≤ |toX - s.x| * ek / dur ∧
    |(Shape.run game (s.tween toX toY dur) (init ++ [ek])).y - toY|
      ≤ |toY - s.y| * ek / dur ∧
    (Shape.run game (Shape.run game (s.tween toX toY dur) (init ++ [ek])) later).x
      = (Shape.run game (s.tween toX toY dur) (init ++ [ek])).x ∧
    (Shape.run game (Shape.run game (s.tween toX toY dur) (init ++ [ek])) later).y
      = (Shape.run game (s.tween toX toY dur) (init ++ [ek])).y := by
  have hd0 : dur ≠ 0 := ne_of_gt hdur
  have t1 : (s.tween toX toY dur).inTween = true := rfl
  have t2 : (s.tween toX toY dur).dur = some dur := rfl
  have t3 : (s.tween toX toY dur).tweenTime = 0 := rfl
  have t4 : (s.tween toX toY dur).vx = (toX - s.x) / (dur / 1000) := rfl
  have t5 : (s.tween toX toY dur).vy = (toY - s.y) / (dur / 1000) := rfl
  have t6 : (s.tween toX toY dur).x = s.x := rfl
  have t7 : (s.tween toX toY dur).y = s.y := rfl
  have t8 : (s.tween toX toY dur).g = 0 := hg
  have t9 : (s.tween toX toY dur).cor = -1 := hcor
  obtain ⟨a1, a2, a3, a4, a5, a6, a7, a8⟩ :=
    shape_run_tween_cont game dur init (s.tween toX toY dur) t1 t2 hinit
      (by rw [t3, zero_add]; exact hlt)
  obtain ⟨a9, a10⟩ := a8 t8 t9
  rw [t8] at a5
  rw [t9] at a6
  have hu := shape_update_tween_done (Shape.run game (s.tween toX toY dur) init) game ek dur
    a1 a2 (by rw [a3, t3, zero_add]; exact hge)
  have hb := shape_bounce_off ((Shape.run game (s.tween toX toY dur) init).integrate ek)
    (show ((Shape.run game (s.tween toX toY dur) init).integrate ek).cor = -1 from a6)
  have r1 : (Shape.run game (s.tween toX toY dur) (init ++ [ek])).inTween = false := by
    rw [shape_run_snoc, hu]
  have r2 : (Shape.run game (s.tween toX toY dur) (init ++ [ek])).vx = 0 := by
    rw [shape_run_snoc, hu]
  have r3 : (Shape.run game (s.tween toX toY dur) (init ++ [ek])).vy = 0 := by
    rw [shape_run_snoc, hu]
  have r4 : (Shape.run game (s.tween toX toY dur) (init ++ [ek])).g = 0 := by
    rw [shape_run_snoc, hu, hb]
    exact a5
  have r5 : (Shape.run game (s.tween toX toY dur) (init ++ [ek])).cor = -1 := by
    rw [shape_run_snoc, hu, hb]
    exact a6
  have rx : (Shape.run game (s.tween toX toY dur) (init ++ [ek])).x
      = s.x + (toX - s.x) * (init.sum + ek) / dur := by
    rw [shape_run_snoc, hu, hb]
    show ((Shape.run game (s.tween toX toY dur) init).integrate ek).x = _
    rw [shape_integrate_x, a7, a4, t4, t6]
    field_simp
    ring
  have ry : (Shape.run game (s.tween toX toY dur) (init ++ [ek])).y
      = s.y + (toY - s.y) * (init.sum + ek) / dur := by
    rw [shape_run_snoc, hu, hb]
    show ((Shape.run game (s.tween toX toY dur) init).integrate ek).y = _
    rw [shape_integrate_y, a10, a9, a5, t5, t7]
    field_simp
    ring
  have bound : ∀ p q : ℚ, |p + (q - p) * (init.sum + ek) / dur - q| ≤ |q - p| * ek / dur := by
    intro p q
    have hrw : p + (q - p) * (init.sum + ek) / dur - q
        = (q - p) * ((init.sum + ek - dur) / dur) := by
      field_simp
      ring
    have hnn : 0 ≤ (init.sum + ek - dur) / dur :=
      div_nonneg (by linarith) (le_of_lt hdur)
    rw [hrw, abs_mul, abs_of_nonneg hnn, mul_div_assoc]
    apply mul_le_mul_of_nonneg_left _ (abs_nonneg _)
    apply div_le_div_of_nonneg_right _ (le_of_lt hdur)
    linarith
  obtain ⟨l1, l2⟩ := shape_run_rest_pos game later
    (Shape.run game (s.tween toX toY dur) (init ++ [ek])) r1 r5 r4 r2 r3
  refine ⟨r1, rx, ry, ?_, ?_, ?_, l1, l2⟩
  · intro hS
    rw [rx, ry, hS]
    constructor
    · field_simp
    · field_simp
  · rw [rx]
    exact bound s.x toX
  · rw [ry]
    exact bound s.y toY

/-- C9 (tween supersession).  For a Shape in a tween, `tween(toX, toY, d2)`
with `d2 > 0` sets the velocity from the current position, resets the
accumulated time, stores `d2`, keeps `inTween = true` and leaves the
position; and the result, hence every later sequence of updates, is the same
as for a Shape `s'` with the same position, gravity, bounce settings and
appearance, whatever the tween state and velocity of `s'`. -/
theorem tween_supersession (game : Game) (s s' : Shape) (toX toY d2 : ℚ) (es : List ℚ)
    (_hin : s.inTween = true) (hd : 0 < d2)
    (hbody : s'.x = s.x ∧ s'.y = s.y ∧ s'.g = s.g ∧ s'.tv = s.tv ∧
      s'.visible = s.visible ∧ s'.floor = s.floor ∧ s'.cor = s.cor ∧
      s'.shape = s.shape ∧ s'.width = s.width ∧ s'.height = s.height ∧
      s'.color = s.color) :
    (s.tween toX toY d2).vx = (toX - s.x) / (d2 / 1000) ∧
    (s.tween toX toY d2).vy = (toY - s.y) / (d2 / 1000) ∧
    (s.tween toX toY d2).vx * (d2 / 1000) = toX - s.x ∧
    (s.tween toX toY d2).vy * (d2 / 1000) = toY - s.y ∧
    (s.tween toX toY d2).tweenTime = 0 ∧
    (s.tween toX toY d2).dur = some d2 ∧
    (s.tween toX toY d2).inTween = true ∧
    (s.tween toX toY d2).x = s.x ∧ (s.tween toX toY d2).y = s.y ∧
    s.tween toX toY d2 = s'.tween toX toY d2 ∧
    Shape.run game (s.tween toX toY d2) es = Shape.run game (s'.tween toX toY d2) es := by
  have hd0 : d2 / 1000 ≠ 0 := by positivity
  have heq : s.tween toX toY d2 = s'.tween toX toY d2 := by
    obtain ⟨h1, h2, h3, h4, h5, h6, h7, h8, h9, h10, h11⟩ := hbody
    cases s
    cases s'
    simp only at h1 h2 h3 h4 h5 h6 h7 h8 h9 h10 h11
    subst h1 h2 h3 h4 h5 h6 h7 h8 h9 h10 h11
    rfl
  refine ⟨rfl, rfl, ?_, ?_, rfl, rfl, rfl, rfl, rfl, heq, by rw [heq]⟩
  · show (toX - s.x) / (d2 / 1000) * (d2 / 1000) = toX - s.x
    exact div_mul_cancel₀ _ hd0
  · show (toY - s.y) / (d2 / 1000) * (d2 / 1000) = toY - s.y
    exact div_mul_cancel₀ _ hd0

/-- Witness of C9: the square half way through `tween(100, 0, 1000)` (at
x = 50, vx = 100) is sent to (200, 100) in 2000 ms; it gets vx = 75,
vy = 50 and from then on evolves as a fresh square placed at (50, 0). -/
theorem tween_supersession_witness :
    (midTweenShape.inTween = true ∧ midTweenShape.x = 50 ∧ midTweenShape.vx = 100 ∧
      (0 : ℚ) < 2000) ∧
    (midTweenShape.tween 200 100 2000).vx = 75 ∧
    (midTweenShape.tween 200 100 2000).vy = 50 ∧
    (midTweenShape.tween 200 100 2000).tweenTime = 0 ∧
    Shape.run exGame (midTweenShape.tween 200 100 2000) [700, 700, 700]
      = Shape.run exGame ((Shape.new "square" 50 0 10 10 "red").tween 200 100 2000)
          [700, 700, 700] := by
  have hm : midTweenShape =
      { (Shape.new "square" 50 0 10 10 "red") with
        vx := 100, inTween := true, tweenTime := 500,
        toX := some 100, toY := some 0, dur := some 1000 } := by
    norm_num [midTweenShape, Shape.run, Shape.new, Shape.tween, Shape.update,
      Shape.integrate, Shape.bounce, Shape.tweenStep, reachedDur]
  have hin : midTweenShape.inTween = true := by rw [hm]
  have hx : midTweenShape.x = 50 := by rw [hm]; rfl
  have hy : midTweenShape.y = 0 := by rw [hm]; rfl
  have hvx : midTweenShape.vx = 100 := by rw [hm]
  have hd : (0 : ℚ) < 2000 := by norm_num
  obtain ⟨k1, k2, _, _, k5, _, _, _, _, _, k11⟩ :=
    tween_supersession exGame midTweenShape (Shape.new "square" 50 0 10 10 "red")
      200 100 2000 [700, 700, 700] hin hd (by rw [hm]; simp [Shape.new])
  refine ⟨⟨hin, hx, hvx, hd⟩, ?_, ?_, k5, k11⟩
  · rw [k1, hx]
    norm_num
  · rw [k2, hy]
    norm_num

/-! ## Zero elapsed time -/

theorem sprite_integrate_zero (s : Sprite) : s.integrate 0 = s := by
  cases s
  simp [Sprite.integrate]

theorem shape_integrate_zero (s : Shape) : s.integrate 0 = s := by
  cases s
  simp [Shape.integrate]

theorem text_integrate_zero (s : Text) : s.integrate 0 = s := by
  cases s
  simp [Text.integrate]

/-- With zero elapsed time the tween bookkeeping leaves the velocities alone
unless it completes a tween. -/
theorem shape_tweenStep_zero_vel (s : Shape)
    (h : s.inTween = false ∨ reachedDur s.tweenTime s.dur = false) :
    (s.tweenStep 0).vx = s.vx ∧ (s.tweenStep 0).vy = s.vy := by
  unfold Shape.tweenStep
  rcases h with h | h
  · simp [h]
  · simp [h]

/-- C10 (zero elapsed time) fails as stated for an entity with bounce
enabled whose lower edge is at or below the floor: `update(0)` on `lowShape`
(y = 95, vy = 4) moves it to y = 90 and sets vy = -2. -/
theorem zero_elapsed_counterexample :
    lowShape.cor ≠ -1 ∧ lowShape.y + lowShape.height ≥ lowShape.floor ∧
    lowShape.y = 95 ∧ lowShape.vy = 4 ∧
    (lowShape.update exGame 0).1.y = 90 ∧ (lowShape.update exGame 0).1.vy = -2 ∧
    ¬ ((lowShape.update exGame 0).1.x = lowShape.x ∧
       (lowShape.update exGame 0).1.y = lowShape.y ∧
       (lowShape.update exGame 0).1.vx = lowShape.vx ∧
       (lowShape.update exGame 0).1.vy = lowShape.vy) := by
  norm_num [lowShape, Shape.new, Shape.setCoefficientOfRestitution, Shape.update,
    Shape.integrate, Shape.bounce, Shape.tweenStep]

/-- C10 (zero elapsed time), amended.  `update(0)` leaves x, y, vx and vy of
every Text unchanged.  It leaves x and vx of every Sprite unchanged, and y
and vy too when bounce is disabled or the lower edge is strictly above the
floor; with bounce enabled and the lower edge at or past the floor it still
multiplies vy by `-cor`.  For a Shape that is not completing a tween (not in
a tween, or accumulated time below the duration) the same holds, and in the
bounce case y becomes `floor - height`; x of a Shape is always unchanged.  A
session update that measures zero elapsed time leaves camX and camY
unchanged. -/
theorem zero_elapsed (game g : Game) (t : ℚ) (sp : Sprite) (sh : Shape) (tx : Text) :
    ((tx.update game 0).1.x = tx.x ∧ (tx.update game 0).1.y = tx.y ∧
      (tx.update game 0).1.vx = tx.vx ∧ (tx.update game 0).1.vy = tx.vy) ∧
    ((sp.update game 0).1.x = sp.x ∧ (sp.update game 0).1.vx = sp.vx ∧
      (sp.cor = -1 ∨ sp.y + (sp.imgHeight : ℚ) < sp.floor →
        (sp.update game 0).1.y = sp.y ∧ (sp.update game 0).1.vy = sp.vy) ∧
      (sp.cor ≠ -1 → sp.y + (sp.imgHeight : ℚ) ≥ sp.floor →
        (sp.update game 0).1.vy = sp.vy * -sp.cor)) ∧
    ((sh.update game 0).1.x = sh.x ∧
      (sh.inTween = false ∨ reachedDur sh.tweenTime sh.dur = false →
        (sh.update game 0).1.vx = sh.vx ∧
        (sh.cor = -1 ∨ sh.y + sh.height < sh.floor →
          (sh.update game 0).1.y = sh.y ∧ (sh.update game 0).1.vy = sh.vy) ∧
        (sh.cor ≠ -1 → sh.y + sh.height ≥ sh.floor →
          (sh.update game 0).1.y = sh.floor - sh.height ∧
          (sh.update game 0).1.vy = sh.vy * -sh.cor))) ∧
    ((g.update t).2.1 = 0 →
      (g.update t).1.camX = g.camX ∧ (g.update t).1.camY = g.camY) := by
  refine ⟨?_, ⟨?_, ?_, ?_, ?_⟩, ⟨?_, ?_⟩, ?_⟩
  · show (tx.integrate 0).x = tx.x ∧ (tx.integrate 0).y = tx.y ∧
      (tx.integrate 0).vx = tx.vx ∧ (tx.integrate 0).vy = tx.vy
    rw [text_integrate_zero]
    exact ⟨rfl, rfl, rfl, rfl⟩
  · rw [sprite_update_fst, sprite_integrate_zero]
    unfold Sprite.bounce
    split_ifs <;> rfl
  · rw [sprite_update_fst, sprite_integrate_zero]
    unfold Sprite.bounce
    split_ifs <;> rfl
  · intro h
    rw [sprite_update_fst, sprite_integrate_zero]
    rcases h with h | h
    · rw [sprite_bounce_off sp h]
      exact ⟨rfl, rfl⟩
    · rw [sprite_bounce_above sp h]
      exact ⟨rfl, rfl⟩
  · intro h hf
    rw [sprite_update_fst, sprite_integrate_zero, sprite_bounce_hit sp h hf]
  · rw [shape_update_fst, shape_integrate_zero, shape_tweenStep_x, shape_bounce_x]
  · intro hno
    have hno' : sh.bounce.inTween = false ∨
        reachedDur sh.bounce.tweenTime sh.bounce.dur = false := by
      rw [shape_bounce_inTween, shape_bounce_tweenTime, shape_bounce_dur]
      exact hno
    obtain ⟨hvx, hvy⟩ := shape_tweenStep_zero_vel sh.bounce hno'
    rw [shape_update_fst, shape_integrate_zero, hvx, hvy, shape_tweenStep_y, shape_bounce_vx]
    refine ⟨rfl, ?_, ?_⟩
    · intro h
      rcases h with h | h
      · rw [shape_bounce_off sh h]
        exact ⟨rfl, rfl⟩
      · rw [shape_bounce_above sh h]
        exact ⟨rfl, rfl⟩
    · intro h hf
      rw [shape_bounce_hit sh h hf]
      exact ⟨rfl, rfl⟩
  · intro h0
    have hz : t - g.lastUpdate = 0 := h0
    constructor
    · show g.camX + g.camVX * ((t - g.lastUpdate) / 1000) = g.camX
      rw [hz]
      ring
    · show g.camY + g.camVY * ((t - g.lastUpdate) / 1000) = g.camY
      rw [hz]
      ring

/-- Witness of C10 (amended): `update(0)` on the airborne Sprite and Shape
changes neither position nor velocity, and a session update at the stored
timestamp leaves the camera where it is. -/
theorem zero_elapsed_witness :
    ((airSprite.cor = -1 ∨ airSprite.y + (airSprite.imgHeight : ℚ) < airSprite.floor) ∧
      (airShape.inTween = false ∨ reachedDur airShape.tweenTime airShape.dur = false) ∧
      (airShape.cor = -1 ∨ airShape.y + airShape.height < airShape.floor) ∧
      (panGame.update 1000).2.1 = 0) ∧
    ((airSprite.update exGame 0).1.y = airSprite.y ∧
      (airSprite.update exGame 0).1.vy = airSprite.vy) ∧
    ((airShape.update exGame 0).1.y = airShape.y ∧
      (airShape.update exGame 0).1.vy = airShape.vy) ∧
    ((panGame.update 1000).1.camX = panGame.camX ∧
      (panGame.update 1000).1.camY = panGame.camY) := by
  have h1 : airSprite.cor = -1 ∨
      airSprite.y + (airSprite.imgHeight : ℚ) < airSprite.floor := by
    right
    norm_num [airSprite, Sprite.new, Sprite.setCoefficientOfRestitution]
  have h2 : airShape.inTween = false ∨
      reachedDur airShape.tweenTime airShape.dur = false := Or.inl rfl
  have h3 : airShape.cor = -1 ∨ airShape.y + airShape.height < airShape.floor := by
    right
    norm_num [airShape, Shape.new, Shape.setCoefficientOfRestitution]
  have h4 : (panGame.update 1000).2.1 = 0 := by
    norm_num [panGame, Game.update]
  obtain ⟨_, ⟨_, _, ks, _⟩, ⟨_, kh⟩, kg⟩ :=
    zero_elapsed exGame panGame 1000 airSprite airShape exText
  exact ⟨⟨h1, h2, h3, h4⟩, ks h1, (kh h2).2.1 h3, kg h4⟩

/-! ## Camera and drawing -/

theorem sprite_render_shift (s : Sprite) (g1 g2 : Game) :
    s.render g2 = (s.render g1).map (DrawCall.shift (g1.camX - g2.camX) (g1.camY - g2.camY)) := by
  unfold Sprite.render
  split_ifs
  · simp [DrawCall.shift]
  · rfl

theorem shape_render_shift (s : Shape) (g1 g2 : Game) :
    s.render g2 = (s.render g1).map (DrawCall.shift (g1.camX - g2.camX) (g1.camY - g2.camY)) := by
  unfold Shape.render
  split_ifs <;> simp [DrawCall.shift]

theorem text_render_shift (s : Text) (g1 g2 : Game) (h : s.argFixed = false) :
    s.render g2 = (s.render g1).map (DrawCall.shift (g1.camX - g2.camX) (g1.camY - g2.camY)) := by
  unfold Text.render
  simp [DrawCall.shift, h]

theorem text_render_fixed (s : Text) (g1 g2 : Game) (h : s.argFixed = true) :
    s.render g2 = s.render g1 := by
  unfold Text.render
  simp [h]

/-- C13 (camera-independent physics) fails as stated for a Text that is
fixed to the screen: under the cameras (0, 0) and (7, 3) the fixed Text at
(10, 20) is drawn at (10, 20) both times, not at positions that differ by
the camera offset. -/
theorem camera_independence_counterexample :
    (exGame.camX = 0 ∧ exGame.camY = 0 ∧ panGame.camX = 7 ∧ panGame.camY = 3) ∧
    (hudText.update exGame 100).2 = (hudText.update panGame 100).2 ∧
    (hudText.update panGame 100).2 ≠
      ((hudText.update exGame 100).2).map
        (DrawCall.shift (exGame.camX - panGame.camX) (exGame.camY - panGame.camY)) := by
  refine ⟨⟨rfl, rfl, rfl, rfl⟩, ?_, ?_⟩
  · norm_num [hudText, Text.new, Text.update, Text.integrate, Text.render]
  · norm_num [hudText, Text.new, Text.update, Text.integrate, Text.render, DrawCall.shift,
      exGame, panGame]

/-- C13 (camera-independent physics), amended.  For every Sprite, Shape and
Text, every elapsed time and any two sessions (cameras), `update` gives the
same entity state, bounce included.  The draw calls of a Sprite, of a Shape
and of a Text that is not fixed differ only in their coordinates, by exactly
the difference of the camera offsets; a fixed Text is drawn by the same calls
whatever the camera. -/
theorem camera_independence (g1 g2 : Game) (e : ℚ) (sp : Sprite) (sh : Shape) (tx : Text) :
    (sp.update g1 e).1 = (sp.update g2 e).1 ∧
    (sh.update g1 e).1 = (sh.update g2 e).1 ∧
    (tx.update g1 e).1 = (tx.update g2 e).1 ∧
    (sp.update g2 e).2 = ((sp.update g1 e).2).map
      (DrawCall.shift (g1.camX - g2.camX) (g1.camY - g2.camY)) ∧
    (sh.update g2 e).2 = ((sh.update g1 e).2).map
      (DrawCall.shift (g1.camX - g2.camX) (g1.camY - g2.camY)) ∧
    (tx.argFixed = false →
      (tx.update g2 e).2 = ((tx.update g1 e).2).map
        (DrawCall.shift (g1.camX - g2.camX) (g1.camY - g2.camY))) ∧
    (tx.argFixed = true → (tx.update g2 e).2 = (tx.update g1 e).2) := by
  refine ⟨rfl, rfl, rfl, ?_, ?_, ?_, ?_⟩
  · exact sprite_render_shift _ g1 g2
  · exact shape_render_shift _ g1 g2
  · intro h
    exact text_render_shift _ g1 g2 h
  · intro h
    exact text_render_fixed _ g1 g2 h

/-- Witness of C13 (amended): the free Text `exText` and the fixed Text
`hudText` under the cameras (0, 0) and (7, 3). -/
theorem camera_independence_witness :
    (exText.argFixed = false ∧ hudText.argFixed = true) ∧
    (exText.update panGame 100).2 = ((exText.update exGame 100).2).map
      (DrawCall.shift (exGame.camX - panGame.camX) (exGame.camY - panGame.camY)) ∧
    (hudText.update panGame 100).2 = (hudText.update exGame 100).2 :=
  ⟨⟨rfl, rfl⟩,
   (camera_independence exGame panGame 100 exSprite exShape exText).2.2.2.2.2.1 rfl,
   (camera_independence exGame panGame 100 exSprite exShape hudText).2.2.2.2.2.2 rfl⟩

/-- C14 (circle size), evaluated at two circles of width 10 at (40, 80) with
the camera at the origin.  The circle is drawn by `arc` with radius 10, the
width itself, so its diameter is 20 and not 10.  The height does play a part
when bounce is enabled (floor 100): with height 10 the update leaves
y = 80, with height 30 the floor test fires and the update sets y = 70. -/
theorem circle_radius_is_width :
    (exCircle.shape = "circle" ∧ exCircle.visible = true ∧ exCircle.width = 10) ∧
    (exCircle.update exGame 0).2 =
      [DrawCall.setFillStyle "blue", DrawCall.beginPath, DrawCall.arc 40 80 10,
       DrawCall.fill] ∧
    (exCircle.update exGame 0).2 ≠
      [DrawCall.setFillStyle "blue", DrawCall.beginPath, DrawCall.arc 40 80 (10 / 2),
       DrawCall.fill] ∧
    tallCircle = { exCircle with height := 30 } ∧
    (exCircle.update exGame 0).1.y = 80 ∧
    (tallCircle.update exGame 0).1.y = 70 := by
  have hs : ("circle" : String) ≠ "square" := by decide
  refine ⟨⟨rfl, rfl, rfl⟩, ?_, ?_, rfl, ?_, ?_⟩
  · norm_num [exCircle, exGame, Shape.new, Shape.setCoefficientOfRestitution, Shape.update,
      Shape.integrate, Shape.bounce, Shape.tweenStep, Shape.render, hs]
  · norm_num [exCircle, exGame, Shape.new, Shape.setCoefficientOfRestitution, Shape.update,
      Shape.integrate, Shape.bounce, Shape.tweenStep, Shape.render, hs]
  · norm_num [exCircle, Shape.new, Shape.setCoefficientOfRestitution, Shape.update,
      Shape.integrate, Shape.bounce, Shape.tweenStep]
  · norm_num [tallCircle, Shape.new, Shape.setCoefficientOfRestitution, Shape.update,
      Shape.integrate, Shape.bounce, Shape.tweenStep]

/-- For every visible circle the `arc` call has the width as its radius and
the post-update position minus the camera as its centre. -/
theorem shape_circle_calls (s : Shape) (game : Game) (e : ℚ)
    (hk : s.shape = "circle") (hv : s.visible = true) :
    (s.update game e).2 =
      [DrawCall.setFillStyle s.color, DrawCall.beginPath,
       DrawCall.arc ((s.update game e).1.x - game.camX) ((s.update game e).1.y - game.camY)
         s.width,
       DrawCall.fill] := by
  have h1 : (s.update game e).1.shape = "circle" := by
    rw [shape_update_fst]
    unfold Shape.tweenStep Shape.bounce
    dsimp only
    split_ifs <;> exact hk
  have h2 : (s.update game e).1.visible = true := by
    rw [shape_update_fst]
    unfold Shape.tweenStep Shape.bounce
    dsimp only
    split_ifs <;> exact hv
  have h3 : (s.update game e).1.color = s.color := by
    rw [shape_update_fst]
    unfold Shape.tweenStep Shape.bounce
    dsimp only
    split_ifs <;> rfl
  have h4 : (s.update game e).1.width = s.width := by
    rw [shape_update_fst]
    unfold Shape.tweenStep Shape.bounce
    dsimp only
    split_ifs <;> rfl
  show Shape.render (s.update game e).1 game = _
  unfold Shape.render
  rw [h1, h2, h3, h4]
  simp

/-! ## Visibility -/

theorem sprite_update_visible (s : Sprite) (game : Game) (e : ℚ) :
    (s.update game e).1.visible = s.visible := by
  rw [sprite_update_fst]
  unfold Sprite.bounce
  split_ifs <;> rfl

theorem shape_update_visible (s : Shape) (game : Game) (e : ℚ) :
    (s.update game e).1.visible = s.visible := by
  rw [shape_update_fst]
  unfold Shape.tweenStep Shape.bounce
  dsimp only
  split_ifs <;> rfl

theorem shape_update_shape (s : Shape) (game : Game) (e : ℚ) :
    (s.update game e).1.shape = s.shape := by
  rw [shape_update_fst]
  unfold Shape.tweenStep Shape.bounce
  dsimp only
  split_ifs <;> rfl

theorem shape_update_color (s : Shape) (game : Game) (e : ℚ) :
    (s.update game e).1.color = s.color := by
  rw [shape_update_fst]
  unfold Shape.tweenStep Shape.bounce
  dsimp only
  split_ifs <;> rfl

/-- The flag `visible` does not enter the physics of a Sprite. -/
theorem sprite_update_set_visible (s : Sprite) (game : Game) (e : ℚ) (b : Bool) :
    ({ s with visible := b }.update game e).1 = { (s.update game e).1 with visible := b } := by
  rw [sprite_update_fst, sprite_update_fst]
  unfold Sprite.bounce Sprite.integrate
  dsimp only
  split_ifs <;> rfl

/-- The flag `visible` does not enter the physics of a Shape. -/
theorem shape_update_set_visible (s : Shape) (game : Game) (e : ℚ) (b : Bool) :
    ({ s with visible := b }.update game e).1 = { (s.update game e).1 with visible := b } := by
  rw [shape_update_fst, shape_update_fst]
  unfold Shape.tweenStep Shape.bounce Shape.integrate
  dsimp only
  split_ifs <;> rfl

/-- C15 (visibility gating) fails as stated for Text, which has no
visibility test: a Text whose `visible` property is false is drawn all the
same.  Besides, a visible Shape whose kind is neither "square" nor "circle"
only sets the fill style and draws nothing. -/
theorem visibility_gating_counterexample :
    (hiddenText.visible = some false ∧
      (hiddenText.update exGame 100).2 =
        [DrawCall.setFillStyle "black", DrawCall.setFont "12px serif",
         DrawCall.fillText "score" 10 20] ∧
      ((hiddenText.update exGame 100).2).any DrawCall.paints = true) ∧
    (oddShape.visible = true ∧
      (oddShape.update exGame 100).2 = [DrawCall.setFillStyle "red"] ∧
      ((oddShape.update exGame 100).2).any DrawCall.paints = false) := by
  have h1 : (hiddenText.update exGame 100).2 =
      [DrawCall.setFillStyle "black", DrawCall.setFont "12px serif",
       DrawCall.fillText "score" 10 20] := by
    norm_num [hiddenText, exGame, Text.new, Text.update, Text.integrate, Text.render]
  have hs : ("triangle" : String) ≠ "square" := by decide
  have hc : ("triangle" : String) ≠ "circle" := by decide
  have h2 : (oddShape.update exGame 100).2 = [DrawCall.setFillStyle "red"] := by
    norm_num [oddShape, exGame, Shape.new, Shape.update, Shape.integrate, Shape.bounce,
      Shape.tweenStep, Shape.render, hs, hc]
  refine ⟨⟨rfl, h1, ?_⟩, ⟨rfl, h2, ?_⟩⟩
  · rw [h1]
    rfl
  · rw [h2]
    rfl

/-- C15 (visibility gating), amended.  A Sprite, and a Shape of kind
"square" or "circle", is drawn by `update` if and only if its `visible` flag
is true; with `visible = false` no call at all reaches the drawing surface,
and the entity state after the update is the same as with the flag set, the
flag apart.  A Shape of any other kind is never drawn: when visible it only
sets the fill style.  A Text is always drawn, whatever a `visible` property
says. -/
theorem visibility_gating (game : Game) (e : ℚ) (sp : Sprite) (sh : Shape) (tx : Text)
    (b : Bool) :
    ((((sp.update game e).2).any DrawCall.paints = true ↔ sp.visible = true) ∧
      (sp.visible = false → (sp.update game e).2 = []) ∧
      ({ sp with visible := b }.update game e).1
        = { (sp.update game e).1 with visible := b }) ∧
    ((sh.shape = "square" ∨ sh.shape = "circle" →
        (((sh.update game e).2).any DrawCall.paints = true ↔ sh.visible = true)) ∧
      (sh.visible = false → (sh.update game e).2 = []) ∧
      ({ sh with visible := b }.update game e).1
        = { (sh.update game e).1 with visible := b } ∧
      (sh.shape ≠ "square" → sh.shape ≠ "circle" →
        ((sh.update game e).2).any DrawCall.paints = false ∧
        (sh.visible = true → (sh.update game e).2 = [DrawCall.setFillStyle sh.color]))) ∧
    (((tx.update game e).2).any DrawCall.paints = true ∧
      ({ tx with visible := some b }.update game e).2 = (tx.update game e).2) := by
  have hsp : (sp.update game e).2 = Sprite.render (sp.update game e).1 game := rfl
  have hsh : (sh.update game e).2 = Shape.render (sh.update game e).1 game := rfl
  refine ⟨⟨?_, ?_, sprite_update_set_visible sp game e b⟩,
    ⟨?_, ?_, shape_update_set_visible sh game e b, ?_⟩, ⟨?_, rfl⟩⟩
  · rw [hsp]
    unfold Sprite.render
    rw [sprite_update_visible]
    cases hv : sp.visible <;> simp [DrawCall.paints]
  · intro hv
    rw [hsp]
    unfold Sprite.render
    rw [sprite_update_visible, hv]
    rfl
  · intro hk
    rw [hsh]
    unfold Shape.render
    rw [shape_update_visible, shape_update_shape]
    cases hv : sh.visible
    · simp
    · rcases hk with hk | hk
      · simp [hk, DrawCall.paints]
      · have hne : ("circle" : String) ≠ "square" := by decide
        simp [hk, hne, DrawCall.paints]
  · intro hv
    rw [hsh]
    unfold Shape.render
    rw [shape_update_visible, hv]
    rfl
  · intro hs hc
    rw [hsh]
    unfold Shape.render
    rw [shape_update_visible, shape_update_shape, shape_update_color]
    cases hv : sh.visible
    · simp
    · simp [hs, hc, DrawCall.paints]
  · show (Text.render (tx.integrate e) game).any DrawCall.paints = true
    unfold Text.render
    split_ifs <;> simp [DrawCall.paints]

/-- Witness of C15 (amended): the visible example square is drawn, and with
its flag cleared it is not, while its state advances alike; the visible
"triangle" only sets the fill style. -/
theorem visibility_gating_witness :
    (exShape.shape = "square" ∧ exShape.visible = true ∧
      oddShape.shape ≠ "square" ∧ oddShape.shape ≠ "circle" ∧ oddShape.visible = true) ∧
    ((exShape.update exGame 100).2).any DrawCall.paints = true ∧
    ({ exShape with visible := false }.update exGame 100).2 = [] ∧
    ({ exShape with visible := false }.update exGame 100).1
      = { (exShape.update exGame 100).1 with visible := false } ∧
    ((oddShape.update exGame 100).2).any DrawCall.paints = false ∧
    (oddShape.update exGame 100).2 = [DrawCall.setFillStyle oddShape.color] := by
  have hs : oddShape.shape ≠ "square" := by decide
  have hc : oddShape.shape ≠ "circle" := by decide
  obtain ⟨_, ⟨k1, k2, k3, _⟩, _⟩ :=
    visibility_gating exGame 100 exSprite exShape exText false
  obtain ⟨_, ⟨_, m2, _, _⟩, _⟩ :=
    visibility_gating exGame 100 exSprite { exShape with visible := false } exText false
  obtain ⟨_, ⟨_, _, _, n4⟩, _⟩ :=
    visibility_gating exGame 100 exSprite oddShape exText false
  exact ⟨⟨rfl, rfl, hs, hc, rfl⟩, (k1 (Or.inl rfl)).mpr rfl, m2 rfl, k3, (n4 hs hc).1,
    (n4 hs hc).2 rfl⟩

/-! ## Units of the Text integration -/

theorem sprite_update_x (s : Sprite) (game : Game) (e : ℚ) :
    (s.update game e).1.x = s.x + s.vx * (e / 1000) := by
  rw [sprite_update_fst]
  unfold Sprite.bounce
  split_ifs <;> rfl

theorem shape_update_x (s : Shape) (game : Game) (e : ℚ) :
    (s.update game e).1.x = s.x + s.vx * (e / 1000) := by
  rw [shape_update_fst, shape_tweenStep_x, shape_bounce_x]
  rfl

theorem shape_update_y_off (s : Shape) (game : Game) (e : ℚ) (h : s.cor = -1) :
    (s.update game e).1.y = s.y + (s.vy + s.g * (e / 1000)) * (e / 1000) := by
  rw [shape_update_fst, shape_tweenStep_y, shape_bounce_off _ (show (s.integrate e).cor = -1 from h)]
  rfl

/-- C16 (Text integration units).  `update(e)` on a Text gives
`vy' = vy + g*e/1000`, `x' = x + vx*e` and `y' = y + vy'*e`.  Hence for the
same `vx` and `e` the Text moves 1000 times as far horizontally as a Sprite
or a Shape, and with bounce disabled and the same `vy` and `g` also 1000
times as far vertically. -/
theorem text_units (game : Game) (e : ℚ) (tx : Text) (sp : Sprite) (sh : Shape) :
    ((tx.update game e).1.vy = tx.vy + tx.g * e / 1000 ∧
      (tx.update game e).1.x = tx.x + tx.vx * e ∧
      (tx.update game e).1.y = tx.y + (tx.update game e).1.vy * e ∧
      (tx.update game e).1.vx = tx.vx) ∧
    (sp.vx = tx.vx →
      (tx.update game e).1.x - tx.x = 1000 * ((sp.update game e).1.x - sp.x)) ∧
    (sh.vx = tx.vx →
      (tx.update game e).1.x - tx.x = 1000 * ((sh.update game e).1.x - sh.x)) ∧
    (sp.cor = -1 → sp.vy = tx.vy → sp.g = tx.g →
      (tx.update game e).1.y - tx.y = 1000 * ((sp.update game e).1.y - sp.y)) ∧
    (sh.cor = -1 → sh.vy = tx.vy → sh.g = tx.g →
      (tx.update game e).1.y - tx.y = 1000 * ((sh.update game e).1.y - sh.y)) := by
  have tvy : (tx.update game e).1.vy = tx.vy + tx.g * (e / 1000) := rfl
  have tx' : (tx.update game e).1.x = tx.x + tx.vx * e := rfl
  have ty : (tx.update game e).1.y = tx.y + (tx.vy + tx.g * (e / 1000)) * e := rfl
  refine ⟨⟨?_, tx', ?_, rfl⟩, ?_, ?_, ?_, ?_⟩
  · rw [tvy]
    ring
  · rw [ty, tvy]
  · intro h
    rw [tx', sprite_update_x, h]
    ring
  · intro h
    rw [tx', shape_update_x, h]
    ring
  · intro hc hv hg
    rw [ty, sprite_update_off sp game e hc, sprite_integrate_y, hv, hg]
    ring
  · intro hc hv hg
    rw [ty, shape_update_y_off sh game e hc, hv, hg]
    ring

/-- Witness of C16: with vy = 40, g = 10 and 100 ms the Text `exText` falls
by 4100 while the sunk Sprite and Shape (bounce disabled, same vy and g) fall
by 4.1. -/
theorem text_units_witness :
    (sunkSprite.cor = -1 ∧ sunkSprite.vy = exText.vy ∧ sunkSprite.g = exText.g ∧
      sunkShape.cor = -1 ∧ sunkShape.vy = exText.vy ∧ sunkShape.g = exText.g) ∧
    (exText.update exGame 100).1.y - exText.y = 4100 ∧
    (sunkSprite.update exGame 100).1.y - sunkSprite.y = 41 / 10 ∧
    (sunkShape.update exGame 100).1.y - sunkShape.y = 41 / 10 := by
  have h1 : sunkSprite.cor = -1 := rfl
  have h2 : sunkSprite.vy = exText.vy := rfl
  have h3 : sunkSprite.g = exText.g := rfl
  have h4 : sunkShape.cor = -1 := rfl
  have h5 : sunkShape.vy = exText.vy := rfl
  have h6 : sunkShape.g = exText.g := rfl
  obtain ⟨⟨_, _, _, _⟩, _, _, ks, kh⟩ := text_units exGame 100 exText sunkSprite sunkShape
  have a := ks h1 h2 h3
  have b := kh h4 h5 h6
  have t : (exText.update exGame 100).1.y - exText.y = 4100 := by
    norm_num [exText, Text.new, Text.update, Text.integrate]
  refine ⟨⟨h1, h2, h3, h4, h5, h6⟩, t, ?_, ?_⟩
  · rw [t] at a
    linarith
  · rw [t] at b
    linarith

/-! ## Rest on the floor -/

/-- One update of a Shape with cor = 0 that is not in a tween and whose
integrated lower edge reaches the floor: it ends on the floor at rest. -/
theorem shape_update_absorb (s : Shape) (game : Game) (e : ℚ)
    (hcor : s.cor = 0) (ht : s.inTween = false)
    (hf : (s.integrate e).y + s.height ≥ s.floor) :
    (s.update game e).1.y = s.floor - s.height ∧ (s.update game e).1.vy = 0 ∧
    (s.update game e).1.cor = 0 ∧ (s.update game e).1.g = s.g ∧
    (s.update game e).1.inTween = false ∧ (s.update game e).1.floor = s.floor ∧
    (s.update game e).1.height = s.height := by
  have hne : (s.integrate e).cor ≠ -1 := by
    show s.cor ≠ -1
    rw [hcor]
    norm_num
  rw [shape_update_idle s game e ht, shape_bounce_hit (s.integrate e) hne hf]
  refine ⟨rfl, ?_, hcor, rfl, ht, rfl, rfl⟩
  show (s.integrate e).vy * -s.cor = 0
  rw [hcor]
  ring

/-- C17 (rest on the floor with cor = 0).  A Shape with cor = 0 that is not
in a tween is brought by a floor hit to `y = floor - height`, `vy = 0`; and
from that state, with gravity `g >= 0`, every sequence of updates with
non-negative elapsed times leaves `y = floor - height` and `vy = 0`. -/
theorem rest_on_floor (game : Game) (es : List ℚ) :
    ∀ s : Shape, s.cor = 0 → 0 ≤ s.g → s.inTween = false →
      (∀ e ∈ es, 0 ≤ e) →
      (∀ e0 : ℚ, (s.integrate e0).y + s.height ≥ s.floor →
        (s.update game e0).1.y = s.floor - s.height ∧ (s.update game e0).1.vy = 0) ∧
      (s.y = s.floor - s.height → s.vy = 0 →
        (Shape.run game s es).y = s.floor - s.height ∧ (Shape.run game s es).vy = 0) := by
  induction es with
  | nil =>
    intro s hcor _ ht _
    refine ⟨?_, ?_⟩
    · intro e0 hf
      obtain ⟨h1, h2, _⟩ := shape_update_absorb s game e0 hcor ht hf
      exact ⟨h1, h2⟩
    · intro hy hv
      exact ⟨hy, hv⟩
  | cons e es ih =>
    intro s hcor hg ht hnn
    refine ⟨?_, ?_⟩
    · intro e0 hf
      obtain ⟨h1, h2, _⟩ := shape_update_absorb s game e0 hcor ht hf
      exact ⟨h1, h2⟩
    · intro hy hv
      have he : 0 ≤ e := hnn e (List.mem_cons_self e es)
      have hes : ∀ x ∈ es, 0 ≤ x := fun x hx => hnn x (List.mem_cons_of_mem e hx)
      have hf : (s.integrate e).y + s.height ≥ s.floor := by
        rw [shape_integrate_y, hy, hv]
        have h1 : 0 ≤ e / 1000 := div_nonneg he (by norm_num)
        have h2 : 0 ≤ (0 + s.g * (e / 1000)) * (e / 1000) := by
          rw [zero_add]
          exact mul_nonneg (mul_nonneg hg h1) h1
        linarith
      obtain ⟨u1, u2, u3, u4, u5, u6, u7⟩ := shape_update_absorb s game e hcor ht hf
      obtain ⟨_, k⟩ := ih (s.update game e).1 u3 (by rw [u4]; exact hg) u5 hes
      obtain ⟨k1, k2⟩ := k (by rw [u1, u6, u7]) u2
      rw [shape_run_cons]
      exact ⟨by rw [k1, u6, u7], k2⟩

/-- Witness of C17: the square resting on its floor (cor = 0, g = 9.8,
floor 100, height 10, y = 90) stays at y = 90 with vy = 0 through updates of
16, 0 and 250 ms. -/
theorem rest_on_floor_witness :
    (restingShape.cor = 0 ∧ 0 ≤ restingShape.g ∧ restingShape.inTween = false ∧
      (∀ e ∈ ([16, 0, 250] : List ℚ), 0 ≤ e) ∧
      restingShape.y = restingShape.floor - restingShape.height ∧ restingShape.vy = 0) ∧
    (Shape.run exGame restingShape [16, 0, 250]).y = 90 ∧
    (Shape.run exGame restingShape [16, 0, 250]).vy = 0 := by
  have h1 : restingShape.cor = 0 := rfl
  have h2 : 0 ≤ restingShape.g := by
    norm_num [restingShape, Shape.new, Shape.setCoefficientOfRestitution]
  have h3 : restingShape.inTween = false := rfl
  have h4 : ∀ e ∈ ([16, 0, 250] : List ℚ), 0 ≤ e := by
    intro e he
    simp only [List.mem_cons, List.mem_singleton, List.not_mem_nil, or_false] at he
    rcases he with he | he | he <;> rw [he] <;> norm_num
  have h5 : restingShape.y = restingShape.floor - restingShape.height := by
    norm_num [restingShape, Shape.new, Shape.setCoefficientOfRestitution]
  have h6 : restingShape.vy = 0 := rfl
  obtain ⟨_, k⟩ := rest_on_floor exGame [16, 0, 250] restingShape h1 h2 h3 h4
  obtain ⟨k1, k2⟩ := k h5 h6
  refine ⟨⟨h1, h2, h3, h4, h5, h6⟩, ?_, k2⟩
  rw [k1]
  norm_num [restingShape, Shape.new, Shape.setCoefficientOfRestitution]

/-! ## Frame of the Shape methods -/

/-- The fields of a Shape that neither `update` nor `tween` writes. -/
theorem shape_update_frame (s : Shape) (game : Game) (e : ℚ) :
    (s.update game e).1.g = s.g ∧ (s.update game e).1.floor = s.floor ∧
    (s.update game e).1.cor = s.cor ∧ (s.update game e).1.width = s.width ∧
    (s.update game e).1.height = s.height ∧ (s.update game e).1.shape = s.shape ∧
    (s.update game e).1.color = s.color := by
  rw [shape_update_fst]
  unfold Shape.tweenStep Shape.bounce
  dsimp only
  split_ifs <;> exact ⟨rfl, rfl, rfl, rfl, rfl, rfl, rfl⟩

/-! ## Cookie lookup -/

theorem stripLeadingSpaces_eq_dropWhile (c : Str) :
    stripLeadingSpaces c = c.dropWhile (fun ch => ch == ' ') := by
  induction c with
  | nil => rfl
  | cons a cs ih =>
    unfold stripLeadingSpaces
    by_cases h : a = ' '
    · simp [h, ih]
    · simp [h]

theorem indexOfFrom_ge (name : Str) (c : Str) :
    ∀ pos : ℕ, indexOfFrom name pos c = -1 ∨ (pos : ℤ) ≤ indexOfFrom name pos c := by
  induction c with
  | nil =>
    intro pos
    unfold indexOfFrom
    split_ifs
    · right
      exact le_refl _
    · left
      rfl
  | cons a cs ih =>
    intro pos
    unfold indexOfFrom
    split_ifs
    · right
      exact le_refl _
    · rcases ih (pos + 1) with h | h
      · left
        exact h
      · right
        have : ((pos : ℤ)) ≤ ((pos + 1 : ℕ) : ℤ) := by push_cast; linarith
        exact le_trans this h

/-- The test `c.indexOf(name) === 0` of line 268 holds exactly when `c`
starts with `name`. -/
theorem jsIndexOf_eq_zero_iff (c name : Str) :
    jsIndexOf c name = 0 ↔ name.isPrefixOf c = true := by
  unfold jsIndexOf
  cases c with
  | nil =>
    unfold indexOfFrom
    split_ifs with h
    · simp [h]
    · simp [h]
  | cons a cs =>
    unfold indexOfFrom
    split_ifs with h
    · simp [h]
    · simp only [h]
      constructor
      · intro h0
        rcases indexOfFrom_ge name cs (0 + 1) with h1 | h1
        · rw [h1] at h0
          norm_num at h0
        · rw [h0] at h1
          norm_num at h1
      · intro hf
        exact absurd hf (by simp)

/-- The call `c.substring(name.length, c.length)` of line 269 drops the
first `name.length` characters. -/
theorem jsSubstring_to_end (c : Str) (n : ℕ) : jsSubstring c n c.length = c.drop n := by
  unfold jsSubstring
  rcases le_total n c.length with h | h
  · rw [max_eq_right h, min_eq_left h, List.take_length]
  · rw [max_eq_left h, min_eq_right h, List.take_of_length_le h, List.drop_length,
      List.drop_of_length_le h]

theorem getCookieLoop_cons_hit (name c : Str) (ca : List Str)
    (h : name.isPrefixOf (stripLeadingSpaces c) = true) :
    getCookieLoop name (c :: ca) = (stripLeadingSpaces c).drop name.length := by
  unfold getCookieLoop
  rw [if_pos ((jsIndexOf_eq_zero_iff _ _).mpr h), jsSubstring_to_end]

theorem getCookieLoop_cons_miss (name c : Str) (ca : List Str)
    (h : name.isPrefixOf (stripLeadingSpaces c) = false) :
    getCookieLoop name (c :: ca) = getCookieLoop name ca := by
  have hne : ¬ jsIndexOf (stripLeadingSpaces c) name = 0 := by
    rw [jsIndexOf_eq_zero_iff, h]
    simp
  conv_lhs => unfold getCookieLoop
  rw [if_neg hne]

/-- The loop returns the remainder of the first piece that starts with
`name` once its leading spaces are stripped. -/
theorem getCookieLoop_first (name : Str) (seg : Str) (post : List Str)
    (hseg : name.isPrefixOf (stripLeadingSpaces seg) = true) :
    ∀ pre : List Str, (∀ p ∈ pre, name.isPrefixOf (stripLeadingSpaces p) = false) →
      getCookieLoop name (pre ++ seg :: post) = (stripLeadingSpaces seg).drop name.length := by
  intro pre
  induction pre with
  | nil =>
    intro _
    exact getCookieLoop_cons_hit name seg post hseg
  | cons p pre ih =>
    intro hpre
    rw [List.cons_append, getCookieLoop_cons_miss name p _ (hpre p (List.mem_cons_self p pre))]
    exact ih (fun q hq => hpre q (List.mem_cons_of_mem p hq))

/-- The loop returns the empty string when no piece starts with `name`. -/
theorem getCookieLoop_none (name : Str) :
    ∀ segs : List Str, (∀ p ∈ segs, name.isPrefixOf (stripLeadingSpaces p) = false) →
      getCookieLoop name segs = [] := by
  intro segs
  induction segs with
  | nil =>
    intro _
    rfl
  | cons p segs ih =>
    intro h
    rw [getCookieLoop_cons_miss name p _ (h p (List.mem_cons_self p segs))]
    exact ih (fun q hq => h q (List.mem_cons_of_mem p hq))

/-- The loop of the source and the lookup of the specification agree. -/
theorem getCookieLoop_eq_spec (n : Str) :
    ∀ segs : List Str, getCookieLoop (n ++ ['=']) segs =
      (match (segs.map (List.dropWhile (fun ch => ch == ' '))).find?
          (fun seg => (n ++ ['=']).isPrefixOf seg) with
        | some seg => seg.drop (n.length + 1)
        | none => []) := by
  intro segs
  induction segs with
  | nil => rfl
  | cons c ca ih =>
    cases h : (n ++ ['=']).isPrefixOf (stripLeadingSpaces c)
    · rw [getCookieLoop_cons_miss _ c ca h, ih]
      rw [stripLeadingSpaces_eq_dropWhile] at h
      simp [List.find?_cons, h]
    · rw [getCookieLoop_cons_hit _ c ca h]
      rw [stripLeadingSpaces_eq_dropWhile] at h
      simp [List.find?_cons, h, stripLeadingSpaces_eq_dropWhile]

/-- C11 (cookie lookup).  When the cookie string decodes to `s`,
`getCookie(n)` is the lookup of the specification on `s`: with `s` split on
';' and the leading spaces of each piece stripped, it returns the text
following "n=" in the first piece that starts with "n=", and the empty
string if no piece does, in particular for the empty cookie string. -/
theorem cookie_lookup (decode : Str → Option Str) (doc s n : Str)
    (hdec : decode doc = some s) :
    getCookie decode doc n = some (cookieLookupSpec s n) ∧
    (∀ (pre : List Str) (seg : Str) (post : List Str),
      jsSplit ';' s = pre ++ seg :: post →
      (∀ p ∈ pre, (n ++ ['=']).isPrefixOf (stripLeadingSpaces p) = false) →
      (n ++ ['=']).isPrefixOf (stripLeadingSpaces seg) = true →
      ∃ value : Str, stripLeadingSpaces seg = n ++ ['='] ++ value ∧
        getCookie decode doc n = some value) ∧
    ((∀ seg ∈ jsSplit ';' s, (n ++ ['=']).isPrefixOf (stripLeadingSpaces seg) = false) →
      getCookie decode doc n = some []) ∧
    (s = [] → getCookie decode doc n = some []) := by
  have hget : getCookie decode doc n = some (getCookieLoop (n ++ ['=']) (jsSplit ';' s)) := by
    unfold getCookie
    simp only [hdec]
  refine ⟨?_, ?_, ?_, ?_⟩
  · rw [hget, getCookieLoop_eq_spec]
    rfl
  · intro pre seg post hsplit hpre hseg
    obtain ⟨value, hvalue⟩ := List.isPrefixOf_iff_prefix.mp hseg
    refine ⟨value, hvalue.symm, ?_⟩
    rw [hget, hsplit, getCookieLoop_first _ seg post hseg pre hpre, ← hvalue,
      List.drop_left]
  · intro hnone
    rw [hget, getCookieLoop_none _ _ hnone]
  · intro hs
    rw [hget, hs]
    apply congrArg some
    apply getCookieLoop_none
    intro p hp
    simp only [jsSplit, List.mem_singleton] at hp
    rw [hp]
    simp [stripLeadingSpaces]

/-- Witness of C11: in the cookie string "a=1; k=v; k=w" the lookup of "k"
returns "v", the value of the first piece that starts with "k=". -/
theorem cookie_lookup_witness :
    plainDecode "a=1; k=v; k=w".toList = some "a=1; k=v; k=w".toList ∧
    getCookie plainDecode "a=1; k=v; k=w".toList "k".toList
      = some (cookieLookupSpec "a=1; k=v; k=w".toList "k".toList) ∧
    cookieLookupSpec "a=1; k=v; k=w".toList "k".toList = "v".toList :=
  ⟨by decide,
   (cookie_lookup plainDecode "a=1; k=v; k=w".toList "a=1; k=v; k=w".toList "k".toList
      (by decide)).1,
   by decide⟩

/-! ## Cookie round trip -/

theorem jsSplit_no_sep (sep : Char) :
    ∀ a : Str, sep ∉ a → jsSplit sep a = [a] := by
  intro a
  induction a with
  | nil =>
    intro _
    rfl
  | cons c cs ih =>
    intro h
    have hc : c ≠ sep := fun hc => h (by rw [hc]; exact List.mem_cons_self _ _)
    have hcs : sep ∉ cs := fun hm => h (List.mem_cons_of_mem _ hm)
    unfold jsSplit
    rw [if_neg hc, ih hcs]

theorem jsSplit_append_sep (sep : Char) (b : Str) :
    ∀ a : Str, sep ∉ a → jsSplit sep (a ++ sep :: b) = a :: jsSplit sep b := by
  intro a
  induction a with
  | nil =>
    intro _
    show jsSplit sep (sep :: b) = [] :: jsSplit sep b
    conv_lhs => unfold jsSplit
    rw [if_pos rfl]
  | cons c cs ih =>
    intro h
    have hc : c ≠ sep := fun hc => h (by rw [hc]; exact List.mem_cons_self _ _)
    have hcs : sep ∉ cs := fun hm => h (List.mem_cons_of_mem _ hm)
    show jsSplit sep (c :: (cs ++ sep :: b)) = (c :: cs) :: jsSplit sep b
    conv_lhs => unfold jsSplit
    rw [if_neg hc, ih hcs]

theorem okChar_ne_sep (c : Char) (h : okChar c) : c ≠ ';' := h.2.2.1

theorem okChar_ne_escape (c : Char) (h : okChar c) : c ≠ '%' := h.2.2.2

theorem okName_no_eq (n : Str) (h : okName n) : '=' ∉ n :=
  fun hm => (h.2.1 '=' hm).2 rfl

theorem pairText_no_sep (p : Str × Str) (h : okName p.1 ∧ okValue p.2) :
    ';' ∉ pairText p := by
  unfold pairText
  intro hm
  simp only [List.mem_append, List.mem_singleton] at hm
  rcases hm with (hm | hm) | hm
  · exact okChar_ne_sep _ (h.1.2.1 _ hm).1 rfl
  · exact absurd hm (by decide)
  · exact okChar_ne_sep _ (h.2.1 _ hm) rfl

theorem pairText_no_escape (p : Str × Str) (h : okName p.1 ∧ okValue p.2) :
    '%' ∉ pairText p := by
  unfold pairText
  intro hm
  simp only [List.mem_append, List.mem_singleton] at hm
  rcases hm with (hm | hm) | hm
  · exact okChar_ne_escape _ (h.1.2.1 _ hm).1 rfl
  · exact absurd hm (by decide)
  · exact okChar_ne_escape _ (h.2.1 _ hm) rfl

theorem cookieText_named (p : Str × Str) (h : p.1 ≠ []) : cookieText p = pairText p := by
  unfold cookieText
  rw [if_neg h]

theorem map_cookieText_ok (ps : List (Str × Str)) (h : okPairs ps) :
    ps.map cookieText = ps.map pairText := by
  apply List.map_congr_left
  intro p hp
  exact cookieText_named p (h p hp).1.1

/-- The pieces of texts joined by "; ": the first text as it is, every later
one behind one space. -/
theorem jsSplit_joinCookies (rest : List Str) :
    ∀ (a sp : Str), ';' ∉ sp → (∀ x ∈ a :: rest, ';' ∉ x) →
      jsSplit ';' (sp ++ joinCookies (a :: rest))
        = (sp ++ a) :: rest.map (fun q => ' ' :: q) := by
  induction rest with
  | nil =>
    intro a sp hsp hno
    show jsSplit ';' (sp ++ a) = [sp ++ a]
    apply jsSplit_no_sep
    intro hm
    rcases List.mem_append.mp hm with hm | hm
    · exact hsp hm
    · exact hno a (List.mem_cons_self _ _) hm
  | cons b rest ih =>
    intro a sp hsp hno
    have hrest : ∀ x ∈ b :: rest, ';' ∉ x := fun x hx => hno x (List.mem_cons_of_mem _ hx)
    have hsa : ';' ∉ sp ++ a := by
      intro hm
      rcases List.mem_append.mp hm with hm | hm
      · exact hsp hm
      · exact hno a (List.mem_cons_self _ _) hm
    have hshape : sp ++ joinCookies (a :: b :: rest)
        = (sp ++ a) ++ ';' :: ([' '] ++ joinCookies (b :: rest)) := by
      show sp ++ (a ++ [';', ' '] ++ joinCookies (b :: rest)) = _
      simp
    rw [hshape, jsSplit_append_sep ';' _ _ hsa, ih b [' '] (by decide) hrest]
    rfl

theorem joinCookies_no_escape :
    ∀ l : List Str, (∀ x ∈ l, '%' ∉ x) → '%' ∉ joinCookies l := by
  intro l
  induction l with
  | nil =>
    intro _ hm
    exact absurd hm (List.not_mem_nil _)
  | cons a rest ih =>
    intro h
    have ha := h a (List.mem_cons_self _ _)
    have hrest : ∀ x ∈ rest, '%' ∉ x := fun x hx => h x (List.mem_cons_of_mem _ hx)
    cases rest with
    | nil => exact ha
    | cons b rest =>
      show '%' ∉ a ++ [';', ' '] ++ joinCookies (b :: rest)
      intro hm
      simp only [List.mem_append, List.mem_cons, List.mem_singleton, List.not_mem_nil,
        or_false] at hm
      rcases hm with (hm | hm) | hm
      · exact ha hm
      · rcases hm with hm | hm
        · exact absurd hm (by decide)
        · exact absurd hm (by decide)
      · exact ih hrest hm

theorem stripLeadingSpaces_space (c : Str) :
    stripLeadingSpaces (' ' :: c) = stripLeadingSpaces c := by
  conv_lhs => unfold stripLeadingSpaces
  rw [if_pos rfl]

theorem stripLeadingSpaces_pairText (p : Str × Str) (h : p.1.head? ≠ some ' ') :
    stripLeadingSpaces (pairText p) = pairText p := by
  unfold pairText
  cases hn : p.1 with
  | nil =>
    show stripLeadingSpaces ('=' :: p.2) = '=' :: p.2
    unfold stripLeadingSpaces
    rw [if_neg (by decide)]
  | cons a n =>
    have ha : a ≠ ' ' := by
      intro ha
      apply h
      rw [hn, ha]
      rfl
    show stripLeadingSpaces (a :: (n ++ ['='] ++ p.2)) = a :: (n ++ ['='] ++ p.2)
    unfold stripLeadingSpaces
    rw [if_neg ha]

/-- A piece "n=w" starts with "k=" exactly when the names are equal, both
being free of '='. -/
theorem isPrefixOf_pairText (w : Str) :
    ∀ k n : Str, '=' ∉ k → '=' ∉ n →
      ((k ++ ['=']).isPrefixOf (n ++ ['='] ++ w) = true ↔ n = k) := by
  intro k
  induction k with
  | nil =>
    intro n _ hn
    cases n with
    | nil => simp
    | cons a n =>
      have ha : a ≠ '=' := fun ha => hn (by rw [ha]; exact List.mem_cons_self _ _)
      simp [List.isPrefixOf, Ne.symm ha]
  | cons b k ih =>
    intro n hk hn
    have hb : b ≠ '=' := fun hb => hk (by rw [hb]; exact List.mem_cons_self _ _)
    have hk' : '=' ∉ k := fun hm => hk (List.mem_cons_of_mem _ hm)
    cases n with
    | nil => simp [List.isPrefixOf, hb]
    | cons a n =>
      have hn' : '=' ∉ n := fun hm => hn (List.mem_cons_of_mem _ hm)
      have := ih n hk' hn'
      simp only [List.cons_append, List.isPrefixOf, Bool.and_eq_true, beq_iff_eq,
        List.cons.injEq]
      constructor
      · rintro ⟨h1, h2⟩
        exact ⟨h1.symm, this.mp h2⟩
      · rintro ⟨h1, h2⟩
        exact ⟨h1.symm, this.mpr h2⟩

theorem jarLookup_cons (k : Str) (p : Str × Str) (rest : List (Str × Str)) :
    jarLookup k (p :: rest) = if p.1 = k then p.2 else jarLookup k rest := by
  unfold jarLookup
  by_cases h : p.1 = k
  · simp [List.find?_cons, h]
  · simp [List.find?_cons, h]

/-- One round of the loop on a piece that reads "n=w" behind its leading
spaces. -/
theorem getCookieLoop_pair (k seg : Str) (ca : List Str) (p : Str × Str)
    (hseg : stripLeadingSpaces seg = pairText p) (hk : '=' ∉ k) (hn : '=' ∉ p.1) :
    getCookieLoop (k ++ ['=']) (seg :: ca)
      = if p.1 = k then p.2 else getCookieLoop (k ++ ['=']) ca := by
  have hiff := isPrefixOf_pairText p.2 k p.1 hk hn
  by_cases h : p.1 = k
  · have hpre : (k ++ ['=']).isPrefixOf (stripLeadingSpaces seg) = true := by
      rw [hseg]
      exact hiff.mpr h
    rw [getCookieLoop_cons_hit _ seg ca hpre, if_pos h, hseg]
    unfold pairText
    rw [h]
    exact List.drop_left _ _
  · have hpre : (k ++ ['=']).isPrefixOf (stripLeadingSpaces seg) = false := by
      rw [hseg]
      cases hb : (k ++ ['=']).isPrefixOf (pairText p)
      · rfl
      · exact absurd (hiff.mp hb) h
    rw [getCookieLoop_cons_miss _ seg ca hpre, if_neg h]

theorem getCookieLoop_spaced (k : Str) (hk : '=' ∉ k) :
    ∀ rest : List (Str × Str), okPairs rest →
      getCookieLoop (k ++ ['=']) ((rest.map pairText).map (fun q => ' ' :: q))
        = jarLookup k rest := by
  intro rest
  induction rest with
  | nil =>
    intro _
    rfl
  | cons p rest ih =>
    intro hok
    have hp := hok p (List.mem_cons_self _ _)
    have hrest : okPairs rest := fun r hr => hok r (List.mem_cons_of_mem _ hr)
    rw [List.map_cons, List.map_cons, getCookieLoop_pair k _ _ p
      (by rw [stripLeadingSpaces_space, stripLeadingSpaces_pairText p hp.1.2.2.1])
      hk (okName_no_eq _ hp.1), jarLookup_cons, ih hrest]

/-- The loop of `getCookie` on the cookie string of carried pairs finds the
value of the first pair with the name. -/
theorem getCookieLoop_read (k : Str) (hk : '=' ∉ k) (ps : List (Str × Str))
    (hok : okPairs ps) :
    getCookieLoop (k ++ ['=']) (jsSplit ';' (joinCookies (ps.map cookieText)))
      = jarLookup k ps := by
  rw [map_cookieText_ok ps hok]
  cases ps with
  | nil =>
    show getCookieLoop (k ++ ['=']) [[]] = []
    apply getCookieLoop_none
    intro p hp
    rw [List.mem_singleton.mp hp]
    simp [stripLeadingSpaces]
  | cons p rest =>
    have hp := hok p (List.mem_cons_self _ _)
    have hrest : okPairs rest := fun r hr => hok r (List.mem_cons_of_mem _ hr)
    have hno : ∀ x ∈ pairText p :: rest.map pairText, ';' ∉ x := by
      intro x hx
      rcases List.mem_cons.mp hx with hx | hx
      · rw [hx]
        exact pairText_no_sep p hp
      · obtain ⟨q, hq, hqx⟩ := List.mem_map.mp hx
        rw [← hqx]
        exact pairText_no_sep q (hrest q hq)
    have hs := jsSplit_joinCookies (rest.map pairText) (pairText p) [] (List.not_mem_nil _) hno
    rw [List.nil_append, List.nil_append] at hs
    rw [List.map_cons, hs, getCookieLoop_pair k _ _ p
      (stripLeadingSpaces_pairText p hp.1.2.2.1) hk (okName_no_eq _ hp.1),
      jarLookup_cons, getCookieLoop_spaced k hk rest hrest]

theorem read_no_escape (ps : List (Str × Str)) (hok : okPairs ps) :
    '%' ∉ joinCookies (ps.map cookieText) := by
  rw [map_cookieText_ok ps hok]
  apply joinCookies_no_escape
  intro x hx
  obtain ⟨q, hq, hqx⟩ := List.mem_map.mp hx
  rw [← hqx]
  exact pairText_no_escape q (hok q hq)


theorem visiblePairs_cons (c : Cookie) (rest : Jar) (t : ℚ) :
    visiblePairs (c :: rest) t
      = if t < c.expiry then (c.name, c.value) :: visiblePairs rest t
        else visiblePairs rest t := by
  unfold visiblePairs
  by_cases h : t < c.expiry
  · simp [List.filter_cons, h]
  · simp [List.filter_cons, h]

theorem okPairs_visible (t : ℚ) :
    ∀ jar : Jar, okJar jar → okPairs (visiblePairs jar t) := by
  intro jar
  induction jar with
  | nil =>
    intro _ p hp
    exact absurd hp (List.not_mem_nil _)
  | cons c rest ih =>
    intro hok p hp
    have hrest : okJar rest := fun r hr => hok r (List.mem_cons_of_mem _ hr)
    rw [visiblePairs_cons] at hp
    split_ifs at hp
    · rcases List.mem_cons.mp hp with hp | hp
      · rw [hp]
        exact hok c (List.mem_cons_self _ _)
      · exact ih hrest p hp
    · exact ih hrest p hp

/-- After a cookie is stored, the first visible pair with its name carries
its value, as long as it has not expired. -/
theorem jarLookup_jarPut (c : Cookie) (t : ℚ) (h : t < c.expiry) :
    ∀ jar : Jar, jarLookup c.name (visiblePairs (jarPut c jar) t) = c.value := by
  intro jar
  induction jar with
  | nil =>
    show jarLookup c.name (visiblePairs [c] t) = c.value
    rw [visiblePairs_cons, if_pos h, jarLookup_cons, if_pos rfl]
  | cons p rest ih =>
    unfold jarPut
    by_cases hp : p.name = c.name
    · rw [if_pos hp, visiblePairs_cons, if_pos h, jarLookup_cons, if_pos rfl]
    · rw [if_neg hp, visiblePairs_cons]
      split_ifs
      · rw [jarLookup_cons, if_neg hp, ih]
      · exact ih

theorem okJar_jarPut (c : Cookie) (hc : okName c.name ∧ okValue c.value) :
    ∀ jar : Jar, okJar jar → okJar (jarPut c jar) := by
  intro jar
  induction jar with
  | nil =>
    intro _ q hq
    rw [show jarPut c [] = [c] from rfl, List.mem_singleton] at hq
    rw [hq]
    exact hc
  | cons p rest ih =>
    intro hok q hq
    have hrest : okJar rest := fun r hr => hok r (List.mem_cons_of_mem _ hr)
    unfold jarPut at hq
    by_cases h : p.name = c.name
    · rw [if_pos h] at hq
      rcases List.mem_cons.mp hq with hq | hq
      · rw [hq]
        exact hc
      · exact hrest q hq
    · rw [if_neg h] at hq
      rcases List.mem_cons.mp hq with hq | hq
      · rw [hq]
        exact hok p (List.mem_cons_self _ _)
      · exact ih hrest q hq

theorem jarLookup_absent (a : Str) (t : ℚ) :
    ∀ jar : Jar, (∀ c ∈ jar, c.name ≠ a) → jarLookup a (visiblePairs jar t) = [] := by
  intro jar
  induction jar with
  | nil =>
    intro _
    rfl
  | cons c rest ih =>
    intro h
    have hrest := ih (fun q hq => h q (List.mem_cons_of_mem _ hq))
    rw [visiblePairs_cons]
    split_ifs
    · rw [jarLookup_cons, if_neg (h c (List.mem_cons_self _ _)), hrest]
    · exact hrest

theorem takeWhile_append_stop (c : Char) (r : Str) :
    ∀ l : Str, c ∉ l → (l ++ c :: r).takeWhile (fun ch => ch != c) = l := by
  intro l
  induction l with
  | nil =>
    intro _
    simp
  | cons a l ih =>
    intro h
    have ha : a ≠ c := fun ha => h (by rw [ha]; exact List.mem_cons_self _ _)
    have hl : c ∉ l := fun hm => h (List.mem_cons_of_mem _ hm)
    simp [List.takeWhile_cons, ha, ih hl]


theorem dropWhile_append_stop (c : Char) (r : Str) :
    ∀ l : Str, c ∉ l → (l ++ c :: r).dropWhile (fun ch => ch != c) = c :: r := by
  intro l
  induction l with
  | nil =>
    intro _
    simp
  | cons a l ih =>
    intro h
    have ha : a ≠ c := fun ha => h (by rw [ha]; exact List.mem_cons_self _ _)
    have hl : c ∉ l := fun hm => h (List.mem_cons_of_mem _ hm)
    simp [List.dropWhile_cons, ha, ih hl]

theorem isWsp_printable (c : Char) (h : 32 ≤ c.toNat) (hw : isWsp c = true) : c = ' ' := by
  unfold isWsp at hw
  rcases Bool.or_eq_true _ _ |>.mp hw with hw | hw
  · exact beq_iff_eq.mp hw
  · have hc : c = Char.ofNat 9 := beq_iff_eq.mp hw
    rw [hc] at h
    exact absurd h (by decide)

theorem dropWhile_keep (p : Char → Bool) (s : Str)
    (h : ∀ a, s.head? = some a → p a = false) : s.dropWhile p = s := by
  cases s with
  | nil => rfl
  | cons a r =>
    have ha : p a = false := h a rfl
    simp [List.dropWhile_cons, ha]

/-- Stripping the white space at the ends leaves a string of printable
characters that has no space at either end as it is. -/
theorem trimWsp_ok (s : Str) (hc : ∀ c ∈ s, 32 ≤ c.toNat)
    (hh : s.head? ≠ some ' ') (hl : s.getLast? ≠ some ' ') : trimWsp s = s := by
  have h1 : s.dropWhile isWsp = s := by
    apply dropWhile_keep
    intro a ha
    cases hw : isWsp a
    · rfl
    · have hmem : a ∈ s := List.mem_of_mem_head? ha
      rw [isWsp_printable a (hc a hmem) hw] at ha
      exact absurd ha hh
  have h2 : s.reverse.dropWhile isWsp = s.reverse := by
    apply dropWhile_keep
    intro a ha
    rw [List.head?_reverse] at ha
    cases hw : isWsp a
    · rfl
    · have hmem : a ∈ s := List.mem_of_mem_getLast? ha
      rw [isWsp_printable a (hc a hmem) hw] at ha
      exact absurd ha hl
  unfold trimWsp
  rw [h1, h2, List.reverse_reverse]

theorem isCtl_okChar (c : Char) (h : okChar c) : isCtl c = false := by
  unfold isCtl
  have h1 : ¬ c.toNat < 32 := not_lt.mpr h.1
  have h2 : c.toNat ≠ 127 := by
    intro h127
    have := h.2.1
    rw [h127] at this
    exact absurd this (by decide)
  simp [h1, h2]

theorem setCookieExpiry_live (now exdays t : ℚ)
    (h : t + 1000 ≤ now + exdays * 24 * 60 * 60 * 1000) :
    t < setCookieExpiry now exdays := by
  unfold setCookieExpiry
  have hfl := Int.sub_one_lt_floor ((now + exdays * 24 * 60 * 60 * 1000) / 1000)
  have hdiv : (now + exdays * 24 * 60 * 60 * 1000) / 1000 * 1000
      = now + exdays * 24 * 60 * 60 * 1000 := by
    field_simp
  nlinarith

/-- The expiry written is not later than `now + exdays` days. -/
theorem setCookieExpiry_le (now exdays : ℚ) :
    setCookieExpiry now exdays ≤ now + exdays * 24 * 60 * 60 * 1000 := by
  unfold setCookieExpiry
  have hfl := Int.floor_le ((now + exdays * 24 * 60 * 60 * 1000) / 1000)
  have hdiv : (now + exdays * 24 * 60 * 60 * 1000) / 1000 * 1000
      = now + exdays * 24 * 60 * 60 * 1000 := by
    field_simp
  nlinarith

/-- The store reads the assignment made by `setCookie` as the cookie
`(cname, cvalue)` when name and value can be carried and the expiry lies in
the future. -/
theorem jarAssign_setCookie (jar : Jar) (now : ℚ) (toUTCString : ℚ → Str) (k v : Str)
    (exdays expiry : ℚ) (hk : okName k) (hv : okValue v)
    (hsize : k.length + v.length ≤ 4096)
    (hlive : now < min expiry (now + 400 * 24 * 60 * 60 * 1000)) :
    jarAssign jar now (setCookie now toUTCString k v exdays) expiry
      = jarPut ⟨k, v, min expiry (now + 400 * 24 * 60 * 60 * 1000)⟩ jar := by
  have hk1 : ';' ∉ k := fun hm => okChar_ne_sep _ (hk.2.1 _ hm).1 rfl
  have hk2 : '=' ∉ k := okName_no_eq k hk
  have hv1 : ';' ∉ v := fun hm => okChar_ne_sep _ (hv.1 _ hm) rfl
  have hkv : ';' ∉ k ++ ['='] ++ v := by
    intro hm
    simp only [List.mem_append, List.mem_singleton] at hm
    rcases hm with (hm | hm) | hm
    · exact hk1 hm
    · exact absurd hm (by decide)
    · exact hv1 hm
  have hshape : setCookie now toUTCString k v exdays
      = (k ++ ['='] ++ v) ++ ';' ::
          ("expires=".toList ++ toUTCString (now + exdays * 24 * 60 * 60 * 1000)
            ++ ";path=/".toList) := by
    unfold setCookie
    simp
  have hpair : (setCookie now toUTCString k v exdays).takeWhile (fun ch => ch != ';')
      = k ++ ['='] ++ v := by
    rw [hshape]
    exact takeWhile_append_stop ';' _ _ hkv
  have hmem : '=' ∈ k ++ ['='] ++ v := by simp
  have h1 : (k ++ ['='] ++ v).takeWhile (fun ch => ch != '=') = k := by
    rw [List.append_assoc]
    exact takeWhile_append_stop '=' v k hk2
  have h2 : ((k ++ ['='] ++ v).dropWhile (fun ch => ch != '=')).drop 1 = v := by
    rw [List.append_assoc]
    show ((k ++ '=' :: v).dropWhile (fun ch => ch != '=')).drop 1 = v
    rw [dropWhile_append_stop '=' v k hk2]
    rfl
  have hname : trimWsp k = k :=
    trimWsp_ok k (fun c hc => (hk.2.1 c hc).1.1) hk.2.2.1 hk.2.2.2.1
  have hvalue : trimWsp v = v :=
    trimWsp_ok v (fun c hc => (hv.1 c hc).1) hv.2.1 hv.2.2
  have hctl : (k ++ ['='] ++ v).any isCtl = false := by
    rw [List.any_eq_false]
    intro x hx
    simp only [List.mem_append, List.mem_singleton] at hx
    rcases hx with (hx | hx) | hx
    · rw [isCtl_okChar x (hk.2.1 x hx).1]
      simp
    · rw [hx]
      decide
    · rw [isCtl_okChar x (hv.1 x hx)]
      simp
  have hempty : k.isEmpty = false := by
    cases hkk : k with
    | nil => exact absurd hkk hk.1
    | cons a r => rfl
  have hlen : ¬ 4096 < k.length + v.length := not_lt.mpr hsize
  have hexp : ¬ min expiry (now + 400 * 24 * 60 * 60 * 1000) ≤ now := not_le.mpr hlive
  unfold jarAssign
  simp only [hpair, hmem, if_true, h1, h2, hname, hvalue, hctl, hempty, hlen, hk.2.2.2.2,
    hexp, Bool.false_and, Bool.or_self, decide_False, Bool.false_eq_true, if_false]

/-- A name that starts with a space is never found: every piece is compared
after its leading spaces have been stripped. -/
theorem getCookieLoop_spaced_name (k : Str) :
    ∀ segs : List Str, getCookieLoop (' ' :: k ++ ['=']) segs = [] := by
  intro segs
  apply getCookieLoop_none
  intro p _
  rw [stripLeadingSpaces_eq_dropWhile]
  cases h : p.dropWhile (fun ch => ch == ' ') with
  | nil => rfl
  | cons a r =>
    have hhead := List.head?_dropWhile_not (fun ch => ch == ' ') p
    rw [h] at hhead
    have ha : (a == ' ') = false := hhead
    have ha' : a ≠ ' ' := by
      intro hh
      rw [hh] at ha
      exact absurd ha (by decide)
    simp [List.isPrefixOf, Ne.symm ha']

/-- The decoded cookie string "a=;k=evil; k=v" (what an escaped ';' in the
value of another cookie turns into) makes the lookup of "k" return "evil". -/
theorem cookie_escape_shadow (decode : Str → Option Str)
    (hdec : decode "a=%3Bk=evil; k=v".toList = some "a=;k=evil; k=v".toList) :
    getCookie decode "a=%3Bk=evil; k=v".toList "k".toList = some "evil".toList := by
  unfold getCookie
  simp only [hdec]
  decide

/-- C12 (cookie round trip) fails as stated.  A name that starts with a
space is never found: `setCookie(" k", "v", 1)` is followed by
`getCookie(" k")` returning the empty string (the store holds "k=v").  The
empty name is not found either: after `setCookie("", "v", 1)` the cookie
string is "v".  A value loses the spaces at its ends: after
`setCookie("k", " v", 1)` the lookup returns "v".  And `days > 0` does not
keep the cookie alive: with a billionth of a day the expiry, printed to the
second, is already past. -/
theorem cookie_round_trip_counterexample :
    (jarRead (jarAssign [] 1500 (setCookie 1500 exUTC " k".toList "v".toList 1)
        (setCookieExpiry 1500 1)) 1520 = "k=v".toList ∧
      getCookie plainDecode
        (jarRead (jarAssign [] 1500 (setCookie 1500 exUTC " k".toList "v".toList 1)
          (setCookieExpiry 1500 1)) 1520) " k".toList = some [] ∧
      (some [] : Option Str) ≠ some "v".toList) ∧
    (jarRead (jarAssign [] 1500 (setCookie 1500 exUTC [] "v".toList 1)
        (setCookieExpiry 1500 1)) 1520 = "v".toList ∧
      getCookie plainDecode
        (jarRead (jarAssign [] 1500 (setCookie 1500 exUTC [] "v".toList 1)
          (setCookieExpiry 1500 1)) 1520) [] = some []) ∧
    (getCookie plainDecode
        (jarRead (jarAssign [] 1500 (setCookie 1500 exUTC "k".toList " v".toList 1)
          (setCookieExpiry 1500 1)) 1520) "k".toList = some "v".toList ∧
      (some "v".toList : Option Str) ≠ some " v".toList) ∧
    ((0 : ℚ) < 1 / 1000000000 ∧
      setCookieExpiry 1500 (1 / 1000000000) = 1000 ∧
      getCookie plainDecode
        (jarRead (jarAssign [] 1500
          (setCookie 1500 exUTC "k".toList "v".toList (1 / 1000000000))
          (setCookieExpiry 1500 (1 / 1000000000))) 1500) "k".toList = some []) := by
  refine ⟨⟨?_, ?_, ?_⟩, ⟨?_, ?_⟩, ⟨?_, ?_⟩, ⟨?_, ?_, ?_⟩⟩ <;> decide!

/-- C12 (cookie round trip), amended.  Let `k` and `v` be made of printable
ASCII characters other than ';' and '%', with no space at either end, `k`
not empty, free of '=' and not reserved, and at most 4096 characters
together; let the cookies in the store have such names and values; let
`decodeURIComponent` return strings without '%' unchanged.  Then
`setCookie(k, v, days)` at the time `now` followed by `getCookie(k)` at a
time `t` from `now` on, before the expiry that `setCookie` writes
(`now + days`, cut to the whole second: so `days > 0`) and less than 400
days after `now`, returns `v`; and `getCookie` of a name without '=' that is
not in the store returns the empty string. -/
theorem cookie_round_trip (decode : Str → Option Str) (now t : ℚ) (toUTCString : ℚ → Str)
    (jar : Jar) (k v absent : Str) (exdays : ℚ)
    (hdec : ∀ s : Str, '%' ∉ s → decode s = some s)
    (hjar : okJar jar) (hk : okName k) (hv : okValue v)
    (hsize : k.length + v.length ≤ 4096)
    (hnow : now ≤ t) (hlive : t < setCookieExpiry now exdays)
    (hcap : t < now + 400 * 24 * 60 * 60 * 1000) :
    0 < exdays ∧
    getCookie decode
      (jarRead (jarAssign jar now (setCookie now toUTCString k v exdays)
        (setCookieExpiry now exdays)) t) k = some v ∧
    ('=' ∉ absent → (∀ c ∈ jar, c.name ≠ absent) →
      getCookie decode (jarRead jar t) absent = some []) := by
  have hexp : t < min (setCookieExpiry now exdays) (now + 400 * 24 * 60 * 60 * 1000) :=
    lt_min hlive hcap
  refine ⟨?_, ?_, ?_⟩
  · have hle := setCookieExpiry_le now exdays
    by_contra hneg
    have h0 : exdays ≤ 0 := not_lt.mp hneg
    nlinarith
  · have hput := jarAssign_setCookie jar now toUTCString k v exdays
      (setCookieExpiry now exdays) hk hv hsize (lt_of_le_of_lt hnow hexp)
    have hok : okJar (jarPut
        ⟨k, v, min (setCookieExpiry now exdays) (now + 400 * 24 * 60 * 60 * 1000)⟩ jar) :=
      okJar_jarPut _ ⟨hk, hv⟩ jar hjar
    have hvis := okPairs_visible t _ hok
    rw [hput]
    unfold getCookie jarRead
    simp only [hdec _ (read_no_escape _ hvis)]
    rw [getCookieLoop_read k (okName_no_eq k hk) _ hvis]
    exact congrArg some
      (jarLookup_jarPut
        ⟨k, v, min (setCookieExpiry now exdays) (now + 400 * 24 * 60 * 60 * 1000)⟩ t
        hexp jar)
  · intro ha hne
    have hvis := okPairs_visible t jar hjar
    unfold getCookie jarRead
    simp only [hdec _ (read_no_escape _ hvis)]
    rw [getCookieLoop_read absent ha _ hvis, jarLookup_absent absent t jar hne]

/-- Witness of C12 (amended): with the cookies "a" = "1" and "kk" = "x=y" in
the store, `setCookie("k", "v", 1)` at the time 1500 makes the cookie string
"a=1; kk=x=y; k=v", from which `getCookie("k")` at the time 1520 returns
"v", while `getCookie("missing")` returns the empty string. -/
theorem cookie_round_trip_witness :
    ((∀ s : Str, '%' ∉ s → plainDecode s = some s) ∧ okJar exJar ∧
      okName "k".toList ∧ okValue "v".toList ∧
      "k".toList.length + "v".toList.length ≤ 4096 ∧ (1500 : ℚ) ≤ 1520 ∧
      (1520 : ℚ) < setCookieExpiry 1500 1 ∧
      (1520 : ℚ) < 1500 + 400 * 24 * 60 * 60 * 1000 ∧ '=' ∉ "missing".toList ∧
      (∀ c ∈ exJar, c.name ≠ "missing".toList)) ∧
    jarRead (jarAssign exJar 1500 (setCookie 1500 exUTC "k".toList "v".toList 1)
      (setCookieExpiry 1500 1)) 1520 = "a=1; kk=x=y; k=v".toList ∧
    getCookie plainDecode
      (jarRead (jarAssign exJar 1500 (setCookie 1500 exUTC "k".toList "v".toList 1)
        (setCookieExpiry 1500 1)) 1520) "k".toList = some "v".toList ∧
    getCookie plainDecode (jarRead exJar 1520) "missing".toList = some [] := by
  have h1 : ∀ s : Str, '%' ∉ s → plainDecode s = some s := by
    intro s hs
    unfold plainDecode
    rw [if_neg hs]
  have h3 : okJar exJar := by decide
  have h4 : okName "k".toList := by decide
  have h5 : okValue "v".toList := by decide
  have hsz : "k".toList.length + "v".toList.length ≤ 4096 := by decide
  have hn : (1500 : ℚ) ≤ 1520 := by norm_num
  have hl : (1520 : ℚ) < setCookieExpiry 1500 1 :=
    setCookieExpiry_live 1500 1 1520 (by norm_num)
  have hcp : (1520 : ℚ) < 1500 + 400 * 24 * 60 * 60 * 1000 := by norm_num
  have h6 : '=' ∉ "missing".toList := by decide
  have h7 : ∀ c ∈ exJar, c.name ≠ "missing".toList := by decide
  obtain ⟨_, k1, k2⟩ :=
    cookie_round_trip plainDecode 1500 1520 exUTC exJar "k".toList "v".toList
      "missing".toList 1 h1 h3 h4 h5 hsz hn hl hcp
  exact ⟨⟨h1, h3, h4, h5, hsz, hn, hl, hcp, h6, h7⟩, by decide!, k1, k2 h6 h7⟩

/-! ## Tweens in double arithmetic -/

theorem log2Aux_spec : ∀ fuel n : ℕ, n ≤ fuel → n ≠ 0 →
    2 ^ log2Aux fuel n ≤ n ∧ n < 2 ^ (log2Aux fuel n + 1) := by
  intro fuel
  induction fuel with
  | zero =>
    intro n h h0
    exact absurd (Nat.le_zero.mp h) h0
  | succ fuel ih =>
    intro n h h0
    unfold log2Aux
    split_ifs with h2
    · have hle : n / 2 ≤ fuel := by omega
      have hne : n / 2 ≠ 0 := by omega
      obtain ⟨i1, i2⟩ := ih (n / 2) hle hne
      rw [pow_succ] at i2
      rw [pow_succ, pow_succ, pow_succ]
      constructor
      · omega
      · omega
    · have h1 : n = 1 := by omega
      rw [h1]
      decide

theorem natLog2_spec (n : ℕ) (h : n ≠ 0) :
    2 ^ natLog2 n ≤ n ∧ n < 2 ^ (natLog2 n + 1) :=
  log2Aux_spec n n (le_refl n) h

theorem abs_eq_natAbs_div_den (x : ℚ) : |x| = (x.num.natAbs : ℚ) / (x.den : ℚ) := by
  have hx : x = (x.num : ℚ) / (x.den : ℚ) := (Rat.num_div_den x).symm
  have hd : (0 : ℚ) < (x.den : ℚ) := by exact_mod_cast x.den_pos
  conv_lhs => rw [hx]
  rw [abs_div, abs_of_pos hd, Nat.cast_natAbs, Int.cast_abs]

/-- The binary exponent brackets the magnitude. -/
theorem binExp_spec (x : ℚ) (hx : x ≠ 0) :
    (2 : ℚ) ^ binExp x ≤ |x| ∧ |x| < (2 : ℚ) ^ (binExp x + 1) := by
  have hn0 : x.num.natAbs ≠ 0 := by
    intro h
    exact hx (Rat.zero_of_num_zero (Int.natAbs_eq_zero.mp h))
  have hd0 : x.den ≠ 0 := x.den_nz
  obtain ⟨a1, a2⟩ := natLog2_spec _ hn0
  obtain ⟨b1, b2⟩ := natLog2_spec _ hd0
  have a1' : (2 : ℚ) ^ natLog2 x.num.natAbs ≤ (x.num.natAbs : ℚ) := by exact_mod_cast a1
  have a2' : (x.num.natAbs : ℚ) < (2 : ℚ) ^ (natLog2 x.num.natAbs + 1) := by exact_mod_cast a2
  have b1' : (2 : ℚ) ^ natLog2 x.den ≤ (x.den : ℚ) := by exact_mod_cast b1
  have b2' : (x.den : ℚ) < (2 : ℚ) ^ (natLog2 x.den + 1) := by exact_mod_cast b2
  have hd : (0 : ℚ) < (x.den : ℚ) := by exact_mod_cast x.den_pos
  have h2 : (2 : ℚ) ≠ 0 := by norm_num
  have hpa : (0 : ℚ) < (2 : ℚ) ^ natLog2 x.num.natAbs := by positivity
  have hpb : (0 : ℚ) < (2 : ℚ) ^ natLog2 x.den := by positivity
  have hexp : ∀ z : ℤ, (2 : ℚ) ^ ((natLog2 x.num.natAbs : ℤ) - (natLog2 x.den : ℤ) + z)
      = (2 : ℚ) ^ natLog2 x.num.natAbs / (2 : ℚ) ^ natLog2 x.den * (2 : ℚ) ^ z := by
    intro z
    rw [zpow_add₀ h2, zpow_sub₀ h2, zpow_natCast, zpow_natCast]
  unfold binExp
  split_ifs with hc
  · refine ⟨hc, ?_⟩
    rw [hexp 1, abs_eq_natAbs_div_den, zpow_one, div_mul_eq_mul_div, div_lt_div_iff₀ hd hpb]
    rw [pow_succ] at a2'
    nlinarith
  · have hc' := not_le.mp hc
    constructor
    · have := hexp (-1)
      rw [show (natLog2 x.num.natAbs : ℤ) - (natLog2 x.den : ℤ) + -1
        = (natLog2 x.num.natAbs : ℤ) - (natLog2 x.den : ℤ) - 1 from by ring] at this
      rw [this, abs_eq_natAbs_div_den, zpow_neg, zpow_one, div_mul_eq_mul_div,
        div_le_div_iff₀ hpb hd]
      rw [pow_succ] at b2'
      nlinarith
    · rw [sub_add_cancel]
      exact hc'

theorem roundHalfEven_int (z : ℤ) : roundHalfEven (z : ℚ) = z := by
  unfold roundHalfEven
  rw [Int.floor_intCast, sub_self, if_pos (by norm_num)]

theorem roundHalfEven_bounds (m : ℚ) :
    ⌊m⌋ ≤ roundHalfEven m ∧ roundHalfEven m ≤ ⌊m⌋ + 1 := by
  unfold roundHalfEven
  split_ifs <;> constructor <;> omega

/-- A rational `m * 2^k` with an integer `m` of magnitude at most `2^53` is
a double: rounding leaves it as it is. -/
theorem toDouble_repr (m k : ℤ) (hm : |m| ≤ 2 ^ 53) :
    toDouble ((m : ℚ) * 2 ^ k) = (m : ℚ) * 2 ^ k := by
  have h2 : (2 : ℚ) ≠ 0 := by norm_num
  by_cases hm0 : m = 0
  · rw [hm0]
    simp [toDouble]
  have hx : (m : ℚ) * 2 ^ k ≠ 0 := by
    apply mul_ne_zero
    · exact_mod_cast hm0
    · exact zpow_ne_zero _ h2
  obtain ⟨s1, _⟩ := binExp_spec _ hx
  have hmq : |(m : ℚ)| ≤ 2 ^ (53 : ℤ) := by
    have : ((|m| : ℤ) : ℚ) ≤ ((2 ^ 53 : ℤ) : ℚ) := by exact_mod_cast hm
    rw [Int.cast_abs] at this
    rw [show (2 : ℚ) ^ (53 : ℤ) = ((2 ^ 53 : ℤ) : ℚ) from by norm_num]
    exact this
  have hk : (0 : ℚ) < 2 ^ k := zpow_pos (by norm_num) k
  rw [abs_mul, abs_of_pos hk] at s1
  -- the exponent is at most 53 + k
  have hL : binExp ((m : ℚ) * 2 ^ k) ≤ 53 + k := by
    have h3 : (2 : ℚ) ^ binExp ((m : ℚ) * 2 ^ k) ≤ 2 ^ (53 + k) := by
      rw [zpow_add₀ h2]
      exact le_trans s1 (mul_le_mul_of_nonneg_right hmq (le_of_lt hk))
    exact (zpow_le_zpow_iff_right₀ (by norm_num : (1 : ℚ) < 2)).mp h3
  -- the scaled value is an integer
  have hint : ∃ z : ℤ, (m : ℚ) * 2 ^ k / 2 ^ (binExp ((m : ℚ) * 2 ^ k) - 52) = (z : ℚ) := by
    have hdiv : (m : ℚ) * 2 ^ k / 2 ^ (binExp ((m : ℚ) * 2 ^ k) - 52)
        = (m : ℚ) * 2 ^ (k - binExp ((m : ℚ) * 2 ^ k) + 52) := by
      rw [mul_div_assoc, ← zpow_sub₀ h2]
      congr 2
      ring
    rw [hdiv]
    rcases lt_or_le (k - binExp ((m : ℚ) * 2 ^ k) + 52) 0 with hneg | hnn
    · have hLe : binExp ((m : ℚ) * 2 ^ k) = 53 + k := by omega
      have hj : k - binExp ((m : ℚ) * 2 ^ k) + 52 = -1 := by omega
      rw [hLe, zpow_add₀ h2] at s1
      have hge : (2 : ℚ) ^ (53 : ℤ) ≤ |(m : ℚ)| := le_of_mul_le_mul_right s1 hk
      have habs : |(m : ℚ)| = 2 ^ (53 : ℤ) := le_antisymm hmq hge
      rw [hj]
      rcases abs_cases (m : ℚ) with ⟨hA, _⟩ | ⟨hA, _⟩
      · refine ⟨2 ^ 52, ?_⟩
        rw [← hA, habs]
        norm_num
      · refine ⟨-2 ^ 52, ?_⟩
        have : (m : ℚ) = -2 ^ (53 : ℤ) := by
          rw [← habs, hA]
          ring
        rw [this]
        norm_num
    · obtain ⟨j, hj⟩ := Int.eq_ofNat_of_zero_le hnn
      refine ⟨m * 2 ^ j, ?_⟩
      rw [hj, zpow_natCast]
      push_cast
      ring
  obtain ⟨z, hz⟩ := hint
  unfold toDouble
  rw [if_neg hx, hz, roundHalfEven_int, ← hz]
  exact div_mul_cancel₀ _ (zpow_ne_zero _ h2)

/-- Natural numbers up to `2^53` are doubles. -/
theorem toDouble_nat (n : ℕ) (h : n ≤ 2 ^ 53) : toDouble (n : ℚ) = (n : ℚ) := by
  have hr := toDouble_repr (n : ℤ) 0 (by
    rw [abs_of_nonneg (Int.natCast_nonneg n)]
    exact_mod_cast h)
  rw [zpow_zero, mul_one] at hr
  exact_mod_cast hr

/-- Rounding to a double is idempotent. -/
theorem toDouble_idem (x : ℚ) : toDouble (toDouble x) = toDouble x := by
  have h2 : (2 : ℚ) ≠ 0 := by norm_num
  by_cases hx : x = 0
  · rw [hx]
    simp [toDouble]
  obtain ⟨_, s2⟩ := binExp_spec x hx
  have hp : (0 : ℚ) < 2 ^ (binExp x - 52) := zpow_pos (by norm_num) _
  have hm : |x / 2 ^ (binExp x - 52)| < 2 ^ (53 : ℤ) := by
    rw [abs_div, abs_of_pos hp, div_lt_iff₀ hp, ← zpow_add₀ h2]
    rw [show (53 : ℤ) + (binExp x - 52) = binExp x + 1 from by ring]
    exact s2
  obtain ⟨b1, b2⟩ := roundHalfEven_bounds (x / 2 ^ (binExp x - 52))
  have hlt := (abs_lt.mp hm)
  have hfl1 : ⌊x / 2 ^ (binExp x - 52)⌋ < 2 ^ 53 := by
    have : ((⌊x / 2 ^ (binExp x - 52)⌋ : ℤ) : ℚ) < ((2 ^ 53 : ℤ) : ℚ) := by
      refine lt_of_le_of_lt (Int.floor_le _) ?_
      have := hlt.2
      norm_num at this ⊢
      exact this
    exact_mod_cast this
  have hfl2 : -(2 ^ 53) ≤ ⌊x / 2 ^ (binExp x - 52)⌋ := by
    apply Int.le_floor.mpr
    have := hlt.1
    norm_num at this ⊢
    exact le_of_lt this
  have hr : |roundHalfEven (x / 2 ^ (binExp x - 52))| ≤ 2 ^ 53 := by
    rw [abs_le]
    constructor <;> omega
  have hdef : toDouble x
      = (roundHalfEven (x / 2 ^ (binExp x - 52)) : ℚ) * 2 ^ (binExp x - 52) := by
    unfold toDouble
    rw [if_neg hx]
  rw [hdef]
  exact toDouble_repr _ _ hr

theorem toDouble_zero : toDouble 0 = 0 := by
  simp [toDouble]


/-- Rounding to the nearest integer moves a rational by at most a half. -/
theorem roundHalfEven_err (m : ℚ) : |(roundHalfEven m : ℚ) - m| ≤ 1 / 2 := by
  have h1 : (⌊m⌋ : ℚ) ≤ m := Int.floor_le m
  have h2 : m < ⌊m⌋ + 1 := Int.lt_floor_add_one m
  unfold roundHalfEven
  rw [abs_le]
  split_ifs with a b c
  · constructor <;> linarith
  · push_cast
    constructor <;> linarith
  · constructor <;> linarith
  · push_cast
    constructor <;> linarith

/-- Rounding to a double has a relative error of at most `2^-53`. -/
theorem toDouble_err (z : ℚ) : |toDouble z - z| ≤ unitRoundoff * |z| := by
  have h2 : (2 : ℚ) ≠ 0 := by norm_num
  by_cases hz : z = 0
  · rw [hz, toDouble_zero]
    simp
  obtain ⟨s1, _⟩ := binExp_spec z hz
  have hp : (0 : ℚ) < 2 ^ (binExp z - 52) := zpow_pos (by norm_num) _
  have hdef : toDouble z
      = (roundHalfEven (z / 2 ^ (binExp z - 52)) : ℚ) * 2 ^ (binExp z - 52) := by
    unfold toDouble
    rw [if_neg hz]
  have hdiff : toDouble z - z
      = ((roundHalfEven (z / 2 ^ (binExp z - 52)) : ℚ) - z / 2 ^ (binExp z - 52))
          * 2 ^ (binExp z - 52) := by
    rw [hdef, sub_mul, div_mul_cancel₀ z (ne_of_gt hp)]
  have hpow : (2 : ℚ) ^ (binExp z - 52) = 2 ^ binExp z * (1 / 2 ^ 52) := by
    rw [zpow_sub₀ h2, div_eq_mul_one_div]
    congr 1
    norm_num
  rw [hdiff, abs_mul, abs_of_pos hp]
  have hr := roundHalfEven_err (z / 2 ^ (binExp z - 52))
  calc |(roundHalfEven (z / 2 ^ (binExp z - 52)) : ℚ) - z / 2 ^ (binExp z - 52)|
        * 2 ^ (binExp z - 52)
      ≤ 1 / 2 * 2 ^ (binExp z - 52) := mul_le_mul_of_nonneg_right hr (le_of_lt hp)
    _ = unitRoundoff * 2 ^ binExp z := by
        rw [hpow]
        unfold unitRoundoff
        ring
    _ ≤ unitRoundoff * |z| := by
        apply mul_le_mul_of_nonneg_left s1
        unfold unitRoundoff
        norm_num

/-- Rounding a value that is near `X` leaves it near `X`. -/
theorem near_round (x X ε : ℚ) (h : |x - X| ≤ ε * |X|) :
    |toDouble x - X| ≤ (ε + unitRoundoff * (1 + ε)) * |X| := by
  have hu : (0 : ℚ) ≤ unitRoundoff := by
    unfold unitRoundoff
    norm_num
  have h1 := toDouble_err x
  have h2 : |x| ≤ (1 + ε) * |X| := by
    have := abs_sub_abs_le_abs_sub x X
    linarith
  have h3 : |toDouble x - X| ≤ |toDouble x - x| + |x - X| := by
    have := abs_add (toDouble x - x) (x - X)
    rw [sub_add_sub_cancel] at this
    exact this
  have h4 : unitRoundoff * |x| ≤ unitRoundoff * ((1 + ε) * |X|) :=
    mul_le_mul_of_nonneg_left h2 hu
  linarith

/-- The product of two near values is near the product. -/
theorem near_mul (x X y Y ε1 ε2 : ℚ)
    (h1 : |x - X| ≤ ε1 * |X|) (h2 : |y - Y| ≤ ε2 * |Y|) :
    |x * y - X * Y| ≤ (ε1 + ε2 + ε1 * ε2) * |X * Y| := by
  have hx : |x| ≤ (1 + ε1) * |X| := by
    have := abs_sub_abs_le_abs_sub x X
    linarith
  have e : x * y - X * Y = x * (y - Y) + (x - X) * Y := by ring
  have t1 : |x * (y - Y)| ≤ (1 + ε1) * |X| * (ε2 * |Y|) := by
    rw [abs_mul]
    exact mul_le_mul hx h2 (abs_nonneg _) (le_trans (abs_nonneg _) hx)
  have t2 : |(x - X) * Y| ≤ ε1 * |X| * |Y| := by
    rw [abs_mul]
    exact mul_le_mul_of_nonneg_right h1 (abs_nonneg _)
  rw [e, abs_mul X Y]
  have := abs_add (x * (y - Y)) ((x - X) * Y)
  nlinarith

/-- The quotient of two near values, the divisor positive, is near the
quotient. -/
theorem near_div (a A b B ε1 ε2 : ℚ) (hB : 0 < B) (hε1 : 0 ≤ ε1) (hε2 : 0 ≤ ε2)
    (hlt : ε2 < 1) (h1 : |a - A| ≤ ε1 * |A|) (h2 : |b - B| ≤ ε2 * B) :
    |a / b - A / B| ≤ ((ε1 + ε2) / (1 - ε2)) * |A / B| := by
  have hb : (1 - ε2) * B ≤ b := by
    have := (abs_le.mp h2).1
    linarith
  have hb0 : 0 < b := lt_of_lt_of_le (mul_pos (by linarith) hB) hb
  have e : a / b - A / B = ((a - A) * B + A * (B - b)) / (b * B) := by
    field_simp
    ring
  have hnum : |(a - A) * B + A * (B - b)| ≤ (ε1 + ε2) * |A| * B := by
    have t1 : |(a - A) * B| ≤ ε1 * |A| * B := by
      rw [abs_mul, abs_of_pos hB]
      exact mul_le_mul_of_nonneg_right h1 (le_of_lt hB)
    have t2 : |A * (B - b)| ≤ |A| * (ε2 * B) := by
      rw [abs_mul, abs_sub_comm]
      exact mul_le_mul_of_nonneg_left h2 (abs_nonneg _)
    have := abs_add ((a - A) * B) (A * (B - b))
    nlinarith
  have hden : 0 < b * B := mul_pos hb0 hB
  rw [e, abs_div, abs_of_pos hden, abs_div, abs_of_pos hB, div_le_iff₀ hden]
  have h1e : 0 < 1 - ε2 := by linarith
  have key : (ε1 + ε2) * |A| * B ≤ (ε1 + ε2) / (1 - ε2) * (|A| / B) * (b * B) := by
    have e2 : (ε1 + ε2) / (1 - ε2) * (|A| / B) * (b * B)
        = (ε1 + ε2) * |A| * (b / (1 - ε2)) := by
      field_simp
      ring
    rw [e2]
    apply mul_le_mul_of_nonneg_left
    · rw [le_div_iff₀ h1e]
      linarith
    · exact mul_nonneg (by linarith) (abs_nonneg _)
  exact le_trans hnum key

/-- The tween velocity computed in doubles is within `4 * 2^-53` (relative) of
the exact velocity. -/
theorem tween_velocity_err (p q dur : ℚ) (hdur : 0 < dur) :
    |ddiv (dsub q p) (ddiv dur 1000) - (q - p) / (dur / 1000)|
      ≤ 4 * unitRoundoff * |(q - p) / (dur / 1000)| := by
  have hu : (0 : ℚ) ≤ unitRoundoff := by
    unfold unitRoundoff
    norm_num
  have hB : (0 : ℚ) < dur / 1000 := by positivity
  have h1 : |dsub q p - (q - p)| ≤ unitRoundoff * |q - p| := toDouble_err _
  have h2 : |ddiv dur 1000 - dur / 1000| ≤ unitRoundoff * (dur / 1000) := by
    have := toDouble_err (dur / 1000)
    rw [abs_of_pos hB] at this
    exact this
  have h3 := near_div (dsub q p) (q - p) (ddiv dur 1000) (dur / 1000) unitRoundoff unitRoundoff
    hB hu hu (by unfold unitRoundoff; norm_num) h1 h2
  have h4 := near_round _ _ _ h3
  refine le_trans h4 ?_
  apply mul_le_mul_of_nonneg_right _ (abs_nonneg _)
  unfold unitRoundoff
  norm_num

/-- One step's travel computed in doubles, from a velocity within
`4 * 2^-53` of `V`, is within `7 * 2^-53` (relative) of the exact travel. -/
theorem travel_err (v V e : ℚ) (hv : |v - V| ≤ 4 * unitRoundoff * |V|) :
    |dmul v (ddiv e 1000) - V * (e / 1000)| ≤ 7 * unitRoundoff * |V * (e / 1000)| := by
  have hu : (0 : ℚ) ≤ unitRoundoff := by
    unfold unitRoundoff
    norm_num
  have h1 : |ddiv e 1000 - e / 1000| ≤ unitRoundoff * |e / 1000| := toDouble_err _
  have h2 := near_mul v V (ddiv e 1000) (e / 1000) (4 * unitRoundoff) unitRoundoff hv h1
  have h3 := near_round _ _ _ h2
  refine le_trans h3 ?_
  apply mul_le_mul_of_nonneg_right _ (abs_nonneg _)
  unfold unitRoundoff
  norm_num

/-- One position step in doubles: the error grows by the travel's error and
one rounding of the sum. -/
theorem position_step_err (x X p P E c : ℚ) (hx : |x - X| ≤ E) (hp : |p - P| ≤ c * |P|) :
    |dadd x p - (X + P)| ≤ (1 + unitRoundoff) * (E + c * |P|) + unitRoundoff * |X + P| := by
  have hu : (0 : ℚ) ≤ unitRoundoff := by
    unfold unitRoundoff
    norm_num
  have h1 : |dadd x p - (x + p)| ≤ unitRoundoff * |x + p| := toDouble_err _
  have h2 : |(x + p) - (X + P)| ≤ E + c * |P| := by
    have := abs_add (x - X) (p - P)
    rw [show x - X + (p - P) = (x + p) - (X + P) from by ring] at this
    linarith
  have h3 : |x + p| ≤ |X + P| + (E + c * |P|) := by
    have := abs_sub_abs_le_abs_sub (x + p) (X + P)
    linarith
  have h4 : |dadd x p - (X + P)| ≤ |dadd x p - (x + p)| + |(x + p) - (X + P)| := by
    have := abs_add (dadd x p - (x + p)) ((x + p) - (X + P))
    rw [sub_add_sub_cancel] at this
    exact this
  have h5 : unitRoundoff * |x + p| ≤ unitRoundoff * (|X + P| + (E + c * |P|)) :=
    mul_le_mul_of_nonneg_left h3 hu
  linarith

/-- Multiplying zero gives zero in double arithmetic. -/
theorem dmul_zero_left (b : ℚ) : dmul 0 b = 0 := by
  unfold dmul
  rw [zero_mul]
  exact toDouble_zero

/-- Adding two naturals whose sum is at most `2^53` is exact on doubles. -/
theorem dadd_nat (a b : ℕ) (h : a + b ≤ 2 ^ 53) :
    dadd (a : ℚ) (b : ℚ) = ((a + b : ℕ) : ℚ) := by
  unfold dadd
  rw [← Nat.cast_add]
  exact toDouble_nat _ h

/-- Adding a zero travel to a double leaves it. -/
theorem dadd_rest (x t : ℚ) (h : toDouble x = x) : dadd x (dmul 0 t) = x := by
  rw [dmul_zero_left]
  unfold dadd
  rw [add_zero]
  exact h

/-- A sum in double arithmetic is a double. -/
theorem toDouble_dadd (a b : ℚ) : toDouble (dadd a b) = dadd a b :=
  toDouble_idem (a + b)

theorem wholeMs_append (ns : List ℕ) (n : ℕ) :
    wholeMs (ns ++ [n]) = wholeMs ns ++ [(n : ℚ)] := by
  simp [wholeMs]

section DoubleSteps
variable (s : Shape) (game : Game) (e : ℚ)

theorem shape_updateD_fst :
    (s.updateD game e).1 = ((s.integrateD e).bounceD).tweenStepD e := rfl

theorem shape_bounceD_off (h : s.cor = -1) : s.bounceD = s := by
  simp [Shape.bounceD, h]

/-- The bounce of the double model touches only `y` and `vy`. -/
theorem shape_bounceD_fields :
    s.bounceD.inTween = s.inTween ∧ s.bounceD.dur = s.dur ∧
    s.bounceD.tweenTime = s.tweenTime ∧ s.bounceD.vx = s.vx ∧ s.bounceD.x = s.x ∧
    s.bounceD.g = s.g ∧ s.bounceD.cor = s.cor := by
  unfold Shape.bounceD
  split_ifs <;> exact ⟨rfl, rfl, rfl, rfl, rfl, rfl, rfl⟩

theorem shape_bounceD_vy_zero (h : s.vy = 0) : s.bounceD.vy = 0 := by
  unfold Shape.bounceD
  split_ifs
  · show dmul s.vy (-s.cor) = 0
    rw [h]
    exact dmul_zero_left _
  · exact h
  · exact h

theorem shape_tweenStepD_idle (h : s.inTween = false) : s.tweenStepD e = s := by
  simp [Shape.tweenStepD, h]

theorem shape_updateD_idle (h : s.inTween = false) :
    (s.updateD game e).1 = (s.integrateD e).bounceD := by
  rw [shape_updateD_fst]
  apply shape_tweenStepD_idle
  rw [(shape_bounceD_fields (s.integrateD e)).1]
  exact h

/-- An update of the double model during a tween whose accumulated time stays
below the duration only advances the accumulated time. -/
theorem shape_updateD_tween_cont (d : ℚ) (hin : s.inTween = true) (hd : s.dur = some d)
    (hlt : dadd s.tweenTime e < d) :
    (s.updateD game e).1 =
      { (s.integrateD e).bounceD with tweenTime := dadd s.tweenTime e } := by
  obtain ⟨b1, b2, b3, _⟩ := shape_bounceD_fields (s.integrateD e)
  have h1 : (s.integrateD e).bounceD.inTween = true := by
    rw [b1]
    exact hin
  have h2 : (s.integrateD e).bounceD.dur = some d := by
    rw [b2]
    exact hd
  have h3 : (s.integrateD e).bounceD.tweenTime = s.tweenTime := by
    rw [b3]
    rfl
  rw [shape_updateD_fst]
  unfold Shape.tweenStepD
  simp [h1, h2, h3, reachedDur, hlt]

/-- An update of the double model during a tween whose accumulated time
reaches the duration clears `inTween` and zeroes both velocities. -/
theorem shape_updateD_tween_done (d : ℚ) (hin : s.inTween = true) (hd : s.dur = some d)
    (hge : d ≤ dadd s.tweenTime e) :
    (s.updateD game e).1 =
      { (s.integrateD e).bounceD with
        tweenTime := dadd s.tweenTime e, inTween := false, vx := 0, vy := 0 } := by
  obtain ⟨b1, b2, b3, _⟩ := shape_bounceD_fields (s.integrateD e)
  have h1 : (s.integrateD e).bounceD.inTween = true := by
    rw [b1]
    exact hin
  have h2 : (s.integrateD e).bounceD.dur = some d := by
    rw [b2]
    exact hd
  have h3 : (s.integrateD e).bounceD.tweenTime = s.tweenTime := by
    rw [b3]
    rfl
  rw [shape_updateD_fst]
  unfold Shape.tweenStepD
  simp [h1, h2, h3, reachedDur, hge]

/-- One update of the double model on an idle Shape: the flag stays clear,
gravity and a zero `vx` are kept, and so is a zero `vy` without gravity. -/
theorem shape_updateD_idle_flags (ht : s.inTween = false) :
    (s.updateD game e).1.inTween = false ∧ (s.updateD game e).1.g = s.g ∧
    (s.updateD game e).1.vx = s.vx ∧
    (s.g = 0 → s.vy = 0 → (s.updateD game e).1.vy = 0) := by
  obtain ⟨b1, _, _, b4, _, b6, _⟩ := shape_bounceD_fields (s.integrateD e)
  rw [shape_updateD_idle s game e ht, b1, b4, b6]
  refine ⟨ht, rfl, rfl, ?_⟩
  intro hg hv
  apply shape_bounceD_vy_zero
  show dadd s.vy (dmul s.g (ddiv e 1000)) = 0
  rw [hg, hv, dmul_zero_left]
  unfold dadd
  rw [add_zero]
  exact toDouble_zero

end DoubleSteps

theorem shape_runD_cons (game : Game) (s : Shape) (e : ℚ) (es : List ℚ) :
    Shape.runD game s (e :: es) = Shape.runD game (s.updateD game e).1 es := rfl

theorem shape_runD_snoc (game : Game) (s : Shape) (es : List ℚ) (e : ℚ) :
    Shape.runD game s (es ++ [e]) = ((Shape.runD game s es).updateD game e).1 := by
  simp [Shape.runD, List.foldl_append]

theorem shape_runD_whole_cons (game : Game) (s : Shape) (n : ℕ) (ns : List ℕ) :
    Shape.runD game s (wholeMs (n :: ns))
      = Shape.runD game (s.updateD game (n : ℚ)).1 (wholeMs ns) := rfl

/-- In the double model an idle Shape with `vx = 0` stays so under any
updates, and without gravity a zero `vy` is kept as well. -/
theorem shape_runD_idle (game : Game) (es : List ℚ) :
    ∀ s : Shape, s.inTween = false → s.vx = 0 →
      (Shape.runD game s es).inTween = false ∧ (Shape.runD game s es).vx = 0 ∧
      (s.g = 0 → s.vy = 0 → (Shape.runD game s es).vy = 0) := by
  induction es with
  | nil =>
    intro s ht hv
    exact ⟨ht, hv, fun _ h => h⟩
  | cons e es ih =>
    intro s ht hv
    obtain ⟨h1, h2, h3, h4⟩ := shape_updateD_idle_flags s game e ht
    obtain ⟨k1, k2, k3⟩ := ih (s.updateD game e).1 h1 (by rw [h3, hv])
    rw [shape_runD_cons]
    exact ⟨k1, k2, fun hg hvy => k3 (by rw [h2, hg]) (h4 hg hvy)⟩

/-- In the double model a Shape at rest (no tween, no gravity, zero
velocity, bounce disabled) whose coordinates are doubles does not move. -/
theorem shape_runD_rest_pos (game : Game) (es : List ℚ) :
    ∀ s : Shape, s.inTween = false → s.cor = -1 → s.g = 0 → s.vx = 0 → s.vy = 0 →
      toDouble s.x = s.x → toDouble s.y = s.y →
      (Shape.runD game s es).x = s.x ∧ (Shape.runD game s es).y = s.y := by
  induction es with
  | nil =>
    intro s _ _ _ _ _ _ _
    exact ⟨rfl, rfl⟩
  | cons e es ih =>
    intro s ht hc hg hvx hvy hx hy
    have hu : (s.updateD game e).1 = s.integrateD e := by
      rw [shape_updateD_idle s game e ht]
      exact shape_bounceD_off _ hc
    have hv : (s.integrateD e).vy = 0 := by
      show dadd s.vy (dmul s.g (ddiv e 1000)) = 0
      rw [hg, hvy, dmul_zero_left]
      unfold dadd
      rw [add_zero]
      exact toDouble_zero
    have ex : (s.integrateD e).x = s.x := by
      show dadd s.x (dmul s.vx (ddiv e 1000)) = s.x
      rw [hvx]
      exact dadd_rest _ _ hx
    have ey : (s.integrateD e).y = s.y := by
      show dadd s.y (dmul (s.integrateD e).vy (ddiv e 1000)) = s.y
      rw [hv]
      exact dadd_rest _ _ hy
    obtain ⟨k1, k2⟩ := ih (s.integrateD e) ht hc hg hvx hv (by rw [ex]; exact hx)
      (by rw [ey]; exact hy)
    rw [shape_runD_cons, hu, k1, k2, ex, ey]
    exact ⟨rfl, rfl⟩

/-- In the double model, with elapsed times that are whole milliseconds and
an accumulated time that stays below the duration and within `2^53`, the
Shape remains in its tween and the accumulated time is the exact sum. -/
theorem shape_runD_tween_cont (game : Game) (d : ℚ) (ns : List ℕ) :
    ∀ (s : Shape) (T : ℕ), s.inTween = true → s.dur = some d → s.tweenTime = (T : ℚ) →
      T + ns.sum ≤ 2 ^ 53 → ((T + ns.sum : ℕ) : ℚ) < d →
      (Shape.runD game s (wholeMs ns)).inTween = true ∧
      (Shape.runD game s (wholeMs ns)).dur = some d ∧
      (Shape.runD game s (wholeMs ns)).tweenTime = ((T + ns.sum : ℕ) : ℚ) ∧
      (Shape.runD game s (wholeMs ns)).g = s.g ∧
      (Shape.runD game s (wholeMs ns)).cor = s.cor := by
  induction ns with
  | nil =>
    intro s T hin hd hT _ _
    exact ⟨hin, hd, by simpa [wholeMs, Shape.runD] using hT, rfl, rfl⟩
  | cons n ns ih =>
    intro s T hin hd hT hb hlt
    rw [List.sum_cons] at hb hlt
    have hb1 : T + n ≤ 2 ^ 53 := by omega
    have hstep : dadd s.tweenTime (n : ℚ) = ((T + n : ℕ) : ℚ) := by
      rw [hT]
      exact dadd_nat T n hb1
    have hlt1 : dadd s.tweenTime (n : ℚ) < d := by
      rw [hstep]
      refine lt_of_le_of_lt ?_ hlt
      exact_mod_cast (by omega : T + n ≤ T + (n + ns.sum))
    have hu := shape_updateD_tween_cont s game (n : ℚ) d hin hd hlt1
    obtain ⟨b1, b2, _, _, _, b6, b7⟩ := shape_bounceD_fields (s.integrateD (n : ℚ))
    have u1 : (s.updateD game (n : ℚ)).1.inTween = true := by
      rw [hu]
      show (s.integrateD (n : ℚ)).bounceD.inTween = true
      rw [b1]
      exact hin
    have u2 : (s.updateD game (n : ℚ)).1.dur = some d := by
      rw [hu]
      show (s.integrateD (n : ℚ)).bounceD.dur = some d
      rw [b2]
      exact hd
    have u3 : (s.updateD game (n : ℚ)).1.tweenTime = ((T + n : ℕ) : ℚ) := by
      rw [hu]
      exact hstep
    have u5 : (s.updateD game (n : ℚ)).1.g = s.g := by
      rw [hu]
      show (s.integrateD (n : ℚ)).bounceD.g = s.g
      rw [b6]
      rfl
    have u6 : (s.updateD game (n : ℚ)).1.cor = s.cor := by
      rw [hu]
      show (s.integrateD (n : ℚ)).bounceD.cor = s.cor
      rw [b7]
      rfl
    have hsum : T + n + ns.sum = T + (n + ns.sum) := by omega
    obtain ⟨k1, k2, k3, k4, k5⟩ := ih (s.updateD game (n : ℚ)).1 (T + n) u1 u2 u3
      (by omega) (by rw [hsum]; exact hlt)
    rw [shape_runD_whole_cons]
    refine ⟨k1, k2, ?_, ?_, ?_⟩
    · rw [k3, hsum, List.sum_cons]
    · rw [k4, u5]
    · rw [k5, u6]

/-- In the double model, with elapsed times that are whole milliseconds
summing within `2^53`, once the accumulated time of a running tween reaches
the duration the tween is over: the flag is clear, `vx = 0`, and without
gravity `vy = 0`. -/
theorem shape_runD_tween_done (game : Game) (d : ℚ) (ns : List ℕ) :
    ∀ (s : Shape) (T : ℕ), s.inTween = true → s.dur = some d → s.tweenTime = (T : ℚ) →
      T + ns.sum ≤ 2 ^ 53 → (T : ℚ) < d → d ≤ ((T + ns.sum : ℕ) : ℚ) →
      (Shape.runD game s (wholeMs ns)).inTween = false ∧
      (Shape.runD game s (wholeMs ns)).vx = 0 ∧
      (s.g = 0 → (Shape.runD game s (wholeMs ns)).vy = 0) := by
  induction ns with
  | nil =>
    intro s T _ _ _ _ hlt hge
    rw [List.sum_nil, add_zero] at hge
    exact absurd hlt (not_lt.mpr hge)
  | cons n ns ih =>
    intro s T hin hd hT hb hlt hge
    rw [List.sum_cons] at hb hge
    have hb1 : T + n ≤ 2 ^ 53 := by omega
    have hstep : dadd s.tweenTime (n : ℚ) = ((T + n : ℕ) : ℚ) := by
      rw [hT]
      exact dadd_nat T n hb1
    obtain ⟨b1, b2, _, _, _, b6, _⟩ := shape_bounceD_fields (s.integrateD (n : ℚ))
    rw [shape_runD_whole_cons]
    rcases le_or_lt d ((T + n : ℕ) : ℚ) with hdone | hcont
    · have hu := shape_updateD_tween_done s game (n : ℚ) d hin hd (by rw [hstep]; exact hdone)
      have u1 : (s.updateD game (n : ℚ)).1.inTween = false := by rw [hu]
      have u2 : (s.updateD game (n : ℚ)).1.vx = 0 := by rw [hu]
      have u3 : (s.updateD game (n : ℚ)).1.vy = 0 := by rw [hu]
      have u4 : (s.updateD game (n : ℚ)).1.g = s.g := by
        rw [hu]
        show (s.integrateD (n : ℚ)).bounceD.g = s.g
        rw [b6]
        rfl
      obtain ⟨k1, k2, k3⟩ := shape_runD_idle game (wholeMs ns) (s.updateD game (n : ℚ)).1 u1 u2
      exact ⟨k1, k2, fun hg => k3 (by rw [u4, hg]) u3⟩
    · have hu := shape_updateD_tween_cont s game (n : ℚ) d hin hd (by rw [hstep]; exact hcont)
      have u1 : (s.updateD game (n : ℚ)).1.inTween = true := by
        rw [hu]
        show (s.integrateD (n : ℚ)).bounceD.inTween = true
        rw [b1]
        exact hin
      have u2 : (s.updateD game (n : ℚ)).1.dur = some d := by
        rw [hu]
        show (s.integrateD (n : ℚ)).bounceD.dur = some d
        rw [b2]
        exact hd
      have u3 : (s.updateD game (n : ℚ)).1.tweenTime = ((T + n : ℕ) : ℚ) := by
        rw [hu]
        exact hstep
      have u5 : (s.updateD game (n : ℚ)).1.g = s.g := by
        rw [hu]
        show (s.integrateD (n : ℚ)).bounceD.g = s.g
        rw [b6]
        rfl
      have hsum : T + n + ns.sum = T + (n + ns.sum) := by omega
      obtain ⟨k1, k2, k3⟩ := ih (s.updateD game (n : ℚ)).1 (T + n) u1 u2 u3 (by omega) hcont
        (by rw [hsum]; exact hge)
      exact ⟨k1, k2, fun hg => k3 (by rw [u5, hg])⟩

/-- Integration in the double model without gravity: a `vy` that is a double
is kept, and each coordinate advances by the rounded travel. -/
theorem shape_integrateD_level (s : Shape) (e : ℚ) (hg : s.g = 0)
    (hvy : toDouble s.vy = s.vy) :
    (s.integrateD e).vy = s.vy ∧
    (s.integrateD e).x = dadd s.x (dmul s.vx (ddiv e 1000)) ∧
    (s.integrateD e).y = dadd s.y (dmul s.vy (ddiv e 1000)) := by
  have hv : (s.integrateD e).vy = s.vy := by
    show dadd s.vy (dmul s.g (ddiv e 1000)) = s.vy
    rw [hg]
    exact dadd_rest _ _ hvy
  refine ⟨hv, rfl, ?_⟩
  show dadd s.y (dmul (s.integrateD e).vy (ddiv e 1000)) = _
  rw [hv]

/-- The bookkeeping of one more step in the accumulated rounding error of a
coordinate. -/
theorem drift_step (u c W e0 e1 ef A0 A1 P B : ℚ) (hu : 0 ≤ u) (hc : 0 ≤ c) (hW : 1 ≤ W)
    (hB : 0 ≤ B)
    (h1 : e1 ≤ (1 + u) * (e0 + c * P) + u * A1) (hA : A1 ≤ A0 + P)
    (hf : ef ≤ W * e1 + W * c * B + (W - 1) * (A1 + B)) :
    ef ≤ W * (1 + u) * e0 + W * (1 + u) * c * (P + B)
      + (W * (1 + u) - 1) * (A0 + (P + B)) := by
  have hW0 : 0 ≤ W := by linarith
  have a1 : W * e1 ≤ W * ((1 + u) * (e0 + c * P) + u * A1) :=
    mul_le_mul_of_nonneg_left h1 hW0
  have a2 : (W - 1) * (A1 + B) ≤ (W - 1) * (A0 + P + B) :=
    mul_le_mul_of_nonneg_left (by linarith) (by linarith)
  have a3 : W * u * A1 ≤ W * u * (A0 + P) :=
    mul_le_mul_of_nonneg_left hA (mul_nonneg hW0 hu)
  have a4 : 0 ≤ W * u * c * B := mul_nonneg (mul_nonneg (mul_nonneg hW0 hu) hc) hB
  have a5 : 0 ≤ W * u * B := mul_nonneg (mul_nonneg hW0 hu) hB
  nlinarith

theorem unitRoundoff_nonneg : (0 : ℚ) ≤ unitRoundoff := by
  unfold unitRoundoff
  norm_num

/-- Position at the end of a tween in the double model.  The Shape is in a
tween, without gravity or bounce, with velocities within `4 * 2^-53` of `V`
and `W`; the elapsed times are whole milliseconds, the accumulated time stays
below the duration during `ns` and reaches it with `nk`.  After the
`k = length ns + 1` updates each coordinate is near the exact one: the
initial error and the travel's relative error `7 * 2^-53` grow by the factor
`(1 + 2^-53)^k`, and each sum adds one rounding. -/
theorem shape_runD_arrival_pos (game : Game) (d V W : ℚ) (nk : ℕ) (ns : List ℕ) :
    ∀ (s : Shape) (T : ℕ) (X Y : ℚ), s.inTween = true → s.dur = some d →
      s.tweenTime = (T : ℚ) → T + ns.sum + nk ≤ 2 ^ 53 → ((T + ns.sum : ℕ) : ℚ) < d →
      d ≤ ((T + ns.sum + nk : ℕ) : ℚ) → s.g = 0 → s.cor = -1 → toDouble s.vy = s.vy →
      |s.vx - V| ≤ 4 * unitRoundoff * |V| → |s.vy - W| ≤ 4 * unitRoundoff * |W| →
      |(Shape.runD game s (wholeMs (ns ++ [nk]))).x
          - (X + V * (((ns.sum + nk : ℕ) : ℚ) / 1000))|
        ≤ (1 + unitRoundoff) ^ (ns.length + 1) * |s.x - X|
          + (1 + unitRoundoff) ^ (ns.length + 1) * (7 * unitRoundoff)
              * (|V| * (((ns.sum + nk : ℕ) : ℚ) / 1000))
          + ((1 + unitRoundoff) ^ (ns.length + 1) - 1)
              * (|X| + |V| * (((ns.sum + nk : ℕ) : ℚ) / 1000)) ∧
      |(Shape.runD game s (wholeMs (ns ++ [nk]))).y
          - (Y + W * (((ns.sum + nk : ℕ) : ℚ) / 1000))|
        ≤ (1 + unitRoundoff) ^ (ns.length + 1) * |s.y - Y|
          + (1 + unitRoundoff) ^ (ns.length + 1) * (7 * unitRoundoff)
              * (|W| * (((ns.sum + nk : ℕ) : ℚ) / 1000))
          + ((1 + unitRoundoff) ^ (ns.length + 1) - 1)
              * (|Y| + |W| * (((ns.sum + nk : ℕ) : ℚ) / 1000)) := by
  have hu := unitRoundoff_nonneg
  have h7 : (0 : ℚ) ≤ 7 * unitRoundoff := by linarith
  -- one update, continuing or completing, moves each coordinate by the rounded travel
  have one : ∀ (s : Shape) (n : ℕ) (p P : ℚ),
      |s.vx - P| ≤ 4 * unitRoundoff * |P| →
      |dadd s.x (dmul s.vx (ddiv (n : ℚ) 1000)) - (p + P * ((n : ℚ) / 1000))|
        ≤ (1 + unitRoundoff) * (|s.x - p| + 7 * unitRoundoff * (|P| * ((n : ℚ) / 1000)))
          + unitRoundoff * |p + P * ((n : ℚ) / 1000)| := by
    intro s n p P hv
    have ht := travel_err s.vx P (n : ℚ) hv
    have hn : (0 : ℚ) ≤ (n : ℚ) / 1000 := by positivity
    rw [abs_mul, abs_of_nonneg hn] at ht
    have := position_step_err s.x p (dmul s.vx (ddiv (n : ℚ) 1000)) (P * ((n : ℚ) / 1000))
      |s.x - p| (7 * unitRoundoff) (le_refl _) (by rw [abs_mul, abs_of_nonneg hn]; exact ht)
    rw [abs_mul P, abs_of_nonneg hn] at this
    exact this
  have oney : ∀ (s : Shape) (n : ℕ) (p P : ℚ),
      |s.vy - P| ≤ 4 * unitRoundoff * |P| →
      |dadd s.y (dmul s.vy (ddiv (n : ℚ) 1000)) - (p + P * ((n : ℚ) / 1000))|
        ≤ (1 + unitRoundoff) * (|s.y - p| + 7 * unitRoundoff * (|P| * ((n : ℚ) / 1000)))
          + unitRoundoff * |p + P * ((n : ℚ) / 1000)| := by
    intro s n p P hv
    have ht := travel_err s.vy P (n : ℚ) hv
    have hn : (0 : ℚ) ≤ (n : ℚ) / 1000 := by positivity
    rw [abs_mul, abs_of_nonneg hn] at ht
    have := position_step_err s.y p (dmul s.vy (ddiv (n : ℚ) 1000)) (P * ((n : ℚ) / 1000))
      |s.y - p| (7 * unitRoundoff) (le_refl _) (by rw [abs_mul, abs_of_nonneg hn]; exact ht)
    rw [abs_mul P, abs_of_nonneg hn] at this
    exact this
  have tri : ∀ (p P t : ℚ), 0 ≤ t → |p + P * t| ≤ |p| + |P| * t := by
    intro p P t ht
    have := abs_add p (P * t)
    rw [abs_mul, abs_of_nonneg ht] at this
    exact this
  induction ns with
  | nil =>
    intro s T X Y hin hd hT hb hlt hge hg hc hvy hvx hvw
    rw [List.sum_nil, add_zero] at hb hlt hge
    have hstep : dadd s.tweenTime (nk : ℚ) = ((T + nk : ℕ) : ℚ) := by
      rw [hT]
      exact dadd_nat T nk hb
    have hu1 := shape_updateD_tween_done s game (nk : ℚ) d hin hd (by rw [hstep]; exact hge)
    have hb1 := shape_bounceD_off (s.integrateD (nk : ℚ))
      (show (s.integrateD (nk : ℚ)).cor = -1 from hc)
    obtain ⟨_, ix, iy⟩ := shape_integrateD_level s (nk : ℚ) hg hvy
    have ex : (Shape.runD game s (wholeMs ([] ++ [nk]))).x
        = dadd s.x (dmul s.vx (ddiv (nk : ℚ) 1000)) := by
      show ((s.updateD game (nk : ℚ)).1).x = _
      rw [hu1, hb1]
      exact ix
    have ey : (Shape.runD game s (wholeMs ([] ++ [nk]))).y
        = dadd s.y (dmul s.vy (ddiv (nk : ℚ) 1000)) := by
      show ((s.updateD game (nk : ℚ)).1).y = _
      rw [hu1, hb1]
      exact iy
    have hn : (0 : ℚ) ≤ (nk : ℚ) / 1000 := by positivity
    rw [ex, ey, List.sum_nil, zero_add, List.length_nil, zero_add, pow_one]
    constructor
    · have h1 := one s nk X V hvx
      have h2 := tri X V ((nk : ℚ) / 1000) hn
      have h3 : unitRoundoff * |X + V * ((nk : ℚ) / 1000)|
          ≤ unitRoundoff * (|X| + |V| * ((nk : ℚ) / 1000)) :=
        mul_le_mul_of_nonneg_left h2 hu
      linarith
    · have h1 := oney s nk Y W hvw
      have h2 := tri Y W ((nk : ℚ) / 1000) hn
      have h3 : unitRoundoff * |Y + W * ((nk : ℚ) / 1000)|
          ≤ unitRoundoff * (|Y| + |W| * ((nk : ℚ) / 1000)) :=
        mul_le_mul_of_nonneg_left h2 hu
      linarith
  | cons n ns ih =>
    intro s T X Y hin hd hT hb hlt hge hg hc hvy hvx hvw
    rw [List.sum_cons] at hb hlt hge
    have hb1 : T + n ≤ 2 ^ 53 := by omega
    have hstep : dadd s.tweenTime (n : ℚ) = ((T + n : ℕ) : ℚ) := by
      rw [hT]
      exact dadd_nat T n hb1
    have hlt1 : dadd s.tweenTime (n : ℚ) < d := by
      rw [hstep]
      refine lt_of_le_of_lt ?_ hlt
      exact_mod_cast (by omega : T + n ≤ T + (n + ns.sum))
    have hu1 := shape_updateD_tween_cont s game (n : ℚ) d hin hd hlt1
    have hb2 := shape_bounceD_off (s.integrateD (n : ℚ))
      (show (s.integrateD (n : ℚ)).cor = -1 from hc)
    obtain ⟨iv, ix, iy⟩ := shape_integrateD_level s (n : ℚ) hg hvy
    have u1 : (s.updateD game (n : ℚ)).1.inTween = true := by
      rw [hu1, hb2]
      exact hin
    have u2 : (s.updateD game (n : ℚ)).1.dur = some d := by
      rw [hu1, hb2]
      exact hd
    have u3 : (s.updateD game (n : ℚ)).1.tweenTime = ((T + n : ℕ) : ℚ) := by
      rw [hu1]
      exact hstep
    have u4 : (s.updateD game (n : ℚ)).1.g = 0 := by
      rw [hu1, hb2]
      exact hg
    have u5 : (s.updateD game (n : ℚ)).1.cor = -1 := by
      rw [hu1, hb2]
      exact hc
    have u6 : (s.updateD game (n : ℚ)).1.vx = s.vx := by
      rw [hu1, hb2]
      rfl
    have u7 : (s.updateD game (n : ℚ)).1.vy = s.vy := by
      rw [hu1, hb2]
      exact iv
    have u8 : (s.updateD game (n : ℚ)).1.x = dadd s.x (dmul s.vx (ddiv (n : ℚ) 1000)) := by
      rw [hu1, hb2]
      exact ix
    have u9 : (s.updateD game (n : ℚ)).1.y = dadd s.y (dmul s.vy (ddiv (n : ℚ) 1000)) := by
      rw [hu1, hb2]
      exact iy
    have hs1 : T + n + ns.sum = T + (n + ns.sum) := by omega
    have hs2 : T + n + ns.sum + nk = T + (n + ns.sum) + nk := by omega
    obtain ⟨kx, ky⟩ := ih (s.updateD game (n : ℚ)).1 (T + n)
      (X + V * ((n : ℚ) / 1000)) (Y + W * ((n : ℚ) / 1000)) u1 u2 u3 (by omega)
      (by rw [hs1]; exact hlt) (by rw [hs2]; exact hge) u4 u5 (by rw [u7]; exact hvy)
      (by rw [u6]; exact hvx) (by rw [u7]; exact hvw)
    have hrun : Shape.runD game s (wholeMs ((n :: ns) ++ [nk]))
        = Shape.runD game (s.updateD game (n : ℚ)).1 (wholeMs (ns ++ [nk])) := rfl
    have hn : (0 : ℚ) ≤ (n : ℚ) / 1000 := by positivity
    have hm : (0 : ℚ) ≤ ((ns.sum + nk : ℕ) : ℚ) / 1000 := by positivity
    have hW : (1 : ℚ) ≤ (1 + unitRoundoff) ^ (ns.length + 1) :=
      one_le_pow₀ (by linarith)
    have hsum : (((n :: ns).sum + nk : ℕ) : ℚ) / 1000
        = (n : ℚ) / 1000 + ((ns.sum + nk : ℕ) : ℚ) / 1000 := by
      rw [List.sum_cons]
      push_cast
      ring
    rw [hrun, List.length_cons, pow_succ (1 + unitRoundoff) (ns.length + 1), hsum]
    constructor
    · rw [u8] at kx
      have h1 := one s n X V hvx
      have h2 := tri X V ((n : ℚ) / 1000) hn
      have h3 := drift_step unitRoundoff (7 * unitRoundoff) ((1 + unitRoundoff) ^ (ns.length + 1))
        |s.x - X| _ _ |X| |X + V * ((n : ℚ) / 1000)| (|V| * ((n : ℚ) / 1000))
        (|V| * (((ns.sum + nk : ℕ) : ℚ) / 1000)) hu h7 hW
        (mul_nonneg (abs_nonneg _) hm) h1 h2 kx
      rw [show X + V * ((n : ℚ) / 1000 + ((ns.sum + nk : ℕ) : ℚ) / 1000)
          = X + V * ((n : ℚ) / 1000) + V * (((ns.sum + nk : ℕ) : ℚ) / 1000) from by ring,
        show |V| * ((n : ℚ) / 1000 + ((ns.sum + nk : ℕ) : ℚ) / 1000)
          = |V| * ((n : ℚ) / 1000) + |V| * (((ns.sum + nk : ℕ) : ℚ) / 1000) from by ring]
      exact h3
    · rw [u9] at ky
      have h1 := oney s n Y W hvw
      have h2 := tri Y W ((n : ℚ) / 1000) hn
      have h3 := drift_step unitRoundoff (7 * unitRoundoff) ((1 + unitRoundoff) ^ (ns.length + 1))
        |s.y - Y| _ _ |Y| |Y + W * ((n : ℚ) / 1000)| (|W| * ((n : ℚ) / 1000))
        (|W| * (((ns.sum + nk : ℕ) : ℚ) / 1000)) hu h7 hW
        (mul_nonneg (abs_nonneg _) hm) h1 h2 ky
      rw [show Y + W * ((n : ℚ) / 1000 + ((ns.sum + nk : ℕ) : ℚ) / 1000)
          = Y + W * ((n : ℚ) / 1000) + W * (((ns.sum + nk : ℕ) : ℚ) / 1000) from by ring,
        show |W| * ((n : ℚ) / 1000 + ((ns.sum + nk : ℕ) : ℚ) / 1000)
          = |W| * ((n : ℚ) / 1000) + |W| * (((ns.sum + nk : ℕ) : ℚ) / 1000) from by ring]
      exact h3

/-- C7 (tween completion) fails as stated in two ways.  With gravity and an
update after the tween has completed: `heavyShape` (g = 10) after
`tween(100, 0, 1000)` and updates of 1000 ms and 1000 ms has left the tween
with vx = 0 but with vy = 10, in exact and in double arithmetic alike.  With
elapsed times that are not whole milliseconds: after `tween(100, 0, 1000)`
and sixty updates by the double nearest to 1000/60, whose sum exceeds 1000,
the accumulated time of the code is `1000 - 1/2^40` (printed
999.9999999999991), below 1000, so the Shape is still in its tween with
vx = 100. -/
theorem tween_completion_counterexample :
    (((0 : ℚ) < 1000 ∧ (∀ e ∈ ([1000, 1000] : List ℚ), 0 ≤ e) ∧
      ([1000, 1000] : List ℚ).sum ≥ 1000) ∧
    (Shape.run exGame (heavyShape.tween 100 0 1000) [1000, 1000]).vy = 10 ∧
    ¬ ((Shape.run exGame (heavyShape.tween 100 0 1000) [1000, 1000]).inTween = false ∧
       (Shape.run exGame (heavyShape.tween 100 0 1000) [1000, 1000]).vx = 0 ∧
       (Shape.run exGame (heavyShape.tween 100 0 1000) [1000, 1000]).vy = 0)) ∧
    (Shape.runD exGame (heavyShape.tweenD 100 0 1000) [1000, 1000]).vy = 10 ∧
    ((0 : ℚ) < 1000 ∧ (∀ e ∈ List.replicate 60 (ddiv 1000 60), 0 ≤ e) ∧
      (List.replicate 60 (ddiv 1000 60)).sum ≥ 1000) ∧
    accTime (List.replicate 60 (ddiv 1000 60)) = 1000 - 1 / 2 ^ 40 ∧
    (Shape.runD exGame ((Shape.new "square" 0 0 10 10 "red").tweenD 100 0 1000)
      (List.replicate 60 (ddiv 1000 60))).tweenTime = 1000 - 1 / 2 ^ 40 ∧
    (Shape.runD exGame ((Shape.new "square" 0 0 10 10 "red").tweenD 100 0 1000)
      (List.replicate 60 (ddiv 1000 60))).inTween = true ∧
    (Shape.runD exGame ((Shape.new "square" 0 0 10 10 "red").tweenD 100 0 1000)
      (List.replicate 60 (ddiv 1000 60))).vx = 100 := by
  have hv : (Shape.run exGame (heavyShape.tween 100 0 1000) [1000, 1000]).vy = 10 := by
    norm_num [Shape.run, heavyShape, Shape.new, Shape.tween, Shape.update, Shape.integrate,
      Shape.bounce, Shape.tweenStep, reachedDur]
  refine ⟨⟨⟨by norm_num, ?_, by norm_num⟩, hv, ?_⟩, ?_, ⟨by norm_num, ?_, ?_⟩, ?_, ?_, ?_, ?_⟩
  · intro e he
    simp only [List.mem_cons, List.mem_singleton, List.not_mem_nil, or_false, or_self] at he
    rw [he]
    norm_num
  · rw [hv]
    norm_num
  · decide!
  · decide!
  · decide!
  · decide!
  · decide!
  · decide!
  · decide!

/-- The accumulated time of whole milliseconds is their exact sum, as long as
it stays within `2^53`. -/
theorem accTime_whole (ns : List ℕ) (h : ns.sum ≤ 2 ^ 53) :
    accTime (wholeMs ns) = ((ns.sum : ℕ) : ℚ) := by
  have key : ∀ (ms : List ℕ) (T : ℕ), T + ms.sum ≤ 2 ^ 53 →
      (wholeMs ms).foldl dadd (T : ℚ) = ((T + ms.sum : ℕ) : ℚ) := by
    intro ms
    induction ms with
    | nil =>
      intro T _
      simp [wholeMs]
    | cons n ms ih =>
      intro T hb
      rw [List.sum_cons] at hb
      show (wholeMs ms).foldl dadd (dadd (T : ℚ) (n : ℚ)) = _
      rw [dadd_nat T n (by omega), ih (T + n) (by omega), List.sum_cons]
      congr 1
      omega
  have h0 := key ns 0 (by rw [zero_add]; exact h)
  rw [zero_add] at h0
  unfold accTime
  exact_mod_cast h0

/-- An update of the double model that takes a Shape out of its tween leaves
it with both velocities zero. -/
theorem shape_updateD_ends (s : Shape) (game : Game) (e : ℚ) (hin : s.inTween = true)
    (h : (s.updateD game e).1.inTween = false) :
    (s.updateD game e).1.vx = 0 ∧ (s.updateD game e).1.vy = 0 := by
  have h1 : (s.integrateD e).bounceD.inTween = true := by
    rw [(shape_bounceD_fields (s.integrateD e)).1]
    exact hin
  rw [shape_updateD_fst] at h ⊢
  unfold Shape.tweenStepD at h ⊢
  rw [if_pos h1] at h ⊢
  dsimp only at h ⊢
  split_ifs at h ⊢ with hr
  · exact ⟨rfl, rfl⟩
  · rw [h1] at h
    exact absurd h (by decide)

/-- In the double model, once the accumulated time of a running tween, added
up as `update` does, reaches the duration, the tween is over: the flag is
clear, `vx = 0`, and without gravity `vy = 0`. -/
theorem shape_runD_tween_done_acc (game : Game) (d : ℚ) (es : List ℚ) :
    ∀ s : Shape, s.inTween = true → s.dur = some d → s.tweenTime < d →
      d ≤ es.foldl dadd s.tweenTime →
      (Shape.runD game s es).inTween = false ∧ (Shape.runD game s es).vx = 0 ∧
      (s.g = 0 → (Shape.runD game s es).vy = 0) := by
  induction es with
  | nil =>
    intro s _ _ hlt hge
    exact absurd hlt (not_lt.mpr hge)
  | cons e es ih =>
    intro s hin hd hlt hge
    obtain ⟨b1, b2, _, _, _, b6, _⟩ := shape_bounceD_fields (s.integrateD e)
    rw [shape_runD_cons]
    rcases le_or_lt d (dadd s.tweenTime e) with hdone | hcont
    · have hu := shape_updateD_tween_done s game e d hin hd hdone
      have u1 : (s.updateD game e).1.inTween = false := by rw [hu]
      have u2 : (s.updateD game e).1.vx = 0 := by rw [hu]
      have u3 : (s.updateD game e).1.vy = 0 := by rw [hu]
      have u4 : (s.updateD game e).1.g = s.g := by
        rw [hu]
        show (s.integrateD e).bounceD.g = s.g
        rw [b6]
        rfl
      obtain ⟨k1, k2, k3⟩ := shape_runD_idle game es (s.updateD game e).1 u1 u2
      exact ⟨k1, k2, fun hg => k3 (by rw [u4, hg]) u3⟩
    · have hu := shape_updateD_tween_cont s game e d hin hd hcont
      have u1 : (s.updateD game e).1.inTween = true := by
        rw [hu]
        show (s.integrateD e).bounceD.inTween = true
        rw [b1]
        exact hin
      have u2 : (s.updateD game e).1.dur = some d := by
        rw [hu]
        show (s.integrateD e).bounceD.dur = some d
        rw [b2]
        exact hd
      have u3 : (s.updateD game e).1.tweenTime = dadd s.tweenTime e := by
        rw [hu]
      have u5 : (s.updateD game e).1.g = s.g := by
        rw [hu]
        show (s.integrateD e).bounceD.g = s.g
        rw [b6]
        rfl
      obtain ⟨k1, k2, k3⟩ := ih (s.updateD game e).1 u1 u2 (by rw [u3]; exact hcont)
        (by rw [u3]; exact hge)
      exact ⟨k1, k2, fun hg => k3 (by rw [u5, hg])⟩

/-- C7 (tween completion), amended.  In the double arithmetic of the code,
after `tween(toX, toY, dur)` with `dur > 0` and updates whose elapsed times,
added up from 0 in the order of the calls as `update` accumulates them
(`accTime`), give at least `dur`, the Shape has `inTween = false` and
`vx = 0`; `vy = 0` holds when the Shape has no gravity, and also when it is
the last update of the sequence that completes the tween.
In particular this is so for elapsed times that are whole numbers of
milliseconds (as `Game.update` returns them) with an exact sum of at least
`dur` and at most `2^53`: their accumulated time is the exact sum, and
`vy = 0` holds when the sum first reaches `dur` at the last update. -/
theorem tween_completion (game : Game) (s : Shape) (toX toY dur : ℚ) (es : List ℚ)
    (ns : List ℕ) (hdur : 0 < dur) (hacc : dur ≤ accTime es)
    (hbound : ns.sum ≤ 2 ^ 53) (hsum : dur ≤ ((ns.sum : ℕ) : ℚ)) :
    ((Shape.runD game (s.tweenD toX toY dur) es).inTween = false ∧
     (Shape.runD game (s.tweenD toX toY dur) es).vx = 0 ∧
     (s.g = 0 → (Shape.runD game (s.tweenD toX toY dur) es).vy = 0) ∧
     (∀ (init : List ℚ) (ek : ℚ), es = init ++ [ek] →
       (Shape.runD game (s.tweenD toX toY dur) init).inTween = true →
       (Shape.runD game (s.tweenD toX toY dur) es).vy = 0)) ∧
    (accTime (wholeMs ns) = ((ns.sum : ℕ) : ℚ) ∧
     (Shape.runD game (s.tweenD toX toY dur) (wholeMs ns)).inTween = false ∧
     (Shape.runD game (s.tweenD toX toY dur) (wholeMs ns)).vx = 0 ∧
     (s.g = 0 → (Shape.runD game (s.tweenD toX toY dur) (wholeMs ns)).vy = 0) ∧
     (∀ (init : List ℕ) (nk : ℕ), ns = init ++ [nk] → ((init.sum : ℕ) : ℚ) < dur →
       (Shape.runD game (s.tweenD toX toY dur) (wholeMs ns)).vy = 0)) := by
  have t1 : (s.tweenD toX toY dur).inTween = true := rfl
  have t2 : (s.tweenD toX toY dur).dur = some dur := rfl
  have t3 : (s.tweenD toX toY dur).tweenTime = ((0 : ℕ) : ℚ) := by
    show (0 : ℚ) = ((0 : ℕ) : ℚ)
    norm_num
  have t3' : (s.tweenD toX toY dur).tweenTime = 0 := rfl
  constructor
  · obtain ⟨k1, k2, k3⟩ := shape_runD_tween_done_acc game dur es (s.tweenD toX toY dur) t1 t2
      (by rw [t3']; exact hdur) (by rw [t3']; exact hacc)
    refine ⟨k1, k2, fun hg => k3 hg, ?_⟩
    intro init ek hes hin
    subst hes
    rw [shape_runD_snoc] at k1 ⊢
    exact (shape_updateD_ends _ game ek hin k1).2
  · obtain ⟨k1, k2, k3⟩ := shape_runD_tween_done game dur ns (s.tweenD toX toY dur) 0 t1 t2 t3
      (by rw [zero_add]; exact hbound) (by rw [Nat.cast_zero]; exact hdur)
      (by rw [zero_add]; exact hsum)
    refine ⟨accTime_whole ns hbound, k1, k2, fun hg => k3 hg, ?_⟩
    intro init nk hes hlt
    subst hes
    rw [List.sum_append, List.sum_singleton] at hsum hbound
    obtain ⟨a1, a2, a3, _⟩ := shape_runD_tween_cont game dur init (s.tweenD toX toY dur) 0
      t1 t2 t3 (by omega) (by rw [zero_add]; exact hlt)
    rw [zero_add] at a3
    have hstep : dadd (Shape.runD game (s.tweenD toX toY dur) (wholeMs init)).tweenTime (nk : ℚ)
        = ((init.sum + nk : ℕ) : ℚ) := by
      rw [a3]
      exact dadd_nat _ _ hbound
    rw [wholeMs_append, shape_runD_snoc, shape_updateD_tween_done _ game (nk : ℚ) dur a1 a2
      (by rw [hstep]; exact hsum)]

/-- Witness of C7 (amended): a gravity-free square after `tween(100, 0, 1000)`
and three updates of 400 ms, in double arithmetic. -/
theorem tween_completion_witness :
    ((0 : ℚ) < 1000 ∧ (1000 : ℚ) ≤ accTime [400, 400, 400] ∧
      ([400, 400, 400] : List ℕ).sum ≤ 2 ^ 53 ∧
      (1000 : ℚ) ≤ ((([400, 400, 400] : List ℕ).sum : ℕ) : ℚ) ∧
      (Shape.new "square" 0 0 10 10 "red").g = 0) ∧
    (Shape.runD exGame ((Shape.new "square" 0 0 10 10 "red").tweenD 100 0 1000)
      [400, 400, 400]).inTween = false ∧
    (Shape.runD exGame ((Shape.new "square" 0 0 10 10 "red").tweenD 100 0 1000)
      [400, 400, 400]).vx = 0 ∧
    (Shape.runD exGame ((Shape.new "square" 0 0 10 10 "red").tweenD 100 0 1000)
      [400, 400, 400]).vy = 0 ∧
    (Shape.runD exGame ((Shape.new "square" 0 0 10 10 "red").tweenD 100 0 1000)
      (wholeMs [400, 400, 400])).inTween = false := by
  have h1 : (0 : ℚ) < 1000 := by norm_num
  have ha : (1000 : ℚ) ≤ accTime [400, 400, 400] := by decide!
  have h2 : ([400, 400, 400] : List ℕ).sum ≤ 2 ^ 53 := by decide
  have h3 : (1000 : ℚ) ≤ ((([400, 400, 400] : List ℕ).sum : ℕ) : ℚ) := by norm_num
  have h4 : (Shape.new "square" 0 0 10 10 "red").g = 0 := rfl
  obtain ⟨⟨k1, k2, k3, _⟩, _, w1, _⟩ :=
    tween_completion exGame (Shape.new "square" 0 0 10 10 "red") 100 0 1000 [400, 400, 400]
      [400, 400, 400] h1 ha h2 h3
  exact ⟨⟨h1, ha, h2, h3, h4⟩, k1, k2, k3 h4, w1⟩

/-- C8 (tween arrival and overshoot) fails as stated in the double arithmetic
of the code: a gravity-free square at (0, 0) with bounce disabled, after
`tween(10, 0, 300)` and three updates of 100 ms, has left the tween at the
third update with the elapsed times summing to exactly `dur`, yet its `x` is
`10 + 1/2^49` (printed 10.000000000000002), not 10. -/
theorem tween_arrival_counterexample :
    ((Shape.new "square" 0 0 10 10 "red").g = 0 ∧
      (Shape.new "square" 0 0 10 10 "red").cor = -1 ∧ (0 : ℚ) < 300 ∧
      (∀ e ∈ ([100, 100, 100] : List ℚ), 0 ≤ e) ∧
      ([100, 100] : List ℚ).sum < 300 ∧ ([100, 100, 100] : List ℚ).sum = 300) ∧
    (Shape.runD exGame ((Shape.new "square" 0 0 10 10 "red").tweenD 10 0 300)
      [100, 100]).inTween = true ∧
    (Shape.runD exGame ((Shape.new "square" 0 0 10 10 "red").tweenD 10 0 300)
      [100, 100, 100]).inTween = false ∧
    (Shape.runD exGame ((Shape.new "square" 0 0 10 10 "red").tweenD 10 0 300)
      [100, 100, 100]).x = 10 + 1 / 2 ^ 49 ∧
    (Shape.runD exGame ((Shape.new "square" 0 0 10 10 "red").tweenD 10 0 300)
      [100, 100, 100]).x ≠ 10 := by
  refine ⟨⟨rfl, rfl, ?_, ?_, ?_, ?_⟩, ?_, ?_, ?_, ?_⟩ <;> decide!

/-- The accumulated rounding error of a coordinate that starts exact, after
`k` updates with growth factor `W = (1 + 2^-53)^k`, is at most
`(W * (1 + 2^-53)^7 - 1)` times the magnitude `A + Q`. -/
theorem drift_total (u W Q A : ℚ) (hu : 0 ≤ u) (hW : 1 ≤ W) (hQ : 0 ≤ Q) (hA : 0 ≤ A) :
    W * 0 + W * (7 * u) * Q + (W - 1) * (A + Q) ≤ (W * (1 + u) ^ 7 - 1) * (A + Q) := by
  have hb : 1 + ((7 : ℕ) : ℚ) * u ≤ (1 + u) ^ 7 := one_add_mul_le_pow (by linarith) 7
  have hW0 : 0 ≤ W := by linarith
  have h1 : W * (1 + ((7 : ℕ) : ℚ) * u) ≤ W * (1 + u) ^ 7 := mul_le_mul_of_nonneg_left hb hW0
  have h2 : (W * (1 + ((7 : ℕ) : ℚ) * u) - 1) * (A + Q) ≤ (W * (1 + u) ^ 7 - 1) * (A + Q) :=
    mul_le_mul_of_nonneg_right (by linarith) (by linarith)
  have h3 : 0 ≤ W * u * A := mul_nonneg (mul_nonneg hW0 hu) hA
  push_cast at h2
  nlinarith

/-- C8 (tween arrival and overshoot), amended.  A Shape without gravity and
with bounce disabled starts at `(x0, y0)` and tweens to `(toX, toY)` in
`dur > 0`; update `k` is the first whose partial sum `S` of the elapsed times
reaches `dur`.
In exact arithmetic, for non-negative elapsed times `init ++ [ek]`: the tween
is over at update `k`, the position is `x0 + (toX - x0)*S/dur`,
`y0 + (toY - y0)*S/dur`; it is the target when `S = dur`; the overshoot is at
most the last step's travel `|toX - x0| * ek / dur` (same for y); and later
updates do not move it.
In the double arithmetic of the code, for elapsed times `ns ++ [nk]` that are
whole numbers of milliseconds with a sum of at most `2^53`: the Shape is in
its tween before update `k`; update `k` ends the tween (`inTween = false`,
`vx = vy = 0`); later updates leave the position exactly where update `k`
put it; that position is within
`((1 + 2^-53)^(k+7) - 1) * (|x0| + |toX - x0|*S/dur)` of
`x0 + (toX - x0)*S/dur`, and so within the last step's travel plus this
rounding bound of the target (same for y). -/
theorem tween_arrival (game : Game) (s : Shape) (toX toY dur : ℚ)
    (init : List ℚ) (ek : ℚ) (later : List ℚ) (ns : List ℕ) (nk : ℕ)
    (hg : s.g = 0) (hcor : s.cor = -1) (hdur : 0 < dur)
    (hinit : ∀ e ∈ init, 0 ≤ e)
    (hlt : init.sum < dur) (hge : dur ≤ init.sum + ek)
    (hns : ((ns.sum : ℕ) : ℚ) < dur) (hnk : dur ≤ ((ns.sum + nk : ℕ) : ℚ))
    (hbound : ns.sum + nk ≤ 2 ^ 53) :
    ((Shape.run game (s.tween toX toY dur) (init ++ [ek])).inTween = false ∧
     (Shape.run game (s.tween toX toY dur) (init ++ [ek])).x
       = s.x + (toX - s.x) * (init.sum + ek) / dur ∧
     (Shape.run game (s.tween toX toY dur) (init ++ [ek])).y
       = s.y + (toY - s.y) * (init.sum + ek) / dur ∧
     (init.sum + ek = dur →
       (Shape.run game (s.tween toX toY dur) (init ++ [ek])).x = toX ∧
       (Shape.run game (s.tween toX toY dur) (init ++ [ek])).y = toY) ∧
     |(Shape.run game (s.tween toX toY dur) (init ++ [ek])).x - toX|
       ≤ |toX - s.x| * ek / dur ∧
     |(Shape.run game (s.tween toX toY dur) (init ++ [ek])).y - toY|
       ≤ |toY - s.y| * ek / dur ∧
     (Shape.run game (Shape.run game (s.tween toX toY dur) (init ++ [ek])) later).x
       = (Shape.run game (s.tween toX toY dur) (init ++ [ek])).x ∧
     (Shape.run game (Shape.run game (s.tween toX toY dur) (init ++ [ek])) later).y
       = (Shape.run game (s.tween toX toY dur) (init ++ [ek])).y) ∧
    ((Shape.runD game (s.tweenD toX toY dur) (wholeMs ns)).inTween = true ∧
     (Shape.runD game (s.tweenD toX toY dur) (wholeMs (ns ++ [nk]))).inTween = false ∧
     (Shape.runD game (s.tweenD toX toY dur) (wholeMs (ns ++ [nk]))).vx = 0 ∧
     (Shape.runD game (s.tweenD toX toY dur) (wholeMs (ns ++ [nk]))).vy = 0 ∧
     (Shape.runD game (Shape.runD game (s.tweenD toX toY dur) (wholeMs (ns ++ [nk]))) later).x
       = (Shape.runD game (s.tweenD toX toY dur) (wholeMs (ns ++ [nk]))).x ∧
     (Shape.runD game (Shape.runD game (s.tweenD toX toY dur) (wholeMs (ns ++ [nk]))) later).y
       = (Shape.runD game (s.tweenD toX toY dur) (wholeMs (ns ++ [nk]))).y ∧
     |(Shape.runD game (s.tweenD toX toY dur) (wholeMs (ns ++ [nk]))).x
         - (s.x + (toX - s.x) * ((ns.sum + nk : ℕ) : ℚ) / dur)|
       ≤ ((1 + unitRoundoff) ^ (ns.length + 8) - 1)
           * (|s.x| + |toX - s.x| * ((ns.sum + nk : ℕ) : ℚ) / dur) ∧
     |(Shape.runD game (s.tweenD toX toY dur) (wholeMs (ns ++ [nk]))).y
         - (s.y + (toY - s.y) * ((ns.sum + nk : ℕ) : ℚ) / dur)|
       ≤ ((1 + unitRoundoff) ^ (ns.length + 8) - 1)
           * (|s.y| + |toY - s.y| * ((ns.sum + nk : ℕ) : ℚ) / dur) ∧
     |(Shape.runD game (s.tweenD toX toY dur) (wholeMs (ns ++ [nk]))).x - toX|
       ≤ |toX - s.x| * (nk : ℚ) / dur
         + ((1 + unitRoundoff) ^ (ns.length + 8) - 1)
           * (|s.x| + |toX - s.x| * ((ns.sum + nk : ℕ) : ℚ) / dur) ∧
     |(Shape.runD game (s.tweenD toX toY dur) (wholeMs (ns ++ [nk]))).y - toY|
       ≤ |toY - s.y| * (nk : ℚ) / dur
         + ((1 + unitRoundoff) ^ (ns.length + 8) - 1)
           * (|s.y| + |toY - s.y| * ((ns.sum + nk : ℕ) : ℚ) / dur)) := by
  refine ⟨shape_tween_arrival_exact game s toX toY dur init ek later hg hcor hdur hinit hlt hge,
    ?_⟩
  have hd0 : dur ≠ 0 := ne_of_gt hdur
  have hu := unitRoundoff_nonneg
  have t1 : (s.tweenD toX toY dur).inTween = true := rfl
  have t2 : (s.tweenD toX toY dur).dur = some dur := rfl
  have t3 : (s.tweenD toX toY dur).tweenTime = ((0 : ℕ) : ℚ) := by
    show (0 : ℚ) = ((0 : ℕ) : ℚ)
    norm_num
  have t4 : (s.tweenD toX toY dur).vx = ddiv (dsub toX s.x) (ddiv dur 1000) := rfl
  have t5 : (s.tweenD toX toY dur).vy = ddiv (dsub toY s.y) (ddiv dur 1000) := rfl
  have t6 : (s.tweenD toX toY dur).x = s.x := rfl
  have t7 : (s.tweenD toX toY dur).y = s.y := rfl
  have t8 : (s.tweenD toX toY dur).g = 0 := hg
  have t9 : (s.tweenD toX toY dur).cor = -1 := hcor
  obtain ⟨a1, a2, a3, a5, a6⟩ := shape_runD_tween_cont game dur ns (s.tweenD toX toY dur) 0
    t1 t2 t3 (by omega) (by rw [zero_add]; exact hns)
  rw [zero_add] at a3
  rw [t8] at a5
  rw [t9] at a6
  have hstep : dadd (Shape.runD game (s.tweenD toX toY dur) (wholeMs ns)).tweenTime (nk : ℚ)
      = ((ns.sum + nk : ℕ) : ℚ) := by
    rw [a3]
    exact dadd_nat _ _ hbound
  have hu1 := shape_updateD_tween_done (Shape.runD game (s.tweenD toX toY dur) (wholeMs ns))
    game (nk : ℚ) dur a1 a2 (by rw [hstep]; exact hnk)
  have hb := shape_bounceD_off
    ((Shape.runD game (s.tweenD toX toY dur) (wholeMs ns)).integrateD (nk : ℚ))
    (show ((Shape.runD game (s.tweenD toX toY dur) (wholeMs ns)).integrateD (nk : ℚ)).cor = -1
      from a6)
  have r1 : (Shape.runD game (s.tweenD toX toY dur) (wholeMs (ns ++ [nk]))).inTween = false := by
    rw [wholeMs_append, shape_runD_snoc, hu1]
  have r2 : (Shape.runD game (s.tweenD toX toY dur) (wholeMs (ns ++ [nk]))).vx = 0 := by
    rw [wholeMs_append, shape_runD_snoc, hu1]
  have r3 : (Shape.runD game (s.tweenD toX toY dur) (wholeMs (ns ++ [nk]))).vy = 0 := by
    rw [wholeMs_append, shape_runD_snoc, hu1]
  have r4 : (Shape.runD game (s.tweenD toX toY dur) (wholeMs (ns ++ [nk]))).g = 0 := by
    rw [wholeMs_append, shape_runD_snoc, hu1, hb]
    exact a5
  have r5 : (Shape.runD game (s.tweenD toX toY dur) (wholeMs (ns ++ [nk]))).cor = -1 := by
    rw [wholeMs_append, shape_runD_snoc, hu1, hb]
    exact a6
  have rx : toDouble (Shape.runD game (s.tweenD toX toY dur) (wholeMs (ns ++ [nk]))).x
      = (Shape.runD game (s.tweenD toX toY dur) (wholeMs (ns ++ [nk]))).x := by
    rw [wholeMs_append, shape_runD_snoc, hu1, hb]
    exact toDouble_dadd _ _
  have ry : toDouble (Shape.runD game (s.tweenD toX toY dur) (wholeMs (ns ++ [nk]))).y
      = (Shape.runD game (s.tweenD toX toY dur) (wholeMs (ns ++ [nk]))).y := by
    rw [wholeMs_append, shape_runD_snoc, hu1, hb]
    exact toDouble_dadd _ _
  obtain ⟨l1, l2⟩ := shape_runD_rest_pos game later
    (Shape.runD game (s.tweenD toX toY dur) (wholeMs (ns ++ [nk]))) r1 r5 r4 r2 r3 rx ry
  -- the position: accumulated rounding error against the exact closed form
  obtain ⟨px, py⟩ := shape_runD_arrival_pos game dur ((toX - s.x) / (dur / 1000))
    ((toY - s.y) / (dur / 1000)) nk ns (s.tweenD toX toY dur) 0 s.x s.y t1 t2 t3
    (by omega) (by rw [zero_add]; exact hns) (by rw [zero_add]; exact hnk) t8 t9
    (by rw [t5]; exact toDouble_idem _)
    (by rw [t4]; exact tween_velocity_err s.x toX dur hdur)
    (by rw [t5]; exact tween_velocity_err s.y toY dur hdur)
  have hS : (0 : ℚ) ≤ ((ns.sum + nk : ℕ) : ℚ) := Nat.cast_nonneg _
  have hW : (1 : ℚ) ≤ (1 + unitRoundoff) ^ (ns.length + 1) := one_le_pow₀ (by linarith)
  have close : ∀ p q r : ℚ,
      |r - (p + (q - p) / (dur / 1000) * (((ns.sum + nk : ℕ) : ℚ) / 1000))|
        ≤ (1 + unitRoundoff) ^ (ns.length + 1) * |p - p|
          + (1 + unitRoundoff) ^ (ns.length + 1) * (7 * unitRoundoff)
              * (|(q - p) / (dur / 1000)| * (((ns.sum + nk : ℕ) : ℚ) / 1000))
          + ((1 + unitRoundoff) ^ (ns.length + 1) - 1)
              * (|p| + |(q - p) / (dur / 1000)| * (((ns.sum + nk : ℕ) : ℚ) / 1000)) →
      |r - (p + (q - p) * ((ns.sum + nk : ℕ) : ℚ) / dur)|
        ≤ ((1 + unitRoundoff) ^ (ns.length + 8) - 1)
            * (|p| + |q - p| * ((ns.sum + nk : ℕ) : ℚ) / dur) := by
    intro p q r h
    have e0 : ∀ a S : ℚ, a / (dur / 1000) * (S / 1000) = a * S / dur := by
      intro a S
      field_simp
      ring
    have e2 : |(q - p) / (dur / 1000)| = |q - p| / (dur / 1000) := by
      rw [abs_div, abs_of_pos (show (0 : ℚ) < dur / 1000 from by positivity)]
    rw [e2, e0, e0, sub_self, abs_zero] at h
    have hQ : 0 ≤ |q - p| * ((ns.sum + nk : ℕ) : ℚ) / dur :=
      div_nonneg (mul_nonneg (abs_nonneg _) hS) (le_of_lt hdur)
    have ht := drift_total unitRoundoff ((1 + unitRoundoff) ^ (ns.length + 1))
      (|q - p| * ((ns.sum + nk : ℕ) : ℚ) / dur) |p| hu hW hQ (abs_nonneg _)
    rw [← pow_add] at ht
    exact le_trans h ht
  have over : ∀ p q : ℚ,
      |p + (q - p) * ((ns.sum + nk : ℕ) : ℚ) / dur - q| ≤ |q - p| * (nk : ℚ) / dur := by
    intro p q
    have hrw0 : ∀ S : ℚ, p + (q - p) * S / dur - q = (q - p) * ((S - dur) / dur) := by
      intro S
      field_simp
      ring
    have hrw := hrw0 ((ns.sum + nk : ℕ) : ℚ)
    have hnn : 0 ≤ (((ns.sum + nk : ℕ) : ℚ) - dur) / dur :=
      div_nonneg (by linarith) (le_of_lt hdur)
    rw [hrw, abs_mul, abs_of_nonneg hnn, mul_div_assoc]
    apply mul_le_mul_of_nonneg_left _ (abs_nonneg _)
    apply div_le_div_of_nonneg_right _ (le_of_lt hdur)
    push_cast at hns ⊢
    linarith
  have tri : ∀ r m q b c : ℚ, |r - m| ≤ b → |m - q| ≤ c → |r - q| ≤ c + b := by
    intro r m q b c h1 h2
    have := abs_add (r - m) (m - q)
    rw [sub_add_sub_cancel] at this
    linarith
  rw [t6] at px
  rw [t7] at py
  have bx := close s.x toX _ px
  have by1 := close s.y toY _ py
  exact ⟨a1, r1, r2, r3, l1, l2, bx, by1, tri _ _ _ _ _ bx (over s.x toX),
    tri _ _ _ _ _ by1 (over s.y toY)⟩

/-- Witness of C8 (amended): a gravity-free square at (0,0) tweens to
(100, 50) in 1000 ms and is updated by 400, 400, 400 ms: in exact arithmetic
the third update ends the tween at (120, 60), and a further update does not
move it; in double arithmetic the third update ends the tween too, at an `x`
within `10^-12` of 120, and a further update of 250 ms leaves `x` where it
was. -/
theorem tween_arrival_witness :
    ((Shape.new "square" 0 0 10 10 "red").g = 0 ∧
      (Shape.new "square" 0 0 10 10 "red").cor = -1 ∧ (0 : ℚ) < 1000 ∧
      (∀ e ∈ ([400, 400] : List ℚ), 0 ≤ e) ∧
      ([400, 400] : List ℚ).sum < 1000 ∧ (1000 : ℚ) ≤ ([400, 400] : List ℚ).sum + 400 ∧
      ((([400, 400] : List ℕ).sum : ℕ) : ℚ) < 1000 ∧
      (1000 : ℚ) ≤ ((([400, 400] : List ℕ).sum + 400 : ℕ) : ℚ) ∧
      ([400, 400] : List ℕ).sum + 400 ≤ 2 ^ 53) ∧
    (Shape.run exGame ((Shape.new "square" 0 0 10 10 "red").tween 100 50 1000)
      ([400, 400] ++ [400])).x = 120 ∧
    (Shape.run exGame ((Shape.new "square" 0 0 10 10 "red").tween 100 50 1000)
      ([400, 400] ++ [400])).y = 60 ∧
    (Shape.run exGame (Shape.run exGame
      ((Shape.new "square" 0 0 10 10 "red").tween 100 50 1000)
      ([400, 400] ++ [400])) [250]).x = 120 ∧
    (Shape.runD exGame ((Shape.new "square" 0 0 10 10 "red").tweenD 100 50 1000)
      (wholeMs ([400, 400] ++ [400]))).inTween = false ∧
    (Shape.runD exGame (Shape.runD exGame
      ((Shape.new "square" 0 0 10 10 "red").tweenD 100 50 1000)
      (wholeMs ([400, 400] ++ [400]))) [250]).x
      = (Shape.runD exGame ((Shape.new "square" 0 0 10 10 "red").tweenD 100 50 1000)
      (wholeMs ([400, 400] ++ [400]))).x ∧
    |(Shape.runD exGame ((Shape.new "square" 0 0 10 10 "red").tweenD 100 50 1000)
      (wholeMs ([400, 400] ++ [400]))).x - 120| ≤ 1 / 10 ^ 12 := by
  have h1 : (Shape.new "square" 0 0 10 10 "red").g = 0 := rfl
  have h2 : (Shape.new "square" 0 0 10 10 "red").cor = -1 := rfl
  have h3 : (0 : ℚ) < 1000 := by norm_num
  have h4 : ∀ e ∈ ([400, 400] : List ℚ), 0 ≤ e := by
    intro e he
    simp only [List.mem_cons, List.mem_singleton, List.not_mem_nil, or_false, or_self] at he
    rw [he]
    norm_num
  have h5 : ([400, 400] : List ℚ).sum < 1000 := by norm_num
  have h6 : (1000 : ℚ) ≤ ([400, 400] : List ℚ).sum + 400 := by norm_num
  have h7 : ((([400, 400] : List ℕ).sum : ℕ) : ℚ) < 1000 := by norm_num
  have h8 : (1000 : ℚ) ≤ ((([400, 400] : List ℕ).sum + 400 : ℕ) : ℚ) := by norm_num
  have h9 : ([400, 400] : List ℕ).sum + 400 ≤ 2 ^ 53 := by decide
  obtain ⟨⟨_, kx, ky, _, _, _, lx, _⟩, _, d1, _, _, dx, _, bx, _, _, _⟩ :=
    tween_arrival exGame (Shape.new "square" 0 0 10 10 "red") 100 50 1000 [400, 400] 400
      [250] [400, 400] 400 h1 h2 h3 h4 h5 h6 h7 h8 h9
  have ex : (Shape.run exGame ((Shape.new "square" 0 0 10 10 "red").tween 100 50 1000)
      ([400, 400] ++ [400])).x = 120 := by
    rw [kx]
    norm_num [Shape.new]
  have e1 : (Shape.new "square" 0 0 10 10 "red").x
      + (100 - (Shape.new "square" 0 0 10 10 "red").x)
        * ((([400, 400] : List ℕ).sum + 400 : ℕ) : ℚ) / 1000 = 120 := by
    norm_num [Shape.new]
  rw [e1] at bx
  refine ⟨⟨h1, h2, h3, h4, h5, h6, h7, h8, h9⟩, ex, ?_, ?_, d1, dx, le_trans bx ?_⟩
  · rw [ky]
    norm_num [Shape.new]
  · rw [lx, ex]
  · norm_num [Shape.new, unitRoundoff]

/-! ## Tween state isolation -/

/-- Rounding to a double gives zero only for zero. -/
theorem toDouble_eq_zero_iff (z : ℚ) : toDouble z = 0 ↔ z = 0 := by
  constructor
  · intro h
    have he := toDouble_err z
    rw [h, zero_sub, abs_neg] at he
    have hu : unitRoundoff < 1 := by
      unfold unitRoundoff
      norm_num
    have hz : |z| ≤ 0 := by
      by_contra hpos
      push_neg at hpos
      have : unitRoundoff * |z| < 1 * |z| := mul_lt_mul_of_pos_right hu hpos
      linarith
    exact abs_eq_zero.mp (le_antisymm hz (abs_nonneg z))
  · intro h
    rw [h]
    exact toDouble_zero

theorem shape_bounceD_above (s : Shape) (h : dadd s.y s.height < s.floor) : s.bounceD = s := by
  simp [Shape.bounceD, not_le.mpr h]

theorem shape_bounceD_hit (s : Shape) (h : s.cor ≠ -1) (hf : dadd s.y s.height ≥ s.floor) :
    s.bounceD = { s with y := dsub s.floor s.height, vy := dmul s.vy (-s.cor) } := by
  simp [Shape.bounceD, h, hf]

/-- The double model of `update` leaves gravity, the bounce settings and the
appearance of a Shape as they are. -/
theorem shape_updateD_frame (s : Shape) (game : Game) (e : ℚ) :
    (s.updateD game e).1.g = s.g ∧ (s.updateD game e).1.floor = s.floor ∧
    (s.updateD game e).1.cor = s.cor ∧ (s.updateD game e).1.width = s.width ∧
    (s.updateD game e).1.height = s.height ∧ (s.updateD game e).1.shape = s.shape ∧
    (s.updateD game e).1.color = s.color := by
  rw [shape_updateD_fst]
  unfold Shape.tweenStepD Shape.bounceD
  dsimp only
  split_ifs <;> exact ⟨rfl, rfl, rfl, rfl, rfl, rfl, rfl⟩

/-- C18 (tween state isolation) fails as stated: `update` can zero the
vertical velocity of a Shape that is not in a tween.  The square
`absorbShape` (cor = 0, floor 100, height 10, y = 85, vy = 50) reaches the
floor in 100 ms and the bounce leaves it with vy = 0, in exact and in double
arithmetic alike. -/
theorem tween_isolation_counterexample :
    absorbShape.inTween = false ∧ absorbShape.vy = 50 ∧
    (absorbShape.update exGame 100).1.inTween = false ∧
    (absorbShape.update exGame 100).1.y = 90 ∧
    (absorbShape.update exGame 100).1.vy = 0 ∧
    (absorbShape.updateD exGame 100).1.y = 90 ∧
    (absorbShape.updateD exGame 100).1.vy = 0 := by
  refine ⟨rfl, rfl, ?_, ?_, ?_, ?_, ?_⟩
  · norm_num [absorbShape, Shape.new, Shape.setCoefficientOfRestitution, Shape.update,
      Shape.integrate, Shape.bounce, Shape.tweenStep]
  · norm_num [absorbShape, Shape.new, Shape.setCoefficientOfRestitution, Shape.update,
      Shape.integrate, Shape.bounce, Shape.tweenStep]
  · norm_num [absorbShape, Shape.new, Shape.setCoefficientOfRestitution, Shape.update,
      Shape.integrate, Shape.bounce, Shape.tweenStep]
  · decide!
  · decide!

/-- C18 (tween state isolation), amended.  For a Shape with
`inTween = false`, `update` leaves `inTween`, `tweenTime` and the stored
duration as they are and runs integration and bounce alone: `vx` is
unchanged, and `vy` becomes `vy + g*e/1000`, multiplied by `-cor` when bounce
is enabled and the integrated lower edge reaches the floor; so the new `vy`
is 0 exactly when the integrated velocity is 0 or the Shape hits the floor
with cor = 0.  For every Shape, `update` and `tween` leave g, floor, cor,
width, height, shape and color unchanged, and
`setCoefficientOfRestitution(floor, cor)` changes only floor and cor.
All of it is shown twice: with exact operations (`update`, `tween`) and with
every operation rounded to a double (`updateD`, `tweenD`), where the
integrated velocity and the floor test are the rounded ones. -/
theorem tween_isolation (game : Game) (s : Shape) (e toX toY dur fl c : ℚ) :
    (s.inTween = false →
      (s.update game e).1.inTween = false ∧
      (s.update game e).1.tweenTime = s.tweenTime ∧
      (s.update game e).1.dur = s.dur ∧
      (s.update game e).1 = (s.integrate e).bounce ∧
      (s.update game e).1.vx = s.vx ∧
      (s.cor = -1 → (s.update game e).1.vy = s.vy + s.g * (e / 1000)) ∧
      (s.cor ≠ -1 → (s.integrate e).y + s.height < s.floor →
        (s.update game e).1.vy = s.vy + s.g * (e / 1000)) ∧
      (s.cor ≠ -1 → (s.integrate e).y + s.height ≥ s.floor →
        (s.update game e).1.vy = (s.vy + s.g * (e / 1000)) * -s.cor) ∧
      ((s.update game e).1.vy = 0 ↔
        s.vy + s.g * (e / 1000) = 0 ∨
          (s.cor = 0 ∧ (s.integrate e).y + s.height ≥ s.floor))) ∧
    ((s.update game e).1.g = s.g ∧ (s.update game e).1.floor = s.floor ∧
      (s.update game e).1.cor = s.cor ∧ (s.update game e).1.width = s.width ∧
      (s.update game e).1.height = s.height ∧ (s.update game e).1.shape = s.shape ∧
      (s.update game e).1.color = s.color) ∧
    ((s.tween toX toY dur).g = s.g ∧ (s.tween toX toY dur).floor = s.floor ∧
      (s.tween toX toY dur).cor = s.cor ∧ (s.tween toX toY dur).width = s.width ∧
      (s.tween toX toY dur).height = s.height ∧ (s.tween toX toY dur).shape = s.shape ∧
      (s.tween toX toY dur).color = s.color) ∧
    s.setCoefficientOfRestitution fl c = { s with floor := fl, cor := c } ∧
    (s.inTween = false →
      (s.updateD game e).1.inTween = false ∧
      (s.updateD game e).1.tweenTime = s.tweenTime ∧
      (s.updateD game e).1.dur = s.dur ∧
      (s.updateD game e).1 = (s.integrateD e).bounceD ∧
      (s.updateD game e).1.vx = s.vx ∧
      (s.cor = -1 → (s.updateD game e).1.vy = dadd s.vy (dmul s.g (ddiv e 1000))) ∧
      (s.cor ≠ -1 → dadd (s.integrateD e).y s.height < s.floor →
        (s.updateD game e).1.vy = dadd s.vy (dmul s.g (ddiv e 1000))) ∧
      (s.cor ≠ -1 → dadd (s.integrateD e).y s.height ≥ s.floor →
        (s.updateD game e).1.vy = dmul (dadd s.vy (dmul s.g (ddiv e 1000))) (-s.cor)) ∧
      ((s.updateD game e).1.vy = 0 ↔
        dadd s.vy (dmul s.g (ddiv e 1000)) = 0 ∨
          (s.cor = 0 ∧ dadd (s.integrateD e).y s.height ≥ s.floor))) ∧
    ((s.updateD game e).1.g = s.g ∧ (s.updateD game e).1.floor = s.floor ∧
      (s.updateD game e).1.cor = s.cor ∧ (s.updateD game e).1.width = s.width ∧
      (s.updateD game e).1.height = s.height ∧ (s.updateD game e).1.shape = s.shape ∧
      (s.updateD game e).1.color = s.color) ∧
    ((s.tweenD toX toY dur).g = s.g ∧ (s.tweenD toX toY dur).floor = s.floor ∧
      (s.tweenD toX toY dur).cor = s.cor ∧ (s.tweenD toX toY dur).width = s.width ∧
      (s.tweenD toX toY dur).height = s.height ∧ (s.tweenD toX toY dur).shape = s.shape ∧
      (s.tweenD toX toY dur).color = s.color) := by
  refine ⟨?_, shape_update_frame s game e, ⟨rfl, rfl, rfl, rfl, rfl, rfl, rfl⟩, rfl, ?_,
    shape_updateD_frame s game e, ⟨rfl, rfl, rfl, rfl, rfl, rfl, rfl⟩⟩
  · intro ht
    have hu := shape_update_idle s game e ht
    have hoff : s.cor = -1 → (s.update game e).1.vy = s.vy + s.g * (e / 1000) := by
      intro hc
      rw [shape_update_off s game e ht hc]
      rfl
    have habove : s.cor ≠ -1 → (s.integrate e).y + s.height < s.floor →
        (s.update game e).1.vy = s.vy + s.g * (e / 1000) := by
      intro _ hlt
      rw [hu, shape_bounce_above (s.integrate e) hlt]
      rfl
    have hhit : s.cor ≠ -1 → (s.integrate e).y + s.height ≥ s.floor →
        (s.update game e).1.vy = (s.vy + s.g * (e / 1000)) * -s.cor := by
      intro hc hge
      rw [hu, shape_bounce_hit (s.integrate e) hc hge]
      rfl
    refine ⟨?_, ?_, ?_, hu, ?_, hoff, habove, hhit, ?_⟩
    · rw [hu, shape_bounce_inTween]
      exact ht
    · rw [hu, shape_bounce_tweenTime]
      rfl
    · rw [hu, shape_bounce_dur]
      rfl
    · rw [hu, shape_bounce_vx]
      rfl
    · by_cases hc : s.cor = -1
      · rw [hoff hc]
        constructor
        · intro h
          exact Or.inl h
        · rintro (h | ⟨h0, _⟩)
          · exact h
          · rw [hc] at h0
            norm_num at h0
      · rcases lt_or_le ((s.integrate e).y + s.height) s.floor with hlt | hge
        · rw [habove hc hlt]
          constructor
          · intro h
            exact Or.inl h
          · rintro (h | ⟨_, hge⟩)
            · exact h
            · exact absurd hlt (not_lt.mpr hge)
        · rw [hhit hc hge]
          constructor
          · intro h
            rcases mul_eq_zero.mp h with h | h
            · exact Or.inl h
            · exact Or.inr ⟨neg_eq_zero.mp h, hge⟩
          · rintro (h | ⟨h0, _⟩)
            · rw [h, zero_mul]
            · rw [h0, neg_zero, mul_zero]
  · intro ht
    have hu := shape_updateD_idle s game e ht
    obtain ⟨b1, b2, b3, b4, _, _, _⟩ := shape_bounceD_fields (s.integrateD e)
    have hoff : s.cor = -1 →
        (s.updateD game e).1.vy = dadd s.vy (dmul s.g (ddiv e 1000)) := by
      intro hc
      rw [hu, shape_bounceD_off (s.integrateD e) (show (s.integrateD e).cor = -1 from hc)]
      rfl
    have habove : s.cor ≠ -1 → dadd (s.integrateD e).y s.height < s.floor →
        (s.updateD game e).1.vy = dadd s.vy (dmul s.g (ddiv e 1000)) := by
      intro _ hlt
      rw [hu, shape_bounceD_above (s.integrateD e) hlt]
      rfl
    have hhit : s.cor ≠ -1 → dadd (s.integrateD e).y s.height ≥ s.floor →
        (s.updateD game e).1.vy = dmul (dadd s.vy (dmul s.g (ddiv e 1000))) (-s.cor) := by
      intro hc hge
      rw [hu, shape_bounceD_hit (s.integrateD e) hc hge]
      rfl
    refine ⟨?_, ?_, ?_, hu, ?_, hoff, habove, hhit, ?_⟩
    · rw [hu, b1]
      exact ht
    · rw [hu, b3]
      rfl
    · rw [hu, b2]
      rfl
    · rw [hu, b4]
      rfl
    · by_cases hc : s.cor = -1
      · rw [hoff hc]
        constructor
        · intro h
          exact Or.inl h
        · rintro (h | ⟨h0, _⟩)
          · exact h
          · rw [hc] at h0
            norm_num at h0
      · rcases lt_or_le (dadd (s.integrateD e).y s.height) s.floor with hlt | hge
        · rw [habove hc hlt]
          constructor
          · intro h
            exact Or.inl h
          · rintro (h | ⟨_, hge⟩)
            · exact h
            · exact absurd hlt (not_lt.mpr hge)
        · rw [hhit hc hge]
          unfold dmul
          rw [toDouble_eq_zero_iff]
          constructor
          · intro h
            rcases mul_eq_zero.mp h with h | h
            · exact Or.inl h
            · exact Or.inr ⟨neg_eq_zero.mp h, hge⟩
          · rintro (h | ⟨h0, _⟩)
            · rw [h, zero_mul]
            · rw [h0, neg_zero, mul_zero]

/-- Witness of C18 (amended): the sunk Shape (no tween, bounce disabled,
vx = 20, vy = 40, g = 10) keeps its tween state through an update of 100 ms
and is not stopped. -/
theorem tween_isolation_witness :
    (sunkShape.inTween = false ∧ sunkShape.cor = -1) ∧
    (sunkShape.update exGame 100).1.inTween = false ∧
    (sunkShape.update exGame 100).1.tweenTime = 0 ∧
    (sunkShape.update exGame 100).1.dur = none ∧
    (sunkShape.update exGame 100).1.vx = 20 ∧
    (sunkShape.update exGame 100).1.vy = 41 ∧
    (sunkShape.updateD exGame 100).1.inTween = false ∧
    (sunkShape.updateD exGame 100).1.vx = 20 := by
  have ht : sunkShape.inTween = false := rfl
  have hc : sunkShape.cor = -1 := rfl
  obtain ⟨k, _, _, _, kD, _, _⟩ := tween_isolation exGame sunkShape 100 0 0 1 0 0
  obtain ⟨k1, k2, k3, _, k5, k6, _, _, _⟩ := k ht
  obtain ⟨d1, _, _, _, d5, _, _, _, _⟩ := kD ht
  refine ⟨⟨ht, hc⟩, k1, ?_, ?_, ?_, ?_, d1, ?_⟩
  · rw [k2]
    rfl
  · rw [k3]
    rfl
  · rw [k5]
    rfl
  · rw [k6 hc]
    norm_num [sunkShape, Shape.new]
  · rw [d5]
    rfl

end GameAPI
